import Mathlib

/-!
# OpenRCT2 file index (`src/openrct2/core/FileIndex.hpp`)

A shallow embedding of the template class `FileIndex<TItem>`: the directory
fingerprint computed by `Scan`, the partition of the scanned files into
ranges and the per-range jobs of `Build`, and the cache file written by
`WriteIndexFile` and read back by `ReadIndexFile`.

Conventions.
* Unsigned machine integers are natural numbers, reduced explicitly
  (`u8`, `u16`, `u32`, `u64`) wherever the C++ type wraps around.
  `int32_t` values are integers.
* `std::string` and file contents are lists of bytes.
* What the sources leave to the compilation target (byte order, signedness
  of plain `char`, alignment of `uint64_t`) is a field of `Host`.
* The virtual members `Create`, `Serialise`, `Deserialise` and the external
  directory scanner are parameters.
-/

namespace OpenRCT2

/-! ## Machine integers -/

/-- Conversion to `uint8_t`. -/
def u8 (x : Nat) : Nat := x % 2 ^ 8

/-- Conversion to `uint16_t`. -/
def u16 (x : Nat) : Nat := x % 2 ^ 16

/-- Conversion to `uint32_t`. -/
def u32 (x : Nat) : Nat := x % 2 ^ 32

/-- Conversion to `uint64_t`. -/
def u64 (x : Nat) : Nat := x % 2 ^ 64

/-- Conversion of a signed integer to `uint16_t` (reduction modulo 2^16). -/
def u16OfInt (v : Int) : Nat := (v % 2 ^ 16).toNat

/-- Conversion of a signed integer to `uint32_t` (reduction modulo 2^32). -/
def u32OfInt (v : Int) : Nat := (v % 2 ^ 32).toNat

/-- Range of `int32_t`. -/
def isInt32 (v : Int) : Prop := -(2 ^ 31) ≤ v ∧ v < 2 ^ 31

instance (v : Int) : Decidable (isInt32 v) := by
  unfold isInt32; infer_instance

/-- A `std::string`: its bytes. -/
abbrev StdString := List UInt8

/-- What the C++ sources leave to the compilation target. -/
structure Host where
  /-- Whether `__BYTE_ORDER__ == __ORDER_BIG_ENDIAN__` (util/Endian.h). -/
  bigEndian : Bool
  /-- Whether plain `char`, the type behind `utf8` (`const utf8* ch = path.c_str()`),
  is a signed type. -/
  charSigned : Bool
  /-- Whether `uint64_t` members are aligned to 8 bytes in a struct (to 4 bytes otherwise). -/
  align64 : Bool
  /-- The value found in the padding bytes of a struct (indeterminate in C++). -/
  padding : UInt8
deriving DecidableEq, Repr

/-- The macro `ror32(x, shift)` that `Scan` calls. Its definition is in common.h, which is
not among the sources at hand; the embedding is the 32-bit rotation to the right that the
name stands for: `((uint32_t)(x) >> shift) | ((uint32_t)(x) << (32 - shift))`. -/
def ror32 (x shift : Nat) : Nat :=
  (u32 x >>> shift) ||| u32 (u32 x <<< (32 - shift))

/-- The 32-bit rotation to the left, `((uint32_t)(x) << shift) | ((uint32_t)(x) >> (32 - shift))`;
it is not used by the sources and serves to state the fold the way the specification words it. -/
def rol32 (x shift : Nat) : Nat :=
  u32 (u32 x <<< shift) ||| (u32 x >>> (32 - shift))

/-! ## Data model -/

/-- The struct `FileIndex::DirectoryStats`. -/
structure DirectoryStats where
  /-- A `uint32_t`. -/
  TotalFiles : Nat := 0
  /-- A `uint64_t`. -/
  TotalFileSize : Nat := 0
  /-- A `uint32_t`. -/
  FileDateModifiedChecksum : Nat := 0
  /-- A `uint32_t`. -/
  PathChecksum : Nat := 0
deriving DecidableEq, Repr

/-- The fields of a `DirectoryStats` are within the range of their C++ types. -/
def DirectoryStats.InRange (s : DirectoryStats) : Prop :=
  s.TotalFiles < 2 ^ 32 ∧ s.TotalFileSize < 2 ^ 64 ∧ s.FileDateModifiedChecksum < 2 ^ 32
    ∧ s.PathChecksum < 2 ^ 32

instance (s : DirectoryStats) : Decidable s.InRange := by
  unfold DirectoryStats.InRange; infer_instance

/-- The struct `FileIndex::ScanResult`. -/
structure ScanResult where
  Stats : DirectoryStats
  Files : List StdString
deriving DecidableEq, Repr

/-- Modelled from the spec: what the directory scanner (FileScanner.h, not among the sources
at hand) yields for one file, the FileDescriptor of the data model: `scanner->GetPath()`,
`fileInfo->Size` and `fileInfo->LastModified`, the latter two `uint64_t`. -/
structure FileDescriptor where
  Path : StdString
  Size : Nat
  LastModified : Nat
deriving DecidableEq, Repr

/-- The constant members of a `FileIndex<TItem>` object that the embedded functions read.
`FILE_INDEX_VERSION` is `static constexpr uint8_t FILE_INDEX_VERSION = 4` in this revision;
it is a field, with that default, because the build that wrote a cache file and the build that
reads it may differ in it ("Index file format version which when incremented forces a
rebuild"). -/
structure FileIndex where
  /-- A `uint32_t`. -/
  _magicNumber : Nat
  /-- A `uint8_t`. -/
  _version : Nat
  SearchPaths : List StdString
  /-- A `uint8_t`. -/
  FILE_INDEX_VERSION : Nat := 4
deriving DecidableEq, Repr

/-- The members of a `FileIndex` are within the range of their C++ types. -/
def FileIndex.InRange (self : FileIndex) : Prop :=
  self._magicNumber < 2 ^ 32 ∧ self._version < 2 ^ 8 ∧ self.FILE_INDEX_VERSION < 2 ^ 8

instance (self : FileIndex) : Decidable self.InRange := by
  unfold FileIndex.InRange; infer_instance

/-! ## `GetPathChecksum` and `Scan` -/

/-- The value of `*ch` for a `const utf8* ch` after integral promotion: the byte itself where
plain `char` is unsigned, the byte read as a two's complement number where it is signed. -/
def charValue (host : Host) (ch : UInt8) : Int :=
  if host.charSigned ∧ 128 ≤ ch.toNat then (ch.toNat : Int) - 256 else (ch.toNat : Int)

/-- The body of the loop of `GetPathChecksum`:
`hash += (*ch); hash += (hash << 10); hash ^= (hash >> 6);`. -/
def GetPathChecksum.next (host : Host) (hash : Nat) (ch : UInt8) : Nat :=
  let hash := u32 (hash + u32OfInt (charValue host ch))
  let hash := u32 (hash + u32 (hash <<< 10))
  hash ^^^ (hash >>> 6)

/-- The function `FileIndex::GetPathChecksum`. The loop runs over `path.c_str()` up to the
first NUL byte. -/
def GetPathChecksum (host : Host) (path : StdString) : Nat :=
  let hash := (path.takeWhile (fun ch => ch ≠ 0)).foldl (GetPathChecksum.next host) 0xD8430DED
  let hash := u32 (hash + u32 (hash <<< 3))
  let hash := hash ^^^ (hash >>> 11)
  u32 (hash + u32 (hash <<< 15))

/-- The body of the `while (scanner->Next())` loop of `Scan`, on the pair of the local
variables `stats` and `files`. -/
def Scan.next (host : Host) (acc : DirectoryStats × List StdString) (fileInfo : FileDescriptor) :
    DirectoryStats × List StdString :=
  let stats := acc.1
  let path := fileInfo.Path
  let files := acc.2 ++ [path]
  let stats := { stats with TotalFiles := u32 (stats.TotalFiles + 1) }
  let stats := { stats with TotalFileSize := u64 (stats.TotalFileSize + u64 fileInfo.Size) }
  let stats := { stats with
    FileDateModifiedChecksum := stats.FileDateModifiedChecksum
      ^^^ (u32 (u64 fileInfo.LastModified >>> 32) ^^^ u32 (u64 fileInfo.LastModified &&& 0xFFFFFFFF)) }
  let stats := { stats with FileDateModifiedChecksum := ror32 stats.FileDateModifiedChecksum 5 }
  let stats := { stats with PathChecksum := u32 (stats.PathChecksum + GetPathChecksum host path) }
  (stats, files)

/-- The function `FileIndex::Scan`. `ScanDirectory directory` stands for the sequence of files
that `Path::ScanDirectory(Path::Combine(Path::GetAbsolute(directory), _pattern), true)` yields,
in the order in which the scanner yields them. -/
def Scan (host : Host) (ScanDirectory : StdString → List FileDescriptor) (self : FileIndex) :
    ScanResult :=
  let acc := self.SearchPaths.foldl
    (fun acc directory => (ScanDirectory directory).foldl (Scan.next host) acc)
    (({} : DirectoryStats), ([] : List StdString))
  ⟨acc.1, acc.2⟩

/-- The sequence of all file descriptors of one scan pass: those of the first search path in
scanner order, then those of the second, and so on. -/
def scanSequence (ScanDirectory : StdString → List FileDescriptor) (self : FileIndex) :
    List FileDescriptor :=
  self.SearchPaths.flatMap ScanDirectory

/-! ## Byte order (`src/openrct2/util/Endian.h`) -/

/-- The function `ORCT_bswap16`: `static_cast<uint16_t>((x << 8) | (x >> 8))`, the shifts
being computed on the promoted `int`. -/
def ORCT_bswap16 (x : Nat) : Nat :=
  u16 ((u16 x <<< 8) ||| (u16 x >>> 8))

/-- The function `ORCT_bswap32`:
`(x << 24) | ((x << 8) & 0x00FF0000) | ((x >> 8) & 0x0000FF00) | (x >> 24)` on `uint32_t`. -/
def ORCT_bswap32 (x : Nat) : Nat :=
  u32 (u32 (u32 x <<< 24) ||| (u32 (u32 x <<< 8) &&& 0x00FF0000)
    ||| ((u32 x >>> 8) &&& 0x0000FF00) ||| (u32 x >>> 24))

/-- The function `ORCT_bswap64` on `uint64_t`. -/
def ORCT_bswap64 (x : Nat) : Nat :=
  u64 ((u64 x >>> 56)
    ||| ((u64 x &&& 0x00ff000000000000) >>> 40)
    ||| ((u64 x &&& 0x0000ff0000000000) >>> 24)
    ||| ((u64 x &&& 0x000000ff00000000) >>> 8)
    ||| u64 ((u64 x &&& 0x00000000ff000000) <<< 8)
    ||| u64 ((u64 x &&& 0x0000000000ff0000) <<< 24)
    ||| u64 ((u64 x &&& 0x000000000000ff00) <<< 40)
    ||| u64 (u64 x <<< 56))

/-- The macro `ORCT_ensure_value_is_little_endian16`: the byte swap on a big-endian host, the
identity on a little-endian one. -/
def ORCT_ensure_value_is_little_endian16 (host : Host) (x : Nat) : Nat :=
  if host.bigEndian then ORCT_bswap16 x else x

/-- The macro `ORCT_ensure_value_is_little_endian32`. -/
def ORCT_ensure_value_is_little_endian32 (host : Host) (x : Nat) : Nat :=
  if host.bigEndian then ORCT_bswap32 x else x

/-- The macro `ORCT_ensure_value_is_little_endian64`. -/
def ORCT_ensure_value_is_little_endian64 (host : Host) (x : Nat) : Nat :=
  if host.bigEndian then ORCT_bswap64 x else x

/-! ## Objects in memory and in the stream -/

/-- The `width` low bytes of `x`, least significant first. -/
def bytesLE : Nat → Nat → List UInt8
  | 0, _ => []
  | width + 1, x => UInt8.ofNat (x % 256) :: bytesLE width (x / 256)

/-- The number whose bytes, least significant first, are `bytes`. -/
def valueLE : List UInt8 → Nat
  | [] => 0
  | b :: bytes => b.toNat + 256 * valueLE bytes

/-- The object representation of an unsigned integer of `width` bytes on the host. -/
def storeInt (host : Host) (width x : Nat) : List UInt8 :=
  if host.bigEndian then (bytesLE width x).reverse else bytesLE width x

/-- The unsigned integer that the host reads from an object representation. -/
def loadInt (host : Host) (bytes : List UInt8) : Nat :=
  if host.bigEndian then valueLE bytes.reverse else valueLE bytes

/-- Reads `count` bytes from the front of a stream; `none` stands for the exception raised
when the stream ends before. -/
def readBytes (count : Nat) (stream : List UInt8) : Option (List UInt8 × List UInt8) :=
  if count ≤ stream.length then some (stream.take count, stream.drop count) else none

/-- Reads an unsigned integer of `width` bytes, in host byte order, from the front of a stream. -/
def readInt (host : Host) (width : Nat) (stream : List UInt8) : Option (Nat × List UInt8) :=
  (readBytes width stream).map fun r => (loadInt host r.1, r.2)

/-- The struct `FileIndex::FileIndexHeader`. -/
structure FileIndexHeader where
  /-- A `uint32_t`, initialised to `sizeof(FileIndexHeader)`. -/
  HeaderSize : Nat
  /-- A `uint32_t`. -/
  MagicNumber : Nat := 0
  /-- A `uint8_t`. -/
  VersionA : Nat := 0
  /-- A `uint8_t`. -/
  VersionB : Nat := 0
  /-- A `uint16_t`. -/
  LanguageId : Nat := 0
  Stats : DirectoryStats := {}
  /-- A `uint32_t`. -/
  NumItems : Nat := 0
deriving DecidableEq, Repr

/-- The number of padding bytes that bring an offset that is an odd multiple of 4 to the
alignment of `uint64_t`. -/
def padTo64 (host : Host) : Nat := if host.align64 then 4 else 0

/-- The value of `sizeof(FileIndexHeader)`: 36 bytes of members, and 12 bytes of padding where
`uint64_t` is aligned to 8 bytes. -/
def sizeofFileIndexHeader (host : Host) : Nat := 36 + 3 * padTo64 host

/-- Modelled from the spec: `IStream::WriteValue<FileIndexHeader>` (IStream.hpp, not among the
sources at hand) writes the header struct as it lies in memory: the members in declaration
order, each in host byte order, with the padding of the host's struct layout. -/
def FileIndexHeader.toBytes (host : Host) (header : FileIndexHeader) : List UInt8 :=
  storeInt host 4 header.HeaderSize
    ++ storeInt host 4 header.MagicNumber
    ++ storeInt host 1 header.VersionA
    ++ storeInt host 1 header.VersionB
    ++ storeInt host 2 header.LanguageId
    ++ List.replicate (padTo64 host) host.padding
    ++ storeInt host 4 header.Stats.TotalFiles
    ++ List.replicate (padTo64 host) host.padding
    ++ storeInt host 8 header.Stats.TotalFileSize
    ++ storeInt host 4 header.Stats.FileDateModifiedChecksum
    ++ storeInt host 4 header.Stats.PathChecksum
    ++ storeInt host 4 header.NumItems
    ++ List.replicate (padTo64 host) host.padding

/-- Modelled from the spec: `IStream::ReadValue<FileIndexHeader>` (IStream.hpp, not among the
sources at hand) reads `sizeof(FileIndexHeader)` bytes into a header struct, member by member
in host byte order; `none` stands for the exception raised when the stream ends before. -/
def FileIndexHeader.read (host : Host) (stream : List UInt8) :
    Option (FileIndexHeader × List UInt8) := do
  let (HeaderSize, stream) ← readInt host 4 stream
  let (MagicNumber, stream) ← readInt host 4 stream
  let (VersionA, stream) ← readInt host 1 stream
  let (VersionB, stream) ← readInt host 1 stream
  let (LanguageId, stream) ← readInt host 2 stream
  let (_, stream) ← readBytes (padTo64 host) stream
  let (TotalFiles, stream) ← readInt host 4 stream
  let (_, stream) ← readBytes (padTo64 host) stream
  let (TotalFileSize, stream) ← readInt host 8 stream
  let (FileDateModifiedChecksum, stream) ← readInt host 4 stream
  let (PathChecksum, stream) ← readInt host 4 stream
  let (NumItems, stream) ← readInt host 4 stream
  let (_, stream) ← readBytes (padTo64 host) stream
  pure ({ HeaderSize, MagicNumber, VersionA, VersionB, LanguageId,
          Stats := { TotalFiles, TotalFileSize, FileDateModifiedChecksum, PathChecksum },
          NumItems }, stream)

/-- Modelled from the spec: the file at `_indexPath` as `File::Exists` and `FileStream`
(File.h and FileStream.hpp, not among the sources at hand) show it. -/
structure Disk where
  /-- The content of the file; `none` when the file does not exist. -/
  file : Option (List UInt8)
  /-- Whether `FileStream(_indexPath, FILE_MODE_OPEN)` opens the file (it raises otherwise). -/
  readable : Bool
  /-- Whether `Path::CreateDirectory` and `FileStream(_indexPath, FILE_MODE_WRITE)` go through
  (an exception is raised otherwise). -/
  writable : Bool
  /-- The number of bytes that can still be written before a write raises an exception. -/
  space : Nat
deriving DecidableEq, Repr

/-- Modelled from the spec: a write of `bytes` at the end of the open file; `none` stands for
the exception of a failed write. -/
def Disk.Write (disk : Disk) (bytes : List UInt8) : Option Disk :=
  if bytes.length ≤ disk.space then
    some { disk with file := some (disk.file.getD [] ++ bytes), space := disk.space - bytes.length }
  else none

/-! ## The cache file: `WriteIndexFile` and `ReadIndexFile` -/

section
variable {TItem : Type}

/-- The loop `for (const auto& item : items) Serialise(&fs, item)` of `WriteIndexFile`;
`Serialise item` stands for the bytes that the virtual member `Serialise` writes for `item`.
The result holds the state of the file and whether the loop ended without an exception. -/
def WriteIndexFile.writeItems (Serialise : TItem → List UInt8) : List TItem → Disk → Disk × Bool
  | [], disk => (disk, true)
  | item :: items, disk =>
    match disk.Write (Serialise item) with
    | none => (disk, false)
    | some disk => WriteIndexFile.writeItems Serialise items disk

/-- The header that `WriteIndexFile` fills in (the block "Write header"): `HeaderSize` keeps
its initial value `sizeof(FileIndexHeader)`, `LanguageId = language` converts the `int32_t` to
`uint16_t`, and `NumItems` is `static_cast<uint32_t>(items.size())`. -/
def WriteIndexFile.header (host : Host) (self : FileIndex) (language : Int)
    (stats : DirectoryStats) (items : List TItem) : FileIndexHeader :=
  { HeaderSize := sizeofFileIndexHeader host
    MagicNumber := self._magicNumber
    VersionA := self.FILE_INDEX_VERSION
    VersionB := self._version
    LanguageId := u16OfInt language
    Stats := stats
    NumItems := u32 items.length }

/-- The function `FileIndex::WriteIndexFile`. The result holds the state of the file after
the call and whether the `try` block ended without an exception (no "Unable to save index"
was logged). Opening the file with `FILE_MODE_WRITE` empties it. -/
def WriteIndexFile (host : Host) (self : FileIndex) (Serialise : TItem → List UInt8)
    (language : Int) (stats : DirectoryStats) (items : List TItem) (disk : Disk) : Disk × Bool :=
  if disk.writable then
    let fs : Disk := { disk with file := some [] }
    let header := WriteIndexFile.header host self language stats items
    match fs.Write (header.toBytes host) with
    | none => (fs, false)
    | some fs => WriteIndexFile.writeItems Serialise items fs
  else (disk, false)

/-- The loop `for (uint32_t i = 0; i < header.NumItems; i++)` of `ReadIndexFile` on the rest of
the stream and the vector `items`; `Deserialise stream` stands for the item that the virtual
member `Deserialise` reads from the front of the stream and the stream after it, `none` for an
exception. The result holds whether the loop ended without an exception, and `items`. -/
def ReadIndexFile.readItems (Deserialise : List UInt8 → Option (TItem × List UInt8)) :
    Nat → List UInt8 → List TItem → Bool × List TItem
  | 0, _, items => (true, items)
  | n + 1, stream, items =>
    match Deserialise stream with
    | none => (false, items)
    | some (item, stream) => ReadIndexFile.readItems Deserialise n stream (items ++ [item])

/-- The function `FileIndex::ReadIndexFile`: the tuple of `loadedItems` and `items`. -/
def ReadIndexFile (host : Host) (self : FileIndex)
    (Deserialise : List UInt8 → Option (TItem × List UInt8))
    (language : Int) (stats : DirectoryStats) (disk : Disk) : Bool × List TItem :=
  match disk.file with
  | none => (false, [])
  | some content =>
    if disk.readable then
      match FileIndexHeader.read host content with
      | none => (false, [])
      | some (header, fs) =>
        let header := { header with
          HeaderSize := ORCT_ensure_value_is_little_endian32 host header.HeaderSize }
        let header := { header with
          MagicNumber := ORCT_ensure_value_is_little_endian32 host header.MagicNumber }
        let header := { header with
          LanguageId := ORCT_ensure_value_is_little_endian16 host header.LanguageId }
        let header := { header with
          NumItems := ORCT_ensure_value_is_little_endian32 host header.NumItems }
        let header := { header with Stats := { header.Stats with
          TotalFiles := ORCT_ensure_value_is_little_endian32 host header.Stats.TotalFiles } }
        let header := { header with Stats := { header.Stats with
          TotalFileSize := ORCT_ensure_value_is_little_endian64 host header.Stats.TotalFileSize } }
        let header := { header with Stats := { header.Stats with
          FileDateModifiedChecksum :=
            ORCT_ensure_value_is_little_endian32 host header.Stats.FileDateModifiedChecksum } }
        let header := { header with Stats := { header.Stats with
          PathChecksum := ORCT_ensure_value_is_little_endian32 host header.Stats.PathChecksum } }
        if header.HeaderSize = sizeofFileIndexHeader host ∧ header.MagicNumber = self._magicNumber
            ∧ header.VersionA = self.FILE_INDEX_VERSION ∧ header.VersionB = self._version
            ∧ (header.LanguageId : Int) = language
            ∧ header.Stats.TotalFiles = stats.TotalFiles
            ∧ header.Stats.TotalFileSize = stats.TotalFileSize
            ∧ header.Stats.FileDateModifiedChecksum = stats.FileDateModifiedChecksum
            ∧ header.Stats.PathChecksum = stats.PathChecksum then
          let r := ReadIndexFile.readItems Deserialise header.NumItems fs []
          (r.1, r.2)
        else (false, [])
    else (false, [])

/-! ## `BuildRange` and `Build` -/

/-- The body of the loop of `BuildRange` at index `i`, on the container `items` and the
counter `processed`; `none` stands for the exception of `scanResult.Files.at(i)`. -/
def BuildRange.next (Create : Int → StdString → Bool × TItem) (language : Int)
    (scanResult : ScanResult) (i : Nat) (items : List TItem) (processed : Nat) :
    Option (List TItem × Nat) :=
  match scanResult.Files[i]? with
  | none => none
  | some filePath =>
    let item := Create language filePath
    let items := if item.1 then items ++ [item.2] else items
    some (items, processed + 1)

/-- The iterations of the loop of `BuildRange` from index `i` on, `n` of them. -/
def BuildRange.loop (Create : Int → StdString → Bool × TItem) (language : Int)
    (scanResult : ScanResult) : Nat → Nat → List TItem → Nat → Option (List TItem × Nat)
  | 0, _, items, processed => some (items, processed)
  | n + 1, i, items, processed =>
    (BuildRange.next Create language scanResult i items processed).bind fun r =>
      BuildRange.loop Create language scanResult n (i + 1) r.1 r.2

/-- The function `FileIndex::BuildRange` run on its own:
`for (size_t i = rangeStart; i < rangeEnd; i++)` makes `rangeEnd - rangeStart` iterations. -/
def BuildRange (Create : Int → StdString → Bool × TItem) (language : Int)
    (scanResult : ScanResult) (rangeStart rangeEnd : Nat) (items : List TItem) (processed : Nat) :
    Option (List TItem × Nat) :=
  BuildRange.loop Create language scanResult (rangeEnd - rangeStart) rangeStart items processed

/-- The loop of `Build` that submits the ranges: the list of the pairs
`(rangeStart, rangeStart + stepSize)` bound to the tasks, in the order of their creation.
`fuel` bounds the number of iterations; `none` stands for a loop that has not ended within
it. The `size_t` sums are exact: a vector of strings is too short for them to wrap. -/
def Build.submit : Nat → Nat → Nat → Nat → Option (List (Nat × Nat))
  | 0, totalCount, rangeStart, _ => if rangeStart < totalCount then none else some []
  | fuel + 1, totalCount, rangeStart, stepSize =>
    if rangeStart < totalCount then
      let stepSize := if rangeStart + stepSize > totalCount then totalCount - rangeStart else stepSize
      (Build.submit fuel totalCount (rangeStart + stepSize) stepSize).map fun ranges =>
        (rangeStart, rangeStart + stepSize) :: ranges
    else some []

/-- The ranges that `Build` submits for `totalCount` files: none when `totalCount` is 0,
those of the loop, started with `rangeStart = 0` and `stepSize = 100`, otherwise. -/
def Build.ranges (totalCount : Nat) : Option (List (Nat × Nat)) :=
  if totalCount > 0 then Build.submit totalCount totalCount 0 100 else some []

/-- A task of the job pool of `Build`: a call of `BuildRange` with its range, the index `i`
its loop has reached and its container `items`. -/
structure RangeTask (TItem : Type) where
  rangeStart : Nat
  rangeEnd : Nat
  i : Nat
  items : List TItem

/-- The tasks of `Build`, in the order of their creation (which is the order of the list
`containers`), and the counter `processed` they share. -/
structure Build.State (TItem : Type) where
  tasks : List (RangeTask TItem)
  processed : Nat

/-- Modelled from the spec: one step of the job pool (JobPool.hpp, not among the sources at
hand), in which the task of index `k` makes one iteration of its loop. Nothing happens when
there is no such task or its loop has ended. -/
def Build.step (Create : Int → StdString → Bool × TItem) (language : Int)
    (scanResult : ScanResult) (state : Build.State TItem) (k : Nat) : Option (Build.State TItem) :=
  match state.tasks[k]? with
  | none => some state
  | some task =>
    if task.i < task.rangeEnd then
      (BuildRange.next Create language scanResult task.i task.items state.processed).map fun r =>
        { tasks := state.tasks.set k { task with i := task.i + 1, items := r.1 }
          processed := r.2 }
    else some state

/-- Modelled from the spec: the job pool running the tasks concurrently: `schedule` lists, in
the order in which they happen, the tasks that make an iteration. -/
def Build.run (Create : Int → StdString → Bool × TItem) (language : Int)
    (scanResult : ScanResult) : List Nat → Build.State TItem → Option (Build.State TItem)
  | [], state => some state
  | k :: schedule, state =>
    (Build.step Create language scanResult state k).bind
      (Build.run Create language scanResult schedule)

/-- Modelled from the spec: `JobPool::Join`, the blocking join: every task that has not ended
runs to its end. -/
def Build.join (Create : Int → StdString → Bool × TItem) (language : Int)
    (scanResult : ScanResult) : List (RangeTask TItem) → Nat → Option (List (RangeTask TItem) × Nat)
  | [], processed => some ([], processed)
  | task :: tasks, processed =>
    (BuildRange.loop Create language scanResult (task.rangeEnd - task.i) task.i task.items
      processed).bind fun r =>
      (Build.join Create language scanResult tasks r.2).map fun rest =>
        ({ task with i := task.rangeEnd, items := r.1 } :: rest.1, rest.2)

/-- The parallel part of `Build`: the tasks are submitted, each with an empty container, the
pool runs them as `schedule` says, and `Join` returns when all have ended. -/
def Build.tasks (Create : Int → StdString → Bool × TItem) (language : Int)
    (scanResult : ScanResult) (schedule : List Nat) : Option (Build.State TItem) := do
  let ranges ← Build.ranges scanResult.Files.length
  let state : Build.State TItem :=
    { tasks := ranges.map fun r => { rangeStart := r.1, rangeEnd := r.2, i := r.1, items := [] }
      processed := 0 }
  let state ← Build.run Create language scanResult schedule state
  let r ← Build.join Create language scanResult state.tasks state.processed
  pure { tasks := r.1, processed := r.2 }

/-- The function `FileIndex::Build`: the vector `allItems` it returns and the state of the cache
file after it. `none` stands for a call that does not return. -/
def Build (host : Host) (self : FileIndex) (Create : Int → StdString → Bool × TItem)
    (Serialise : TItem → List UInt8) (language : Int) (scanResult : ScanResult)
    (schedule : List Nat) (disk : Disk) : Option (List TItem × Disk) :=
  (Build.tasks Create language scanResult schedule).map fun state =>
    let allItems := state.tasks.foldl (fun allItems task => allItems ++ task.items) []
    (allItems, (WriteIndexFile host self Serialise language scanResult.Stats allItems disk).1)

/-- The function `FileIndex::LoadOrBuild`. -/
def LoadOrBuild (host : Host) (self : FileIndex) (ScanDirectory : StdString → List FileDescriptor)
    (Create : Int → StdString → Bool × TItem) (Serialise : TItem → List UInt8)
    (Deserialise : List UInt8 → Option (TItem × List UInt8)) (language : Int)
    (schedule : List Nat) (disk : Disk) : Option (List TItem × Disk) :=
  let scanResult := Scan host ScanDirectory self
  let readIndexResult := ReadIndexFile host self Deserialise language scanResult.Stats disk
  if readIndexResult.1 then some (readIndexResult.2, disk)
  else Build host self Create Serialise language scanResult schedule disk

/-- The function `FileIndex::Rebuild`. -/
def Rebuild (host : Host) (self : FileIndex) (ScanDirectory : StdString → List FileDescriptor)
    (Create : Int → StdString → Bool × TItem) (Serialise : TItem → List UInt8)
    (language : Int) (schedule : List Nat) (disk : Disk) : Option (List TItem × Disk) :=
  let scanResult := Scan host ScanDirectory self
  Build host self Create Serialise language scanResult schedule disk

end

/-! ## Definitions that follow the wording of the specification -/

/-- The high 32 bits of a 64-bit timestamp. -/
def high32 (t : Nat) : Nat := t / 2 ^ 32 % 2 ^ 32

/-- The low 32 bits of a 64-bit timestamp. -/
def low32 (t : Nat) : Nat := t % 2 ^ 32

/-- The fold of the modification timestamps as the specification words it, for a rotation
`rot`: from 0, each descriptor replaces the accumulator `acc` by the rotation by 5 of
`acc XOR high32(t) XOR low32(t)`. -/
def dateChecksumFold (rot : Nat → Nat → Nat) (ds : List FileDescriptor) : Nat :=
  ds.foldl (fun acc d => rot (acc ^^^ high32 d.LastModified ^^^ low32 d.LastModified) 5) 0

/-- The one-at-a-time hash of Jenkins over a sequence of bytes, each taken as the 32-bit value
`value b`, started from `seed`, all arithmetic modulo 2^32: per byte
`h += value b; h += h << 10; h ^= h >> 6`, then `h += h << 3; h ^= h >> 11; h += h << 15`. -/
def jenkinsOneAtATimeOf (value : UInt8 → Nat) (seed : Nat) (key : List UInt8) : Nat :=
  let h := key.foldl (fun h b =>
    let h := (h + value b) % 2 ^ 32
    let h := (h + h <<< 10) % 2 ^ 32
    h ^^^ (h >>> 6)) seed
  let h := (h + h <<< 3) % 2 ^ 32
  let h := h ^^^ (h >>> 11)
  (h + h <<< 15) % 2 ^ 32

/-- The standard one-at-a-time hash of Jenkins: the bytes are taken as unsigned 8-bit values. -/
def jenkinsOneAtATime (seed : Nat) (key : List UInt8) : Nat :=
  jenkinsOneAtATimeOf UInt8.toNat seed key

/-- The 32-bit value of a byte read as a signed 8-bit number and converted to `uint32_t`
(sign extension): bytes from 0x80 on become `0xFFFFFF80` to `0xFFFFFFFF`. -/
def signExtend8 (b : UInt8) : Nat :=
  if 128 ≤ b.toNat then b.toNat + 0xFFFFFF00 else b.toNat

/-- The item of a file as the specification words it: the item that `Create` yields when it
reports success (the first component of its tuple), nothing when it reports "no item". -/
def createdItem {TItem : Type} (Create : Int → StdString → Bool × TItem) (language : Int)
    (path : StdString) : Option TItem :=
  if (Create language path).1 then some (Create language path).2 else none

/-- The container of a task once its loop has ended, told from the state the task is in: the
items it holds, then the items of the files from index `i` up to the end of the range. -/
def RangeTask.finished {TItem : Type} (Create : Int → StdString → Bool × TItem) (language : Int)
    (scanResult : ScanResult) (task : RangeTask TItem) : List TItem :=
  task.items
    ++ ((scanResult.Files.drop task.i).take (task.rangeEnd - task.i)).filterMap
        (createdItem Create language)

/-- The header whose members are those of `header` reduced to the range of their C++ types:
what a struct holds when it is assigned the members of `header`. -/
def FileIndexHeader.wrap (header : FileIndexHeader) : FileIndexHeader :=
  { HeaderSize := u32 header.HeaderSize
    MagicNumber := u32 header.MagicNumber
    VersionA := u8 header.VersionA
    VersionB := u8 header.VersionB
    LanguageId := u16 header.LanguageId
    Stats :=
      { TotalFiles := u32 header.Stats.TotalFiles
        TotalFileSize := u64 header.Stats.TotalFileSize
        FileDateModifiedChecksum := u32 header.Stats.FileDateModifiedChecksum
        PathChecksum := u32 header.Stats.PathChecksum }
    NumItems := u32 header.NumItems }

/-- A builder for examples, whose items are single bytes: `Serialise` writes the byte. -/
def byteSerialise (item : UInt8) : List UInt8 := [item]

/-- A builder for examples, whose items are single bytes: `Deserialise` reads one byte, and
raises an exception at the end of the stream. -/
def byteDeserialise : List UInt8 → Option (UInt8 × List UInt8)
  | [] => none
  | item :: stream => some (item, stream)

/-- The 32-bit word that `Scan` folds into the date checksum for a file whose modification
timestamp is `t`: the XOR of the high and the low half of `t`. -/
def dateWord (t : Nat) : Nat := high32 t ^^^ low32 t

/-- The eight assignments of `ReadIndexFile` that follow `ReadValue`: each multi-byte member of
the header goes through `ORCT_ensure_value_is_little_endian16/32/64`. -/
def ReadIndexFile.ensureLittleEndian (host : Host) (header : FileIndexHeader) : FileIndexHeader :=
  let header := { header with
    HeaderSize := ORCT_ensure_value_is_little_endian32 host header.HeaderSize }
  let header := { header with
    MagicNumber := ORCT_ensure_value_is_little_endian32 host header.MagicNumber }
  let header := { header with
    LanguageId := ORCT_ensure_value_is_little_endian16 host header.LanguageId }
  let header := { header with
    NumItems := ORCT_ensure_value_is_little_endian32 host header.NumItems }
  let header := { header with Stats := { header.Stats with
    TotalFiles := ORCT_ensure_value_is_little_endian32 host header.Stats.TotalFiles } }
  let header := { header with Stats := { header.Stats with
    TotalFileSize := ORCT_ensure_value_is_little_endian64 host header.Stats.TotalFileSize } }
  let header := { header with Stats := { header.Stats with
    FileDateModifiedChecksum :=
      ORCT_ensure_value_is_little_endian32 host header.Stats.FileDateModifiedChecksum } }
  { header with Stats := { header.Stats with
    PathChecksum := ORCT_ensure_value_is_little_endian32 host header.Stats.PathChecksum } }

/-- The comparison of `ReadIndexFile` between the header it has read and the values it
expects. -/
def ReadIndexFile.accepts (host : Host) (self : FileIndex) (language : Int)
    (stats : DirectoryStats) (header : FileIndexHeader) : Prop :=
  header.HeaderSize = sizeofFileIndexHeader host ∧ header.MagicNumber = self._magicNumber
    ∧ header.VersionA = self.FILE_INDEX_VERSION ∧ header.VersionB = self._version
    ∧ (header.LanguageId : Int) = language
    ∧ header.Stats.TotalFiles = stats.TotalFiles
    ∧ header.Stats.TotalFileSize = stats.TotalFileSize
    ∧ header.Stats.FileDateModifiedChecksum = stats.FileDateModifiedChecksum
    ∧ header.Stats.PathChecksum = stats.PathChecksum

instance (host : Host) (self : FileIndex) (language : Int) (stats : DirectoryStats)
    (header : FileIndexHeader) : Decidable (ReadIndexFile.accepts host self language stats header) := by
  unfold ReadIndexFile.accepts; infer_instance

/-- The little-endian value of the `width` bytes at `offset` of the file `content`. -/
def fieldLE (content : List UInt8) (offset width : Nat) : Nat :=
  valueLE ((content.drop offset).take width)

/-- The bytes `field` lie at `offset` in `bytes`. -/
def liesAt (bytes : List UInt8) (offset : Nat) (field : List UInt8) : Prop :=
  (bytes.drop offset).take field.length = field

instance (bytes : List UInt8) (offset : Nat) (field : List UInt8) :
    Decidable (liesAt bytes offset field) := by
  unfold liesAt; infer_instance

/-- The items that `n` successive calls of `Deserialise` yield, each call on the stream that
the call before has left, and the stream after the last call; `none` when one of the calls
raises an exception. -/
def deserialiseAll {TItem : Type} (Deserialise : List UInt8 → Option (TItem × List UInt8)) :
    Nat → List UInt8 → Option (List TItem × List UInt8)
  | 0, stream => some ([], stream)
  | n + 1, stream =>
    match Deserialise stream with
    | none => none
    | some (item, stream) =>
      (deserialiseAll Deserialise n stream).map fun r => (item :: r.1, r.2)

/-- The number of iterations that the loops of the tasks have yet to make. -/
def Build.remaining {TItem : Type} (tasks : List (RangeTask TItem)) : Nat :=
  (tasks.map fun task => task.rangeEnd - task.i).sum

/-- The lambda `reportProgress` of `Build`, for the value `completed` it reads from the counter
`processed`: the percentage `completed * 100 / totalCount` that it prints, computed on a
`size_t` of `sizeBits` bits; `none` stands for a division by zero. -/
def Build.reportProgress (sizeBits completed totalCount : Nat) : Option Nat :=
  if totalCount = 0 then none else some (completed * 100 % 2 ^ sizeBits / totalCount)

/-- The percentages that the calls of `reportProgress` compute in `Build`. The calls stand in
the block `if (totalCount > 0)`, after each submission and in `Join`, so each reads the counter
in a state that the pool has reached: the states after the prefixes of `schedule`, and the state
in which `Join` returns. -/
def Build.progress {TItem : Type} (sizeBits : Nat) (Create : Int → StdString → Bool × TItem)
    (language : Int) (scanResult : ScanResult) (schedule : List Nat) : List (Option Nat) :=
  let totalCount := scanResult.Files.length
  if totalCount > 0 then
    match Build.ranges totalCount with
    | none => []
    | some ranges =>
      let state : Build.State TItem :=
        { tasks := ranges.map fun r => { rangeStart := r.1, rangeEnd := r.2, i := r.1, items := [] }
          processed := 0 }
      let reached := schedule.inits.filterMap fun done =>
        Build.run Create language scanResult done state
      let joined := (Build.tasks Create language scanResult schedule).toList
      (reached ++ joined).map fun state => Build.reportProgress sizeBits state.processed totalCount
  else []

/-! ## Scenery objects (`SmallSceneryObject.cpp`, `LargeSceneryObject.cpp`) -/

/-- The block "Validate properties" of `SmallSceneryObject::ReadLegacy`, for the `money16`
members `price` and `removal_price` of the entry: the messages it passes to `LogError`, in
order. -/
def SmallSceneryObject.ReadLegacy.validate (price removal_price : Int) : List String :=
  let errors := if price ≤ 0 then ["Price can not be free or negative."] else []
  if removal_price ≤ 0 then
    let reimbursement := removal_price
    if reimbursement > price then errors ++ ["Sell price can not be more than buy price."]
    else errors
  else errors

/-- The block "Validate properties" of `LargeSceneryObject::ReadLegacy`. -/
def LargeSceneryObject.ReadLegacy.validate (price removal_price : Int) : List String :=
  let errors := if price ≤ 0 then ["Price can not be free or negative."] else []
  if removal_price ≤ 0 then
    let reimbursement := removal_price
    if reimbursement > price then errors ++ ["Sell price can not be more than buy price."]
    else errors
  else errors

/-- The loop `while ((frameOffset = stream->ReadValue<uint8_t>()) != 0xFF)` of
`ReadFrameOffsets` and the `push_back` that follows it, on the rest of the stream and the
vector `data`; `none` stands for the exception that `ReadValue` raises at the end of the
stream. -/
def SmallSceneryObject.ReadFrameOffsets.loop :
    List UInt8 → List UInt8 → Option (List UInt8 × List UInt8)
  | [], _ => none
  | frameOffset :: stream, data =>
    if frameOffset ≠ 0xFF then
      SmallSceneryObject.ReadFrameOffsets.loop stream (data ++ [frameOffset])
    else some (data ++ [frameOffset], stream)

/-- The function `SmallSceneryObject::ReadFrameOffsets`: the vector it returns and the stream
after the bytes it has read. -/
def SmallSceneryObject.ReadFrameOffsets (stream : List UInt8) :
    Option (List UInt8 × List UInt8) :=
  match stream with
  | [] => none
  | first :: stream => SmallSceneryObject.ReadFrameOffsets.loop stream [first]

/-! ## Track designs (`src/openrct2/ride/TrackDesignRepository.cpp`) -/

/-- Modelled from the spec: the constant `RIDE_TYPE_NULL` (Ride.h, not among the sources at
hand), the greatest `uint8_t`. -/
def RIDE_TYPE_NULL : Nat := 255

/-- The struct `TrackRepositoryItem`, with the default member initialisers of its
declaration. -/
structure TrackRepositoryItem where
  Name : StdString := []
  Path : StdString := []
  /-- A `uint8_t`. -/
  RideType : Nat := RIDE_TYPE_NULL
  ObjectEntry : StdString := []
  /-- A `uint32_t`. -/
  Flags : Nat := 0
deriving DecidableEq, Repr

/-- The enumerator `TRIF_READ_ONLY = (1 << 0)`. -/
def TRIF_READ_ONLY : Nat := 1 <<< 0

/-- The members of a track design (TrackDesign.h, not among the sources at hand) that `Create`
reads: `td6->type`, a `uint8_t`, and the char array `td6->vehicle_object.name`. -/
structure rct_track_td6 where
  type : Nat
  vehicle_object_name : List UInt8
deriving DecidableEq, Repr

/-- The struct `track_design_file_ref` (TrackDesignRepository.h, not among the sources at
hand): the two members that the repository fills in. -/
structure track_design_file_ref where
  name : StdString
  path : StdString
deriving DecidableEq, Repr

/-- A call that a function of the repository makes to the file system. -/
inductive FileOperation where
  | Delete (path : StdString)
  | Move (path newPath : StdString)
deriving DecidableEq, Repr

/-- The functions outside the sources at hand that the functions of
TrackDesignRepository.cpp call, taken as parameters. -/
structure Environment where
  /-- The function `track_design_open`; `none` stands for the null pointer. -/
  track_design_open : StdString → Option rct_track_td6
  /-- The function `Path::GetFileNameWithoutExtension`. -/
  GetFileNameWithoutExtension : StdString → StdString
  /-- The function `Path::GetDirectory`. -/
  GetDirectory : StdString → StdString
  /-- The function `Path::GetExtension`. -/
  GetExtension : StdString → StdString
  /-- The function `Path::Combine`. -/
  Combine : StdString → StdString → StdString
  /-- The function `Path::Equals`. -/
  PathEquals : StdString → StdString → Bool
  /-- The function `String::StartsWith(source, match)`. -/
  StartsWith : StdString → StdString → Bool
  /-- The function `String::Compare`. -/
  Compare : StdString → StdString → Int
  /-- The function `String::Equals(a, b, true)`, which ignores case. -/
  EqualsIgnoreCase : StdString → StdString → Bool
  /-- The function `File::Delete`: whether the file was deleted. -/
  FileDelete : StdString → Bool
  /-- The function `File::Move`: whether the file was moved. -/
  FileMove : StdString → StdString → Bool
  /-- The call `repo.FindObject(name)`: the `RideInfo.RideGroupIndex` of the object found,
  `none` for the null pointer. -/
  FindObject : StdString → Option Nat
  /-- The call `RideTypeDescriptors[rideType].HasFlag(RIDE_TYPE_FLAG_LIST_VEHICLES_SEPARATELY)`. -/
  ListVehiclesSeparately : Nat → Bool
  /-- The call `RideGroupManager::RideGroupFind(rideType, rideGroupIndex)`, the ride groups
  being numbered; `none` stands for the null pointer. -/
  RideGroupFind : Nat → Nat → Option Nat
  /-- The call `itemRideGroup->Equals(rideGroup)`. -/
  RideGroupEquals : Nat → Nat → Bool

/-- The bytes of `str.c_str()` up to the terminating NUL. -/
def c_str (str : StdString) : StdString := str.takeWhile (fun ch => ch ≠ 0)

/-- The call `str.find_first_of(ch)` of `std::string`: the index of the first `ch`, `none` for
`npos`. -/
def find_first_of : StdString → UInt8 → Option Nat
  | [], _ => none
  | c :: str, ch => if c = ch then some 0 else (find_first_of str ch).map (· + 1)

/-- The call `str.substr(0, count)` of `std::string`, where `count` may be `npos`. -/
def substr (str : StdString) (count : Option Nat) : StdString :=
  match count with
  | none => str
  | some count => str.take count

/-- The function `GetNameFromTrackPath`. -/
def GetNameFromTrackPath (env : Environment) (path : StdString) : StdString :=
  let name := env.GetFileNameWithoutExtension path
  substr name (find_first_of name 0x2E)

/-- The arguments of the constructor of `TrackDesignFileIndex` that vary: the three track
directories of the environment, which become `SearchPaths[0]`, `SearchPaths[1]` and
`SearchPaths[2]`. -/
structure TrackDesignFileIndex where
  RCT1 : StdString
  RCT2 : StdString
  USER : StdString
deriving DecidableEq, Repr

/-- The `FileIndex` base of a `TrackDesignFileIndex`: `MAGIC_NUMBER = 0x58444954`,
`VERSION = 2` and the three search paths. -/
def TrackDesignFileIndex.toFileIndex (self : TrackDesignFileIndex) : FileIndex :=
  { _magicNumber := 0x58444954, _version := 2, SearchPaths := [self.RCT1, self.RCT2, self.USER] }

/-- The function `TrackDesignFileIndex::IsTrackReadOnly`. -/
def TrackDesignFileIndex.IsTrackReadOnly (env : Environment) (self : TrackDesignFileIndex)
    (path : StdString) : Bool :=
  env.StartsWith path self.RCT1 || env.StartsWith path self.RCT2

/-- The function `TrackDesignFileIndex::Create`. -/
def TrackDesignFileIndex.Create (env : Environment) (self : TrackDesignFileIndex)
    (_language : Int) (path : StdString) : Bool × TrackRepositoryItem :=
  match env.track_design_open (c_str path) with
  | some td6 =>
    let item : TrackRepositoryItem := {}
    let item := { item with Name := GetNameFromTrackPath env path }
    let item := { item with Path := path }
    let item := { item with RideType := td6.type }
    let item := { item with ObjectEntry := td6.vehicle_object_name.take 8 }
    let item := { item with Flags := 0 }
    let item :=
      if self.IsTrackReadOnly env path then
        { item with Flags := item.Flags ||| TRIF_READ_ONLY }
      else item
    (true, item)
  | none => (true, {})

/-- Modelled from the spec: `IStream::WriteString(const std::string&)` (IStream.hpp, not among
the sources at hand) writes the bytes of `str.c_str()` and the NUL that ends them. -/
def WriteString (str : StdString) : List UInt8 := c_str str ++ [0]

/-- Modelled from the spec: `IStream::ReadStdString` (IStream.hpp, not among the sources at
hand) reads bytes up to a NUL, which it consumes, and returns those before it; `none` stands
for the exception raised when the stream ends before. -/
def ReadStdString : List UInt8 → Option (StdString × List UInt8)
  | [] => none
  | ch :: stream =>
    if ch = 0 then some ([], stream)
    else (ReadStdString stream).map fun r => (ch :: r.1, r.2)

/-- The function `TrackDesignFileIndex::Serialise`: the bytes it writes to the stream. -/
def TrackDesignFileIndex.Serialise (host : Host) (item : TrackRepositoryItem) : List UInt8 :=
  WriteString item.Name
    ++ WriteString item.Path
    ++ storeInt host 1 item.RideType
    ++ WriteString item.ObjectEntry
    ++ storeInt host 4 item.Flags

/-- The function `TrackDesignFileIndex::Deserialise`: the item and the stream after it; `none`
stands for an exception raised by a read. -/
def TrackDesignFileIndex.Deserialise (host : Host) (stream : List UInt8) :
    Option (TrackRepositoryItem × List UInt8) := do
  let item : TrackRepositoryItem := {}
  let (Name, stream) ← ReadStdString stream
  let item := { item with Name := Name }
  let (Path, stream) ← ReadStdString stream
  let item := { item with Path := Path }
  let (RideType, stream) ← readInt host 1 stream
  let item := { item with RideType := RideType }
  let (ObjectEntry, stream) ← ReadStdString stream
  let item := { item with ObjectEntry := ObjectEntry }
  let (Flags, stream) ← readInt host 4 stream
  let item := { item with Flags := ORCT_ensure_value_is_little_endian32 host Flags }
  pure (item, stream)

/-- The comparison that `SortItems` passes to `std::sort`. -/
def TrackDesignRepository.SortItems.less (env : Environment) (a b : TrackRepositoryItem) :
    Bool :=
  if a.RideType ≠ b.RideType then a.RideType < b.RideType
  else env.Compare a.Name b.Name < 0

/-- The function `TrackDesignRepository::SortItems`, on the vector `_items`. The call of
`std::sort` is embedded as an insertion sort: the standard leaves the order of elements that
compare equivalent open. -/
def TrackDesignRepository.SortItems (env : Environment) (_items : List TrackRepositoryItem) :
    List TrackRepositoryItem :=
  _items.insertionSort fun a b => TrackDesignRepository.SortItems.less env b a = false

/-- The function `TrackDesignRepository::GetTrackIndex`; `none` stands for `SIZE_MAX`. -/
def TrackDesignRepository.GetTrackIndex (env : Environment) :
    List TrackRepositoryItem → StdString → Option Nat
  | [], _ => none
  | item :: _items, path =>
    if env.PathEquals item.Path path then some 0
    else (TrackDesignRepository.GetTrackIndex env _items path).map (· + 1)

/-- The function `TrackDesignRepository::Scan`: the vector `_items` and the cache file after
the call. -/
def TrackDesignRepository.Scan (host : Host) (env : Environment)
    (_fileIndex : TrackDesignFileIndex) (ScanDirectory : StdString → List FileDescriptor)
    (schedule : List Nat) (_items : List TrackRepositoryItem) (language : Int) (disk : Disk) :
    Option (List TrackRepositoryItem × Disk) :=
  let _items : List TrackRepositoryItem := []
  (LoadOrBuild host _fileIndex.toFileIndex ScanDirectory (_fileIndex.Create env)
      (TrackDesignFileIndex.Serialise host) (TrackDesignFileIndex.Deserialise host) language
      schedule disk).map fun r =>
    let _items := r.1.foldl (fun _items td => _items ++ [td]) _items
    (TrackDesignRepository.SortItems env _items, r.2)

/-- The function `TrackDesignRepository::Delete`: its result, the vector `_items` after the
call, and the calls it has made to the file system. -/
def TrackDesignRepository.Delete (env : Environment) (_items : List TrackRepositoryItem)
    (path : StdString) : Bool × List TrackRepositoryItem × List FileOperation :=
  match TrackDesignRepository.GetTrackIndex env _items path with
  | none => (false, _items, [])
  | some index =>
    match _items[index]? with
    | none => (false, _items, [])
    | some item =>
      if item.Flags &&& TRIF_READ_ONLY = 0 then
        if env.FileDelete path then
          (true, _items.eraseIdx index, [FileOperation.Delete path])
        else (false, _items, [FileOperation.Delete path])
      else (false, _items, [])

/-- The function `TrackDesignRepository::Rename`: its result, the vector `_items` after the
call, and the calls it has made to the file system. -/
def TrackDesignRepository.Rename (env : Environment) (_items : List TrackRepositoryItem)
    (path newName : StdString) : StdString × List TrackRepositoryItem × List FileOperation :=
  match TrackDesignRepository.GetTrackIndex env _items path with
  | none => ([], _items, [])
  | some index =>
    match _items[index]? with
    | none => ([], _items, [])
    | some item =>
      if item.Flags &&& TRIF_READ_ONLY = 0 then
        let directory := env.GetDirectory path
        let newPath := env.Combine directory (newName ++ env.GetExtension path)
        if env.FileMove path newPath then
          let _items := _items.set index { item with Name := newName, Path := newPath }
          (newPath, TrackDesignRepository.SortItems env _items,
            [FileOperation.Move path newPath])
        else ([], _items, [FileOperation.Move path newPath])
      else ([], _items, [])

/-- The test of the loop of `GetCountForObjectEntry` and of `GetItemsForObjectEntry` that an
item is counted or listed. -/
def TrackDesignRepository.matchesObjectEntry (env : Environment) (rideType : Nat)
    (entry : StdString) (item : TrackRepositoryItem) : Bool :=
  if item.RideType ≠ rideType then false
  else
    let entryIsNotSeparate :=
      if entry.isEmpty then
        let ori := env.FindObject (c_str item.ObjectEntry)
        if ori.isNone || !env.ListVehiclesSeparately rideType then true else false
      else false
    entryIsNotSeparate || env.EqualsIgnoreCase item.ObjectEntry entry

/-- The function `TrackDesignRepository::GetCountForObjectEntry`. -/
def TrackDesignRepository.GetCountForObjectEntry (env : Environment)
    (_items : List TrackRepositoryItem) (rideType : Nat) (entry : StdString) : Nat :=
  _items.foldl (fun count item =>
    if item.RideType ≠ rideType then count
    else
      let entryIsNotSeparate :=
        if entry.isEmpty then
          let ori := env.FindObject (c_str item.ObjectEntry)
          if ori.isNone || !env.ListVehiclesSeparately rideType then true else false
        else false
      if entryIsNotSeparate || env.EqualsIgnoreCase item.ObjectEntry entry then count + 1
      else count) 0

/-- The function `TrackDesignRepository::GetItemsForObjectEntry`. -/
def TrackDesignRepository.GetItemsForObjectEntry (env : Environment)
    (_items : List TrackRepositoryItem) (rideType : Nat) (entry : StdString) :
    List track_design_file_ref :=
  _items.foldl (fun refs item =>
    if item.RideType ≠ rideType then refs
    else
      let entryIsNotSeparate :=
        if entry.isEmpty then
          let ori := env.FindObject (c_str item.ObjectEntry)
          if ori.isNone || !env.ListVehiclesSeparately rideType then true else false
        else false
      if entryIsNotSeparate || env.EqualsIgnoreCase item.ObjectEntry entry then
        refs ++ [{ name := GetNameFromTrackPath env item.Path, path := item.Path }]
      else refs) []

/-- The test of the loop of `GetCountForRideGroup` and of `GetItemsForRideGroup` that an item
is counted or listed. -/
def TrackDesignRepository.matchesRideGroup (env : Environment) (rideType rideGroup : Nat)
    (item : TrackRepositoryItem) : Bool :=
  if item.RideType ≠ rideType then false
  else
    let ori := env.FindObject (c_str item.ObjectEntry)
    let rideGroupIndex := match ori with
      | some rideGroupIndex => rideGroupIndex
      | none => 0
    match env.RideGroupFind rideType rideGroupIndex with
    | some itemRideGroup => env.RideGroupEquals itemRideGroup rideGroup
    | none => false

/-- The function `TrackDesignRepository::GetCountForRideGroup`. -/
def TrackDesignRepository.GetCountForRideGroup (env : Environment)
    (_items : List TrackRepositoryItem) (rideType rideGroup : Nat) : Nat :=
  _items.foldl (fun count item =>
    if item.RideType ≠ rideType then count
    else
      let ori := env.FindObject (c_str item.ObjectEntry)
      let rideGroupIndex := match ori with
        | some rideGroupIndex => rideGroupIndex
        | none => 0
      match env.RideGroupFind rideType rideGroupIndex with
      | some itemRideGroup =>
        if env.RideGroupEquals itemRideGroup rideGroup then count + 1 else count
      | none => count) 0

/-- The function `TrackDesignRepository::GetItemsForRideGroup`. -/
def TrackDesignRepository.GetItemsForRideGroup (env : Environment)
    (_items : List TrackRepositoryItem) (rideType rideGroup : Nat) :
    List track_design_file_ref :=
  _items.foldl (fun refs item =>
    if item.RideType ≠ rideType then refs
    else
      let ori := env.FindObject (c_str item.ObjectEntry)
      let rideGroupIndex := match ori with
        | some rideGroupIndex => rideGroupIndex
        | none => 0
      match env.RideGroupFind rideType rideGroupIndex with
      | some itemRideGroup =>
        if env.RideGroupEquals itemRideGroup rideGroup then
          refs ++ [{ name := GetNameFromTrackPath env item.Path, path := item.Path }]
        else refs
      | none => refs) []

/-- An environment for examples: a track design opens unless its path holds a '!', paths are
compared byte by byte, names are compared by their length, and every file operation goes
through. -/
def exampleEnvironment : Environment where
  track_design_open := fun path =>
    if path.contains 0x21 then none else some ⟨path.length % 256, List.replicate 8 0x20⟩
  GetFileNameWithoutExtension := fun path => path
  GetDirectory := fun _ => []
  GetExtension := fun _ => []
  Combine := fun directory name => directory ++ name
  PathEquals := fun a b => a == b
  StartsWith := fun source start => start.isPrefixOf source
  Compare := fun a b => (a.length : Int) - (b.length : Int)
  EqualsIgnoreCase := fun a b => a == b
  FileDelete := fun _ => true
  FileMove := fun _ _ => true
  FindObject := fun _ => none
  ListVehiclesSeparately := fun _ => false
  RideGroupFind := fun rideType _ => some rideType
  RideGroupEquals := fun a b => a == b

/-! ## Properties of `Scan` -/

theorem foldl_flatMap_eq {α β γ : Type} (f : α → List β) (g : γ → β → γ) (l : List α) (a : γ) :
    (l.flatMap f).foldl g a = l.foldl (fun a x => (f x).foldl g a) a := by
  induction l generalizing a with
  | nil => rfl
  | cons x l ih => simp [List.flatMap_cons, List.foldl_append, ih]

/-- The pair of `stats` and `files` after the loop of `Scan` has run over `ds`. -/
theorem Scan_eq_foldl (host : Host) (ScanDirectory : StdString → List FileDescriptor)
    (self : FileIndex) :
    Scan host ScanDirectory self =
      ⟨((scanSequence ScanDirectory self).foldl (Scan.next host) ({}, [])).1,
       ((scanSequence ScanDirectory self).foldl (Scan.next host) ({}, [])).2⟩ := by
  simp only [Scan, scanSequence, foldl_flatMap_eq]

theorem Scan_foldl_files (host : Host) (ds : List FileDescriptor) :
    (ds.foldl (Scan.next host) ({}, [])).2 = ds.map (fun d => d.Path) := by
  induction ds using List.reverseRecOn with
  | nil => rfl
  | append_singleton ds d ih => simp [List.foldl_append, Scan.next, ih]

theorem Scan_foldl_TotalFiles (host : Host) (ds : List FileDescriptor) :
    (ds.foldl (Scan.next host) ({}, [])).1.TotalFiles = ds.length % 2 ^ 32 := by
  induction ds using List.reverseRecOn with
  | nil => rfl
  | append_singleton ds d ih =>
    simp only [List.foldl_append, List.foldl_cons, List.foldl_nil, Scan.next, ih, u32,
      List.length_append, List.length_singleton]
    omega

theorem Scan_foldl_TotalFileSize (host : Host) (ds : List FileDescriptor) :
    (ds.foldl (Scan.next host) ({}, [])).1.TotalFileSize
      = (ds.map (fun d => d.Size)).sum % 2 ^ 64 := by
  induction ds using List.reverseRecOn with
  | nil => rfl
  | append_singleton ds d ih =>
    simp only [List.foldl_append, List.foldl_cons, List.foldl_nil, Scan.next, ih, u64,
      List.map_append, List.sum_append, List.map_cons, List.map_nil, List.sum_cons, List.sum_nil]
    omega

theorem Scan_foldl_PathChecksum (host : Host) (ds : List FileDescriptor) :
    (ds.foldl (Scan.next host) ({}, [])).1.PathChecksum
      = (ds.map (fun d => GetPathChecksum host d.Path)).sum % 2 ^ 32 := by
  induction ds using List.reverseRecOn with
  | nil => rfl
  | append_singleton ds d ih =>
    simp only [List.foldl_append, List.foldl_cons, List.foldl_nil, Scan.next, ih, u32,
      List.map_append, List.sum_append, List.map_cons, List.map_nil, List.sum_cons, List.sum_nil]
    omega

theorem Scan_foldl_FileDateModifiedChecksum (host : Host) (ds : List FileDescriptor) :
    (ds.foldl (Scan.next host) ({}, [])).1.FileDateModifiedChecksum
      = ds.foldl (fun acc d => ror32 (acc ^^^ (u32 (u64 d.LastModified >>> 32)
          ^^^ u32 (u64 d.LastModified &&& 0xFFFFFFFF))) 5) 0 := by
  induction ds using List.reverseRecOn with
  | nil => rfl
  | append_singleton ds d ih =>
    simp only [List.foldl_append, List.foldl_cons, List.foldl_nil, Scan.next, ih]

theorem high32_eq (t : Nat) : u32 (u64 t >>> 32) = high32 t := by
  simp only [u32, u64, high32, Nat.shiftRight_eq_div_pow]
  omega

theorem low32_eq (t : Nat) : u32 (u64 t &&& 0xFFFFFFFF) = low32 t := by
  have h := Nat.and_pow_two_sub_one_eq_mod (t % 2 ^ 64) 32
  simp only [u32, u64, low32]
  norm_num at h ⊢
  rw [h]
  omega

theorem charValue_u32 (host : Host) (ch : UInt8) :
    u32OfInt (charValue host ch) = if host.charSigned then signExtend8 ch else ch.toNat := by
  have hlt := UInt8.toNat_lt ch
  unfold u32OfInt charValue signExtend8
  by_cases hs : host.charSigned = true <;> by_cases hb : 128 ≤ ch.toNat <;> simp [hs, hb] <;> omega

theorem GetPathChecksum_eq_jenkinsOf (host : Host) (path : StdString) (hnul : (0 : UInt8) ∉ path) :
    GetPathChecksum host path
      = jenkinsOneAtATimeOf (fun b => if host.charSigned then signExtend8 b else b.toNat)
          0xD8430DED path := by
  have htw : path.takeWhile (fun ch => decide (ch ≠ 0)) = path := by
    rw [List.takeWhile_eq_self_iff]
    intro b hb
    simp only [ne_eq, decide_not, Bool.not_eq_eq_eq_not, Bool.not_true, decide_eq_false_iff_not]
    rintro rfl
    exact hnul hb
  have hstep : GetPathChecksum.next host = (fun h b =>
      let h := (h + (if host.charSigned then signExtend8 b else b.toNat)) % 2 ^ 32
      let h := (h + h <<< 10) % 2 ^ 32
      h ^^^ (h >>> 6)) := by
    funext h b
    simp only [GetPathChecksum.next, charValue_u32, u32]
    simp only [Nat.add_mod_mod]
  unfold GetPathChecksum jenkinsOneAtATimeOf
  rw [htw, hstep]
  simp only [u32, Nat.add_mod_mod]

theorem ror32_five (x : Nat) (hx : x < 2 ^ 32) : ror32 x 5 = x / 2 ^ 5 + x % 2 ^ 5 * 2 ^ 27 := by
  have h1 : u32 (u32 x <<< (32 - 5)) = (x % 2 ^ 5) <<< 27 := by
    simp only [u32, Nat.shiftLeft_eq]
    omega
  have h2 : u32 x >>> 5 = x / 2 ^ 5 := by
    simp only [u32, Nat.shiftRight_eq_div_pow]
    rw [Nat.mod_eq_of_lt hx]
  have h3 : x / 2 ^ 5 < 2 ^ 27 := by omega
  unfold ror32
  rw [h1, h2, Nat.lor_comm, Nat.shiftLeft_eq, Nat.mul_comm, ← Nat.mul_add_lt_is_or h3]
  omega

/-- C7: the file list of `Scan` is the sequence of the paths of the scanned descriptors in
scan order (the search paths in their configured order, each in scanner order), `TotalFiles` is
their number modulo 2^32 and `TotalFileSize` the sum of their sizes modulo 2^64. -/
theorem Scan_files_and_totals (host : Host) (ScanDirectory : StdString → List FileDescriptor)
    (self : FileIndex) :
    scanSequence ScanDirectory self = self.SearchPaths.flatMap ScanDirectory
    ∧ (Scan host ScanDirectory self).Files
        = (scanSequence ScanDirectory self).map (fun d => d.Path)
    ∧ (Scan host ScanDirectory self).Stats.TotalFiles
        = (scanSequence ScanDirectory self).length % 2 ^ 32
    ∧ (Scan host ScanDirectory self).Stats.TotalFileSize
        = ((scanSequence ScanDirectory self).map (fun d => d.Size)).sum % 2 ^ 64 := by
  rw [Scan_eq_foldl]
  exact ⟨rfl, Scan_foldl_files host _, Scan_foldl_TotalFiles host _,
    Scan_foldl_TotalFileSize host _⟩

/-- C8, as stated, fails: for a single scanned file with modification timestamp 1 `Scan`
computes the date checksum 0x08000000 (1 rotated to the right by 5), whereas the fold with a
rotation to the left by 5 gives 32. -/
theorem Scan_dateChecksum_not_rotate_left :
    (Scan ⟨false, true, true, 0⟩ (fun _ => [⟨[0x61], 0, 1⟩])
        { _magicNumber := 0, _version := 0, SearchPaths := [[0x2F]] }).Stats.FileDateModifiedChecksum
      = 0x08000000
    ∧ dateChecksumFold rol32
        (scanSequence (fun _ => [⟨[0x61], 0, 1⟩])
          { _magicNumber := 0, _version := 0, SearchPaths := [[0x2F]] }) = 32
    ∧ (Scan ⟨false, true, true, 0⟩ (fun _ => [⟨[0x61], 0, 1⟩])
        { _magicNumber := 0, _version := 0, SearchPaths := [[0x2F]] }).Stats.FileDateModifiedChecksum
      ≠ dateChecksumFold rol32
        (scanSequence (fun _ => [⟨[0x61], 0, 1⟩])
          { _magicNumber := 0, _version := 0, SearchPaths := [[0x2F]] }) := by
  decide

/-- C8, amended: starting from 0, for each scanned descriptor with modification timestamp `t`,
`Scan` replaces the accumulator `acc` by the 32-bit rotation to the right by 5 (`ror32`) of
`acc XOR high32(t) XOR low32(t)`; `FileDateModifiedChecksum` is the accumulator after the last
descriptor. The rotation moves the low 5 bits to the top: `ror32 x 5 = x / 2^5 + (x % 2^5) * 2^27`. -/
theorem Scan_dateChecksum_rotate_right (host : Host)
    (ScanDirectory : StdString → List FileDescriptor) (self : FileIndex) :
    (Scan host ScanDirectory self).Stats.FileDateModifiedChecksum
        = dateChecksumFold ror32 (scanSequence ScanDirectory self)
    ∧ ∀ x, x < 2 ^ 32 → ror32 x 5 = x / 2 ^ 5 + x % 2 ^ 5 * 2 ^ 27 := by
  refine ⟨?_, ror32_five⟩
  rw [Scan_eq_foldl]
  simp only [Scan_foldl_FileDateModifiedChecksum, dateChecksumFold, high32_eq, low32_eq,
    Nat.xor_assoc]

/-- C9, as stated, fails where plain `char` is signed: for the path "é" (bytes C3 A9)
`GetPathChecksum` differs from the one-at-a-time hash over the unsigned bytes. -/
theorem GetPathChecksum_not_unsigned_bytes :
    GetPathChecksum ⟨false, true, true, 0⟩ [0xC3, 0xA9]
      ≠ jenkinsOneAtATime 0xD8430DED [0xC3, 0xA9] := by
  decide

/-- C9, amended: for every path string (free of NUL bytes) `GetPathChecksum` is the
one-at-a-time hash of Jenkins started from 0xD8430DED over the bytes of the path taken as values
of plain `char` converted to 32 bits: sign-extended where `char` is signed, unsigned otherwise.
It is the standard hash over unsigned 8-bit values where `char` is unsigned or every byte is
below 0x80. `PathChecksum` is the sum modulo 2^32 of that hash over all scanned paths. -/
theorem GetPathChecksum_one_at_a_time (host : Host) :
    (∀ path : StdString, (0 : UInt8) ∉ path →
      GetPathChecksum host path
        = jenkinsOneAtATimeOf (fun b => if host.charSigned then signExtend8 b else b.toNat)
            0xD8430DED path
      ∧ (host.charSigned = false ∨ (∀ b ∈ path, b.toNat < 128) →
          GetPathChecksum host path = jenkinsOneAtATime 0xD8430DED path))
    ∧ ∀ (ScanDirectory : StdString → List FileDescriptor) (self : FileIndex),
        (Scan host ScanDirectory self).Stats.PathChecksum
          = ((scanSequence ScanDirectory self).map
              (fun d => GetPathChecksum host d.Path)).sum % 2 ^ 32 := by
  refine ⟨fun path hnul => ⟨GetPathChecksum_eq_jenkinsOf host path hnul, fun h => ?_⟩, ?_⟩
  · rw [GetPathChecksum_eq_jenkinsOf host path hnul]
    unfold jenkinsOneAtATime jenkinsOneAtATimeOf
    have hfold : ∀ (l : List UInt8) (seed : Nat),
        (host.charSigned = false ∨ ∀ b ∈ l, b.toNat < 128) →
        l.foldl (fun h b =>
            let h := (h + (if host.charSigned then signExtend8 b else b.toNat)) % 2 ^ 32
            let h := (h + h <<< 10) % 2 ^ 32
            h ^^^ (h >>> 6)) seed
          = l.foldl (fun h b =>
            let h := (h + b.toNat) % 2 ^ 32
            let h := (h + h <<< 10) % 2 ^ 32
            h ^^^ (h >>> 6)) seed := by
      intro l
      induction l with
      | nil => intros; rfl
      | cons b l ih =>
        intro seed hl
        have hb : (if host.charSigned then signExtend8 b else b.toNat) = b.toNat := by
          rcases hl with hl | hl
          · simp [hl]
          · have := hl b (List.mem_cons_self _ _)
            simp only [signExtend8]
            split <;> [(split <;> [omega; rfl]); rfl]
        simp only [List.foldl_cons, hb]
        apply ih
        rcases hl with hl | hl
        · exact Or.inl hl
        · exact Or.inr fun c hc => hl c (List.mem_cons_of_mem _ hc)
    rw [hfold path _ h]
  · intro ScanDirectory self
    rw [Scan_eq_foldl]
    exact Scan_foldl_PathChecksum host _

/-- A path of plain ASCII bytes on a host with signed `char`: the hash is the standard one. -/
theorem GetPathChecksum_one_at_a_time_witness :
    GetPathChecksum ⟨false, true, true, 0⟩ [0x61, 0x2E, 0x74]
      = jenkinsOneAtATime 0xD8430DED [0x61, 0x2E, 0x74] :=
  ((GetPathChecksum_one_at_a_time ⟨false, true, true, 0⟩).1 [0x61, 0x2E, 0x74] (by decide)).2
    (Or.inr (by decide))

/-- C10: two scans whose descriptor sequences are permutations of one another yield the same
`PathChecksum`, `TotalFiles` and `TotalFileSize`; and a scan whose sequence holds two more
descriptors with one path than another scan adds the hash of that path twice to the
`PathChecksum` of the other. -/
theorem Scan_additive_fields_order_insensitive (host : Host)
    (ScanDirectory₁ ScanDirectory₂ : StdString → List FileDescriptor) (self₁ self₂ : FileIndex) :
    ((scanSequence ScanDirectory₁ self₁).Perm (scanSequence ScanDirectory₂ self₂) →
      (Scan host ScanDirectory₁ self₁).Stats.PathChecksum
          = (Scan host ScanDirectory₂ self₂).Stats.PathChecksum
      ∧ (Scan host ScanDirectory₁ self₁).Stats.TotalFiles
          = (Scan host ScanDirectory₂ self₂).Stats.TotalFiles
      ∧ (Scan host ScanDirectory₁ self₁).Stats.TotalFileSize
          = (Scan host ScanDirectory₂ self₂).Stats.TotalFileSize)
    ∧ ∀ (ds₁ ds₂ ds₃ : List FileDescriptor) (d d' : FileDescriptor),
        d.Path = d'.Path →
        scanSequence ScanDirectory₁ self₁ = ds₁ ++ d :: ds₂ ++ d' :: ds₃ →
        scanSequence ScanDirectory₂ self₂ = ds₁ ++ ds₂ ++ ds₃ →
        (Scan host ScanDirectory₁ self₁).Stats.PathChecksum
          = ((Scan host ScanDirectory₂ self₂).Stats.PathChecksum
              + 2 * GetPathChecksum host d.Path) % 2 ^ 32 := by
  constructor
  · intro hperm
    rw [Scan_eq_foldl, Scan_eq_foldl]
    simp only [Scan_foldl_PathChecksum, Scan_foldl_TotalFiles, Scan_foldl_TotalFileSize]
    refine ⟨?_, ?_, ?_⟩
    · rw [(hperm.map (fun d => GetPathChecksum host d.Path)).sum_eq]
    · rw [hperm.length_eq]
    · rw [(hperm.map (fun d => d.Size)).sum_eq]
  · intro ds₁ ds₂ ds₃ d d' hpath h₁ h₂
    rw [Scan_eq_foldl, Scan_eq_foldl]
    simp only [Scan_foldl_PathChecksum, h₁, h₂, List.map_append, List.map_cons, List.sum_append,
      List.sum_cons, ← hpath]
    omega

/-- Two files scanned in either order, and a file that the scanner yields twice. -/
theorem Scan_additive_fields_order_insensitive_witness :
    ((Scan ⟨false, true, true, 0⟩ (fun _ => [⟨[0x61], 5, 1⟩, ⟨[0x62], 7, 2⟩])
          { _magicNumber := 0, _version := 0, SearchPaths := [[0x2F]] }).Stats.PathChecksum
        = (Scan ⟨false, true, true, 0⟩ (fun _ => [⟨[0x62], 7, 2⟩, ⟨[0x61], 5, 1⟩])
          { _magicNumber := 0, _version := 0, SearchPaths := [[0x2F]] }).Stats.PathChecksum)
    ∧ (Scan ⟨false, true, true, 0⟩ (fun _ => [⟨[0x61], 5, 1⟩, ⟨[0x61], 5, 1⟩])
          { _magicNumber := 0, _version := 0, SearchPaths := [[0x2F]] }).Stats.PathChecksum
        = ((Scan ⟨false, true, true, 0⟩ (fun _ => [])
          { _magicNumber := 0, _version := 0, SearchPaths := [[0x2F]] }).Stats.PathChecksum
            + 2 * GetPathChecksum ⟨false, true, true, 0⟩ [0x61]) % 2 ^ 32 :=
  ⟨((Scan_additive_fields_order_insensitive ⟨false, true, true, 0⟩
      (fun _ => [⟨[0x61], 5, 1⟩, ⟨[0x62], 7, 2⟩]) (fun _ => [⟨[0x62], 7, 2⟩, ⟨[0x61], 5, 1⟩])
      { _magicNumber := 0, _version := 0, SearchPaths := [[0x2F]] }
      { _magicNumber := 0, _version := 0, SearchPaths := [[0x2F]] }).1
      (by simpa [scanSequence] using List.Perm.swap _ _ [])).1,
   (Scan_additive_fields_order_insensitive ⟨false, true, true, 0⟩
      (fun _ => [⟨[0x61], 5, 1⟩, ⟨[0x61], 5, 1⟩]) (fun _ => [])
      { _magicNumber := 0, _version := 0, SearchPaths := [[0x2F]] }
      { _magicNumber := 0, _version := 0, SearchPaths := [[0x2F]] }).2
      [] [] [] ⟨[0x61], 5, 1⟩ ⟨[0x61], 5, 1⟩ rfl (by decide) (by decide)⟩

/-! ## The ranges of `Build` -/

theorem Build.submit_done (fuel totalCount stepSize : Nat) :
    Build.submit fuel totalCount totalCount stepSize = some [] := by
  cases fuel <;> simp [Build.submit]

/-- What the submission loop yields from `rangeStart` on while `stepSize` is still 100. -/
theorem Build.submit_spec (totalCount : Nat) :
    ∀ fuel rangeStart, rangeStart < totalCount → totalCount - rangeStart ≤ fuel →
      ∃ ranges, Build.submit fuel totalCount rangeStart 100 = some ranges
        ∧ ranges.head?.map Prod.fst = some rangeStart
        ∧ ranges.getLast?.map Prod.snd = some totalCount
        ∧ ranges.Chain' (fun a b => a.2 = b.1)
        ∧ (∀ r ∈ ranges, r.1 < r.2 ∧ r.2 - r.1 ≤ 100 ∧ r.2 ≤ totalCount)
        ∧ (∀ r ∈ ranges.dropLast, r.2 - r.1 = 100)
        ∧ ranges.length = (totalCount - rangeStart + 99) / 100
        ∧ ranges.flatMap (fun r => List.range' r.1 (r.2 - r.1))
            = List.range' rangeStart (totalCount - rangeStart)
        ∧ ∀ (α : Type) (l : List α), l.length = totalCount →
            ranges.flatMap (fun r => (l.drop r.1).take (r.2 - r.1)) = l.drop rangeStart := by
  intro fuel
  induction fuel with
  | zero => intro s hs hf; omega
  | succ fuel ih =>
    intro s hs hf
    by_cases hlast : s + 100 > totalCount
    · refine ⟨[(s, totalCount)], ?_, rfl, rfl, List.chain'_singleton _, ?_, ?_, ?_, ?_, ?_⟩
      · have : s + (totalCount - s) = totalCount := by omega
        simp [Build.submit, hs, hlast, this, Build.submit_done]
      · intro r hr
        simp only [List.mem_singleton] at hr
        subst hr
        simp only
        omega
      · simp
      · simp only [List.length_singleton]
        omega
      · simp
      · intro α l hl
        simp only [List.flatMap_cons, List.flatMap_nil, List.append_nil]
        exact List.take_of_length_le (by simp [hl])
    · by_cases hnext : s + 100 = totalCount
      · refine ⟨[(s, totalCount)], ?_, rfl, rfl, List.chain'_singleton _, ?_, ?_, ?_, ?_, ?_⟩
        · simp [Build.submit, hs, hlast, hnext, Build.submit_done]
        · intro r hr
          simp only [List.mem_singleton] at hr
          subst hr
          simp only
          omega
        · simp
        · simp only [List.length_singleton]
          omega
        · simp
        · intro α l hl
          simp only [List.flatMap_cons, List.flatMap_nil, List.append_nil]
          exact List.take_of_length_le (by simp [hl])
      · obtain ⟨rs, hrs, hhead, hlst, hchain, hsize, hdrop, hlen, hcover, hslice⟩ :=
          ih (s + 100) (by omega) (by omega)
        have hne : rs ≠ [] := by
          rintro rfl
          simp at hhead
        obtain ⟨r₀, rs', rfl⟩ := List.exists_cons_of_ne_nil hne
        refine ⟨(s, s + 100) :: r₀ :: rs', ?_, rfl, ?_, ?_, ?_, ?_, ?_, ?_, ?_⟩
        · simp [Build.submit, hs, hlast, hrs]
        · simpa [List.getLast?_cons_cons] using hlst
        · refine List.Chain'.cons ?_ hchain
          simpa using hhead.symm
        · intro r hr
          rcases List.mem_cons.1 hr with rfl | hr
          · simp only
            omega
          · exact hsize r hr
        · intro r hr
          rw [List.dropLast_cons₂] at hr
          rcases List.mem_cons.1 hr with rfl | hr
          · simp
          · exact hdrop r hr
        · simp only [List.length_cons] at hlen ⊢
          omega
        · rw [List.flatMap_cons, hcover]
          have : totalCount - s = 100 + (totalCount - (s + 100)) := by omega
          rw [this, ← List.range'_append_1]
          simp [Nat.add_comm]
        · intro α l hl
          rw [List.flatMap_cons, hslice α l hl]
          simp only [Nat.add_sub_cancel_left]
          have hdd : List.drop (s + 100) l = List.drop 100 (List.drop s l) := by
            rw [List.drop_drop, Nat.add_comm]
          rw [hdd, List.take_append_drop]

theorem Build.submit_fuel_mono :
    ∀ (fuel totalCount rangeStart stepSize : Nat) (ranges : List (Nat × Nat)),
      Build.submit fuel totalCount rangeStart stepSize = some ranges →
      Build.submit (fuel + 1) totalCount rangeStart stepSize = some ranges := by
  intro fuel
  induction fuel with
  | zero =>
    intro N s step rs h
    by_cases hs : s < N
    · simp [Build.submit, hs] at h
    · simpa [Build.submit, hs] using h
  | succ fuel ih =>
    intro N s step rs h
    by_cases hs : s < N
    · rw [Build.submit] at h ⊢
      simp only [hs, if_true] at h ⊢
      simp only [Option.map_eq_some'] at h ⊢
      obtain ⟨rs', hrs', rfl⟩ := h
      exact ⟨rs', ih _ _ _ _ hrs', rfl⟩
    · rw [Build.submit] at h ⊢
      simpa [hs] using h

theorem Build.submit_fuel_le (fuel fuel' totalCount rangeStart stepSize : Nat)
    (ranges : List (Nat × Nat)) (hle : fuel ≤ fuel')
    (h : Build.submit fuel totalCount rangeStart stepSize = some ranges) :
    Build.submit fuel' totalCount rangeStart stepSize = some ranges := by
  induction hle with
  | refl => exact h
  | step _ ih => exact Build.submit_fuel_mono _ _ _ _ _ ih

/-- C5: for every file count N > 0 the submission loop of `Build` ends (with N iterations
allowed, and with the same ranges for any larger allowance) and submits ranges that start at 0,
each ending where the next starts, the last ending at N; every range is non-empty and of size
at most 100, every range but the last of size exactly 100; there are ceil(N/100) ranges and they
cover 0..N-1 exactly once, in order. For N = 250 the ranges are [0,100), [100,200), [200,250);
for N = 0 no range is submitted. -/
theorem Build_ranges_partition :
    (∀ totalCount, 0 < totalCount →
      ∃ ranges, Build.ranges totalCount = some ranges
        ∧ (∀ fuel, totalCount ≤ fuel → Build.submit fuel totalCount 0 100 = some ranges)
        ∧ ranges.head?.map Prod.fst = some 0
        ∧ ranges.Chain' (fun a b => a.2 = b.1)
        ∧ ranges.getLast?.map Prod.snd = some totalCount
        ∧ (∀ r ∈ ranges, r.1 < r.2 ∧ r.2 - r.1 ≤ 100)
        ∧ (∀ r ∈ ranges.dropLast, r.2 - r.1 = 100)
        ∧ ranges.length = (totalCount + 99) / 100
        ∧ ranges.length * 100 < totalCount + 100 ∧ totalCount ≤ ranges.length * 100
        ∧ ranges.flatMap (fun r => List.range' r.1 (r.2 - r.1)) = List.range totalCount)
    ∧ Build.ranges 250 = some [(0, 100), (100, 200), (200, 250)]
    ∧ Build.ranges 0 = some [] := by
  refine ⟨fun N hN => ?_, by decide, by decide⟩
  obtain ⟨rs, hrs, hhead, hlst, hchain, hsize, hdrop, hlen, hcover, -⟩ :=
    Build.submit_spec N N 0 hN (by omega)
  refine ⟨rs, by simp [Build.ranges, hN, hrs],
    fun fuel hf => Build.submit_fuel_le _ _ _ _ _ _ hf hrs, hhead, hchain, hlst,
    fun r hr => ⟨(hsize r hr).1, (hsize r hr).2.1⟩, hdrop, by simpa using hlen, ?_, ?_, ?_⟩
  · simp only [Nat.sub_zero] at hlen
    omega
  · simp only [Nat.sub_zero] at hlen
    omega
  · simpa [List.range_eq_range'] using hcover

/-- The ranges of 250 files. -/
theorem Build_ranges_partition_witness :
    ∃ ranges, Build.ranges 250 = some ranges
        ∧ (∀ fuel, 250 ≤ fuel → Build.submit fuel 250 0 100 = some ranges)
        ∧ ranges.head?.map Prod.fst = some 0
        ∧ ranges.Chain' (fun a b => a.2 = b.1)
        ∧ ranges.getLast?.map Prod.snd = some 250
        ∧ (∀ r ∈ ranges, r.1 < r.2 ∧ r.2 - r.1 ≤ 100)
        ∧ (∀ r ∈ ranges.dropLast, r.2 - r.1 = 100)
        ∧ ranges.length = (250 + 99) / 100
        ∧ ranges.length * 100 < 250 + 100 ∧ 250 ≤ ranges.length * 100
        ∧ ranges.flatMap (fun r => List.range' r.1 (r.2 - r.1)) = List.range 250 :=
  Build_ranges_partition.1 250 (by decide)

/-! ## The tasks of `Build` -/

section
variable {TItem : Type} (Create : Int → StdString → Bool × TItem) (language : Int)
  (scanResult : ScanResult)

theorem BuildRange.next_eq (i : Nat) (hi : i < scanResult.Files.length) (items : List TItem)
    (processed : Nat) :
    BuildRange.next Create language scanResult i items processed
      = some (items ++ (createdItem Create language scanResult.Files[i]).toList, processed + 1) := by
  unfold BuildRange.next createdItem
  rw [List.getElem?_eq_getElem hi]
  by_cases h : (Create language scanResult.Files[i]).1 = true <;> simp [h]

theorem set_eq_self_of_getElem? {α : Type} :
    ∀ (l : List α) (k : Nat) (a : α), l[k]? = some a → l.set k a = l := by
  intro l
  induction l with
  | nil => intro k a h; simp at h
  | cons x l ih =>
    intro k a h
    cases k with
    | zero => simp at h; simp [h]
    | succ k => simp at h; simp [ih k a h]

theorem drop_take_succ {α : Type} (l : List α) (i n : Nat) (hi : i < l.length) :
    (l.drop i).take (n + 1) = l[i] :: (l.drop (i + 1)).take n := by
  rw [List.drop_eq_getElem_cons hi, List.take_succ_cons]

/-- The loop of `BuildRange` ends, having appended the items of the files it ran over and
counted each file. -/
theorem BuildRange.loop_eq :
    ∀ (n i : Nat) (items : List TItem) (processed : Nat), i + n ≤ scanResult.Files.length →
      BuildRange.loop Create language scanResult n i items processed
        = some (items ++ ((scanResult.Files.drop i).take n).filterMap (createdItem Create language),
                processed + n) := by
  intro n
  induction n with
  | zero => intro i items processed _; simp [BuildRange.loop]
  | succ n ih =>
    intro i items processed hi
    have hlt : i < scanResult.Files.length := by omega
    rw [BuildRange.loop, BuildRange.next_eq Create language scanResult i hlt, Option.some_bind,
      ih (i + 1) _ _ (by omega), drop_take_succ _ _ _ hlt, List.filterMap_cons]
    cases h : createdItem Create language scanResult.Files[i] <;>
      simp [Nat.add_comm, Nat.add_left_comm]

/-- A step of the pool does not end the build, keeps the ranges of the tasks and what their
containers hold once they have ended. -/
theorem Build.step_spec (state : Build.State TItem) (k : Nat)
    (hwf : ∀ task ∈ state.tasks, task.rangeEnd ≤ scanResult.Files.length) :
    ∃ state', Build.step Create language scanResult state k = some state'
      ∧ (∀ task ∈ state'.tasks, task.rangeEnd ≤ scanResult.Files.length)
      ∧ state'.tasks.map (RangeTask.finished Create language scanResult)
          = state.tasks.map (RangeTask.finished Create language scanResult) := by
  unfold Build.step
  cases hk : state.tasks[k]? with
  | none => exact ⟨state, rfl, hwf, rfl⟩
  | some task =>
    have hmem : task ∈ state.tasks := List.getElem?_mem hk
    by_cases hlt : task.i < task.rangeEnd
    · have hend := hwf task hmem
      have hi : task.i < scanResult.Files.length := by omega
      simp only [hlt, if_true, BuildRange.next_eq Create language scanResult task.i hi,
        Option.map_some']
      refine ⟨_, rfl, ?_, ?_⟩
      · intro t ht
        rcases List.mem_or_eq_of_mem_set ht with ht | rfl
        · exact hwf t ht
        · exact hend
      · simp only [List.map_set]
        have hfin : RangeTask.finished Create language scanResult
            { task with i := task.i + 1,
                        items := task.items ++ (createdItem Create language scanResult.Files[task.i]).toList }
            = RangeTask.finished Create language scanResult task := by
          unfold RangeTask.finished
          have hn : task.rangeEnd - task.i = (task.rangeEnd - (task.i + 1)) + 1 := by omega
          simp only
          rw [hn, drop_take_succ _ _ _ hi, List.filterMap_cons]
          cases createdItem Create language scanResult.Files[task.i] <;> simp
        rw [hfin]
        have hk' : (state.tasks.map (RangeTask.finished Create language scanResult))[k]?
            = some (RangeTask.finished Create language scanResult task) := by
          simp [hk]
        exact set_eq_self_of_getElem? _ _ _ hk'
    · simp only [hlt, if_false]
      exact ⟨state, rfl, hwf, rfl⟩

end

section
variable {TItem : Type} (Create : Int → StdString → Bool × TItem) (language : Int)
  (scanResult : ScanResult)

/-- Whatever the schedule, the pool does not end the build and keeps what the containers hold
once the tasks have ended. -/
theorem Build.run_spec :
    ∀ (schedule : List Nat) (state : Build.State TItem),
      (∀ task ∈ state.tasks, task.rangeEnd ≤ scanResult.Files.length) →
      ∃ state', Build.run Create language scanResult schedule state = some state'
        ∧ (∀ task ∈ state'.tasks, task.rangeEnd ≤ scanResult.Files.length)
        ∧ state'.tasks.map (RangeTask.finished Create language scanResult)
            = state.tasks.map (RangeTask.finished Create language scanResult) := by
  intro schedule
  induction schedule with
  | nil => intro state hwf; exact ⟨state, rfl, hwf, rfl⟩
  | cons k schedule ih =>
    intro state hwf
    obtain ⟨s₁, h₁, hwf₁, hfin₁⟩ := Build.step_spec Create language scanResult state k hwf
    obtain ⟨s₂, h₂, hwf₂, hfin₂⟩ := ih s₁ hwf₁
    exact ⟨s₂, by simp [Build.run, h₁, h₂], hwf₂, hfin₂.trans hfin₁⟩

/-- The join ends, and leaves in every container what `RangeTask.finished` tells. -/
theorem Build.join_spec :
    ∀ (tasks : List (RangeTask TItem)) (processed : Nat),
      (∀ task ∈ tasks, task.rangeEnd ≤ scanResult.Files.length) →
      ∃ r, Build.join Create language scanResult tasks processed = some r
        ∧ r.1.map (fun task => task.items)
            = tasks.map (RangeTask.finished Create language scanResult) := by
  intro tasks
  induction tasks with
  | nil => intro processed _; exact ⟨([], processed), rfl, rfl⟩
  | cons task tasks ih =>
    intro processed hwf
    have hend := hwf task (List.mem_cons_self _ _)
    have hloop : BuildRange.loop Create language scanResult (task.rangeEnd - task.i) task.i
        task.items processed
        = some (RangeTask.finished Create language scanResult task,
            processed + (task.rangeEnd - task.i)) := by
      by_cases hle : task.rangeEnd ≤ task.i
      · have h0 : task.rangeEnd - task.i = 0 := by omega
        simp [h0, BuildRange.loop, RangeTask.finished]
      · exact BuildRange.loop_eq Create language scanResult _ _ _ _ (by omega)
    obtain ⟨r, hr, hitems⟩ := ih (processed + (task.rangeEnd - task.i))
      (fun t ht => hwf t (List.mem_cons_of_mem _ ht))
    refine ⟨({ task with i := task.rangeEnd,
                         items := RangeTask.finished Create language scanResult task } :: r.1, r.2),
      by simp only [Build.join, hloop, Option.some_bind, hr, Option.map_some'], ?_⟩
    simp [hitems]

theorem foldl_append_items (tasks : List (RangeTask TItem)) (init : List TItem) :
    tasks.foldl (fun allItems task => allItems ++ task.items) init
      = init ++ (tasks.map (fun task => task.items)).flatten := by
  induction tasks generalizing init with
  | nil => simp
  | cons task tasks ih => simp [ih]

/-- The items that `Build` gathers, whatever the schedule of the pool. -/
theorem Build.tasks_spec (schedule : List Nat) :
    ∃ state, Build.tasks Create language scanResult schedule = some state
      ∧ state.tasks.foldl (fun allItems task => allItems ++ task.items) []
          = scanResult.Files.filterMap (createdItem Create language) := by
  have hranges : ∃ ranges, Build.ranges scanResult.Files.length = some ranges
      ∧ (∀ r ∈ ranges, r.2 ≤ scanResult.Files.length)
      ∧ ranges.flatMap (fun r => (scanResult.Files.drop r.1).take (r.2 - r.1))
          = scanResult.Files := by
    by_cases hN : 0 < scanResult.Files.length
    · obtain ⟨rs, hrs, -, -, -, hsize, -, -, -, hslice⟩ :=
        Build.submit_spec scanResult.Files.length scanResult.Files.length 0 hN (by omega)
      exact ⟨rs, by simp [Build.ranges, hN, hrs], fun r hr => (hsize r hr).2.2,
        by simpa using hslice _ scanResult.Files rfl⟩
    · have hnil : scanResult.Files = [] := List.length_eq_zero.1 (by omega)
      exact ⟨[], by simp [Build.ranges, hnil], by simp, by simp [hnil]⟩
  obtain ⟨ranges, hrs, hle, hslice⟩ := hranges
  obtain ⟨s₁, h₁, hwf₁, hfin₁⟩ := Build.run_spec Create language scanResult schedule
    { tasks := ranges.map fun r => { rangeStart := r.1, rangeEnd := r.2, i := r.1, items := [] }
      processed := 0 }
    (by
      intro task ht
      simp only [List.mem_map] at ht
      obtain ⟨r, hr, rfl⟩ := ht
      exact hle r hr)
  obtain ⟨r, hr, hitems⟩ := Build.join_spec Create language scanResult s₁.tasks s₁.processed hwf₁
  refine ⟨{ tasks := r.1, processed := r.2 }, ?_, ?_⟩
  · simp [Build.tasks, hrs, h₁, hr]
  · rw [foldl_append_items, hitems, hfin₁]
    simp only [List.nil_append, List.map_map]
    conv_rhs => rw [← hslice]
    simp only [RangeTask.finished, Function.comp_def, List.nil_append]
    clear hslice hrs hle hwf₁ hfin₁ h₁ hr hitems
    induction ranges with
    | nil => simp
    | cons r ranges ih => simp [List.flatMap_cons, List.filterMap_append, ih]

end

/-- C1: for every language, every scanned file list, every builder `Create` and every schedule
of the per-range tasks, `Build` returns, and the list it returns is the sequence of the items
that `Create` yields for the files of the list in scan order, those for which it reported
success and no others. -/
theorem Build_items_in_scan_order {TItem : Type} (host : Host) (self : FileIndex)
    (Create : Int → StdString → Bool × TItem) (Serialise : TItem → List UInt8) (language : Int)
    (scanResult : ScanResult) (schedule : List Nat) (disk : Disk) :
    (Build host self Create Serialise language scanResult schedule disk).map Prod.fst
      = some (scanResult.Files.filterMap (createdItem Create language)) := by
  obtain ⟨state, hstate, hitems⟩ := Build.tasks_spec Create language scanResult schedule
  simp [Build, hstate, hitems]

/-- C6: for every file list of length N and every builder `Create` that reports "no item" for
exactly k of the files, `Build` returns, whatever the schedule, and returns exactly N - k
items. -/
theorem Build_partial_failure {TItem : Type} (host : Host) (self : FileIndex)
    (Create : Int → StdString → Bool × TItem) (Serialise : TItem → List UInt8) (language : Int)
    (scanResult : ScanResult) (schedule : List Nat) (disk : Disk) (k : Nat)
    (hk : scanResult.Files.countP (fun path => !(Create language path).1) = k) :
    ∃ r, Build host self Create Serialise language scanResult schedule disk = some r
      ∧ r.1.length = scanResult.Files.length - k := by
  obtain ⟨state, hstate, hitems⟩ := Build.tasks_spec Create language scanResult schedule
  refine ⟨(scanResult.Files.filterMap (createdItem Create language),
      (WriteIndexFile host self Serialise language scanResult.Stats
        (scanResult.Files.filterMap (createdItem Create language)) disk).1),
    by simp only [Build, hstate, Option.map_some', hitems], ?_⟩
  simp only
  subst hk
  generalize scanResult.Files = files
  induction files with
  | nil => simp
  | cons path files ih =>
    have hle : files.countP (fun path => !(Create language path).1) ≤ files.length :=
      List.countP_le_length _
    by_cases h : (Create language path).1 = true
    · simp [List.filterMap_cons, createdItem, h, List.countP_cons, ih]
      omega
    · simp [List.filterMap_cons, createdItem, h, List.countP_cons, ih]

/-! ## The header in the stream -/

theorem bytesLE_length : ∀ (width x : Nat), (bytesLE width x).length = width := by
  intro width
  induction width with
  | zero => intro x; rfl
  | succ w ih => intro x; simp [bytesLE, ih]

theorem toNat_ofNat_mod (x : Nat) : (UInt8.ofNat (x % 256)).toNat = x % 256 := by
  simp [UInt8.ofNat, UInt8.toNat]

theorem valueLE_bytesLE : ∀ (width x : Nat), valueLE (bytesLE width x) = x % 256 ^ width := by
  intro width
  induction width with
  | zero => intro x; simp [bytesLE, valueLE, Nat.mod_one]
  | succ w ih =>
    intro x
    rw [bytesLE, valueLE, toNat_ofNat_mod, ih, pow_succ', Nat.mod_mul]

theorem storeInt_length (host : Host) (width x : Nat) : (storeInt host width x).length = width := by
  unfold storeInt
  split <;> simp [bytesLE_length]

theorem loadInt_storeInt (host : Host) (width x : Nat) :
    loadInt host (storeInt host width x) = x % 256 ^ width := by
  unfold loadInt storeInt
  split <;> simp [valueLE_bytesLE]

theorem readBytes_append (bytes rest : List UInt8) :
    readBytes bytes.length (bytes ++ rest) = some (bytes, rest) := by
  simp [readBytes]

theorem readInt_storeInt (host : Host) (width x : Nat) (rest : List UInt8) :
    readInt host width (storeInt host width x ++ rest) = some (x % 256 ^ width, rest) := by
  have h := readBytes_append (storeInt host width x) rest
  rw [storeInt_length] at h
  simp [readInt, h, loadInt_storeInt]

theorem readBytes_replicate (n : Nat) (p : UInt8) (rest : List UInt8) :
    readBytes n (List.replicate n p ++ rest) = some (List.replicate n p, rest) := by
  have h := readBytes_append (List.replicate n p) rest
  rwa [List.length_replicate] at h

/-- Reading back the header that was written, on the same host: the members come back, reduced
to the range of their types, and the stream is at the first byte after the header. -/
theorem FileIndexHeader.read_toBytes (host : Host) (header : FileIndexHeader)
    (rest : List UInt8) :
    FileIndexHeader.read host (header.toBytes host ++ rest) = some (header.wrap, rest) := by
  simp only [FileIndexHeader.read, FileIndexHeader.toBytes, List.append_assoc, bind, 
    readInt_storeInt, readBytes_replicate, Option.bind, pure]
  rfl

/-! ## The cache file -/

section
variable {TItem : Type}

theorem WriteIndexFile.writeItems_spec (Serialise : TItem → List UInt8) :
    ∀ (items : List TItem) (disk : Disk) (content : List UInt8), disk.file = some content →
      ∃ suffix, (WriteIndexFile.writeItems Serialise items disk).1.file = some (content ++ suffix)
        ∧ (WriteIndexFile.writeItems Serialise items disk).1.readable = disk.readable
        ∧ ((WriteIndexFile.writeItems Serialise items disk).2 = true →
            suffix = items.flatMap Serialise) := by
  intro items
  induction items with
  | nil =>
    intro disk content h
    exact ⟨[], by simp [WriteIndexFile.writeItems, h], rfl, fun _ => rfl⟩
  | cons item items ih =>
    intro disk content h
    by_cases hfit : (Serialise item).length ≤ disk.space
    · obtain ⟨suffix, hfile, hread, hok⟩ := ih
        { disk with file := some (content ++ Serialise item),
                    space := disk.space - (Serialise item).length }
        (content ++ Serialise item) rfl
      refine ⟨Serialise item ++ suffix, ?_, ?_, ?_⟩
      · simpa [WriteIndexFile.writeItems, Disk.Write, hfit, h] using hfile
      · simpa [WriteIndexFile.writeItems, Disk.Write, hfit, h] using hread
      · intro hsucc
        have := hok (by simpa [WriteIndexFile.writeItems, Disk.Write, hfit, h] using hsucc)
        simp [this]
    · exact ⟨[], by simp [WriteIndexFile.writeItems, Disk.Write, hfit, h],
        by simp [WriteIndexFile.writeItems, Disk.Write, hfit],
        by simp [WriteIndexFile.writeItems, Disk.Write, hfit]⟩

/-- The file that `WriteIndexFile` leaves once it has opened it: empty when the header could
not be written, the header followed by item records otherwise, by the records of all the items
in their order when no exception was raised. -/
theorem WriteIndexFile_file (host : Host) (self : FileIndex) (Serialise : TItem → List UInt8)
    (language : Int) (stats : DirectoryStats) (items : List TItem) (disk : Disk)
    (hw : disk.writable = true) :
    (WriteIndexFile host self Serialise language stats items disk).1.readable = disk.readable
    ∧ (((WriteIndexFile host self Serialise language stats items disk).1.file = some []
        ∧ (WriteIndexFile host self Serialise language stats items disk).2 = false)
      ∨ ∃ suffix, (WriteIndexFile host self Serialise language stats items disk).1.file
          = some ((WriteIndexFile.header host self language stats items).toBytes host ++ suffix)
        ∧ ((WriteIndexFile host self Serialise language stats items disk).2 = true →
            suffix = items.flatMap Serialise)) := by
  unfold WriteIndexFile
  rw [if_pos hw]
  by_cases hfit : ((WriteIndexFile.header host self language stats items).toBytes host).length
      ≤ disk.space
  · obtain ⟨suffix, hfile, hread, hok⟩ := WriteIndexFile.writeItems_spec Serialise items
      { disk with file := some ((WriteIndexFile.header host self language stats items).toBytes host),
                  space := disk.space
                    - ((WriteIndexFile.header host self language stats items).toBytes host).length }
      _ rfl
    simp only [Disk.Write, hfit, if_true, Option.getD_some, List.nil_append]
    exact ⟨hread, Or.inr ⟨suffix, hfile, hok⟩⟩
  · simp only [Disk.Write, hfit, if_false]
    simp

theorem WriteIndexFile_writable (host : Host) (self : FileIndex) (Serialise : TItem → List UInt8)
    (language : Int) (stats : DirectoryStats) (items : List TItem) (disk : Disk)
    (hok : (WriteIndexFile host self Serialise language stats items disk).2 = true) :
    disk.writable = true := by
  by_contra hw
  simp [WriteIndexFile, hw] at hok

theorem ReadIndexFile.readItems_spec (Serialise : TItem → List UInt8)
    (Deserialise : List UInt8 → Option (TItem × List UInt8))
    (hinv : ∀ item stream, Deserialise (Serialise item ++ stream) = some (item, stream)) :
    ∀ (items : List TItem) (stream : List UInt8) (acc : List TItem),
      ReadIndexFile.readItems Deserialise items.length (items.flatMap Serialise ++ stream) acc
        = (true, acc ++ items) := by
  intro items
  induction items with
  | nil => intro stream acc; simp [ReadIndexFile.readItems]
  | cons item items ih =>
    intro stream acc
    simp [ReadIndexFile.readItems, List.flatMap_cons, hinv, ih]

/-- What `ReadIndexFile` does with a file that starts with a header written on the same host. -/
theorem ReadIndexFile_of_header (host : Host) (self : FileIndex)
    (Deserialise : List UInt8 → Option (TItem × List UInt8)) (language : Int)
    (stats : DirectoryStats) (disk : Disk) (header : FileIndexHeader) (fs : List UInt8)
    (hfile : disk.file = some (header.toBytes host ++ fs)) (hread : disk.readable = true) :
    ReadIndexFile host self Deserialise language stats disk
      = if ORCT_ensure_value_is_little_endian32 host (u32 header.HeaderSize)
              = sizeofFileIndexHeader host
            ∧ ORCT_ensure_value_is_little_endian32 host (u32 header.MagicNumber)
              = self._magicNumber
            ∧ u8 header.VersionA = self.FILE_INDEX_VERSION ∧ u8 header.VersionB = self._version
            ∧ ((ORCT_ensure_value_is_little_endian16 host (u16 header.LanguageId) : Nat) : Int)
              = language
            ∧ ORCT_ensure_value_is_little_endian32 host (u32 header.Stats.TotalFiles)
              = stats.TotalFiles
            ∧ ORCT_ensure_value_is_little_endian64 host (u64 header.Stats.TotalFileSize)
              = stats.TotalFileSize
            ∧ ORCT_ensure_value_is_little_endian32 host (u32 header.Stats.FileDateModifiedChecksum)
              = stats.FileDateModifiedChecksum
            ∧ ORCT_ensure_value_is_little_endian32 host (u32 header.Stats.PathChecksum)
              = stats.PathChecksum then
          ReadIndexFile.readItems Deserialise
            (ORCT_ensure_value_is_little_endian32 host (u32 header.NumItems)) fs []
        else (false, []) := by
  simp only [ReadIndexFile, hfile, hread, if_true, FileIndexHeader.read_toBytes,
    FileIndexHeader.wrap]

end

theorem sizeofFileIndexHeader_u32 (host : Host) :
    u32 (sizeofFileIndexHeader host) = sizeofFileIndexHeader host := by
  unfold sizeofFileIndexHeader padTo64 u32
  split <;> rfl

theorem u16OfInt_cast (language : Int) (h0 : 0 ≤ language) (h1 : language < 2 ^ 16) :
    ((u16OfInt language : Nat) : Int) = language := by
  unfold u16OfInt
  omega

/-- C2, as stated, fails: with the language 65536 the header holds the language id 0, and
`ReadIndexFile` with the same language and stats reports a miss on the file that
`WriteIndexFile` has just written without failure, for a builder whose `Deserialise` reads
back what `Serialise` wrote. (On a big-endian host the same happens with the language 5: the
header is written in host byte order and its members are swapped after they are read.) -/
theorem round_trip_fails_for_language_65536 :
    (WriteIndexFile ⟨false, true, true, 0⟩ { _magicNumber := 1, _version := 1, SearchPaths := [] }
        byteSerialise 65536 {} [7, 8] ⟨none, true, true, 100⟩).2 = true
    ∧ (∀ item stream, byteDeserialise (byteSerialise item ++ stream) = some (item, stream))
    ∧ ReadIndexFile ⟨false, true, true, 0⟩ { _magicNumber := 1, _version := 1, SearchPaths := [] }
        byteDeserialise 65536 {}
        (WriteIndexFile ⟨false, true, true, 0⟩
          { _magicNumber := 1, _version := 1, SearchPaths := [] }
          byteSerialise 65536 {} [7, 8] ⟨none, true, true, 100⟩).1 = (false, [])
    ∧ (WriteIndexFile ⟨true, true, true, 0⟩ { _magicNumber := 1, _version := 1, SearchPaths := [] }
        byteSerialise 5 {} [7, 8] ⟨none, true, true, 100⟩).2 = true
    ∧ ReadIndexFile ⟨true, true, true, 0⟩ { _magicNumber := 1, _version := 1, SearchPaths := [] }
        byteDeserialise 5 {}
        (WriteIndexFile ⟨true, true, true, 0⟩
          { _magicNumber := 1, _version := 1, SearchPaths := [] }
          byteSerialise 5 {} [7, 8] ⟨none, true, true, 100⟩).1 = (false, []) := by
  refine ⟨by decide, fun _ _ => rfl, by decide, by decide, by decide⟩

/-- What `ReadIndexFile` yields on the file that `WriteIndexFile` has written without an
exception, on a little-endian host and with a language that fits in 16 bits. -/
theorem ReadIndexFile_after_WriteIndexFile {TItem : Type} (host : Host) (self : FileIndex)
    (Serialise : TItem → List UInt8) (Deserialise : List UInt8 → Option (TItem × List UInt8))
    (language : Int) (stats : DirectoryStats) (items : List TItem) (disk : Disk)
    (hhost : host.bigEndian = false) (hself : self.InRange) (hstats : stats.InRange)
    (hlang : 0 ≤ language ∧ language < 2 ^ 16) (hcount : items.length < 2 ^ 32)
    (hinv : ∀ item stream, Deserialise (Serialise item ++ stream) = some (item, stream))
    (hok : (WriteIndexFile host self Serialise language stats items disk).2 = true)
    (hread : disk.readable = true) :
    ReadIndexFile host self Deserialise language stats
      (WriteIndexFile host self Serialise language stats items disk).1 = (true, items) := by
  have hw := WriteIndexFile_writable host self Serialise language stats items disk hok
  obtain ⟨hr, hfile⟩ := WriteIndexFile_file host self Serialise language stats items disk hw
  rcases hfile with ⟨-, hfalse⟩ | ⟨suffix, hfile, hsuffix⟩
  · rw [hok] at hfalse
    cases hfalse
  · have hs := hsuffix hok
    subst hs
    rw [ReadIndexFile_of_header host self Deserialise language stats _ _ _ hfile (hr.trans hread)]
    obtain ⟨hm, hv, hfv⟩ := hself
    obtain ⟨h1, h2, h3, h4⟩ := hstats
    have hcond : ORCT_ensure_value_is_little_endian32 host
            (u32 (WriteIndexFile.header host self language stats items).HeaderSize)
              = sizeofFileIndexHeader host
          ∧ ORCT_ensure_value_is_little_endian32 host
              (u32 (WriteIndexFile.header host self language stats items).MagicNumber)
              = self._magicNumber
          ∧ u8 (WriteIndexFile.header host self language stats items).VersionA
              = self.FILE_INDEX_VERSION
          ∧ u8 (WriteIndexFile.header host self language stats items).VersionB = self._version
          ∧ ((ORCT_ensure_value_is_little_endian16 host
                (u16 (WriteIndexFile.header host self language stats items).LanguageId) : Nat) : Int)
              = language
          ∧ ORCT_ensure_value_is_little_endian32 host
              (u32 (WriteIndexFile.header host self language stats items).Stats.TotalFiles)
              = stats.TotalFiles
          ∧ ORCT_ensure_value_is_little_endian64 host
              (u64 (WriteIndexFile.header host self language stats items).Stats.TotalFileSize)
              = stats.TotalFileSize
          ∧ ORCT_ensure_value_is_little_endian32 host
              (u32 (WriteIndexFile.header host self language stats items).Stats.FileDateModifiedChecksum)
              = stats.FileDateModifiedChecksum
          ∧ ORCT_ensure_value_is_little_endian32 host
              (u32 (WriteIndexFile.header host self language stats items).Stats.PathChecksum)
              = stats.PathChecksum := by
      simp only [ORCT_ensure_value_is_little_endian32, ORCT_ensure_value_is_little_endian16,
        ORCT_ensure_value_is_little_endian64, hhost, WriteIndexFile.header,
        sizeofFileIndexHeader_u32, Bool.false_eq_true, if_false]
      refine ⟨trivial, Nat.mod_eq_of_lt hm, Nat.mod_eq_of_lt hfv, Nat.mod_eq_of_lt hv, ?_,
        Nat.mod_eq_of_lt h1, Nat.mod_eq_of_lt h2, Nat.mod_eq_of_lt h3, Nat.mod_eq_of_lt h4⟩
      have hl : u16 (u16OfInt language) = u16OfInt language := by
        unfold u16 u16OfInt
        omega
      rw [hl]
      exact u16OfInt_cast language hlang.1 hlang.2
    rw [if_pos hcond]
    have hn : ORCT_ensure_value_is_little_endian32 host
        (u32 (WriteIndexFile.header host self language stats items).NumItems) = items.length := by
      simp only [ORCT_ensure_value_is_little_endian32, hhost, WriteIndexFile.header, u32,
        Bool.false_eq_true, if_false]
      omega
    rw [hn]
    have := ReadIndexFile.readItems_spec Serialise Deserialise hinv items [] []
    simpa using this

/-- C2, amended: on a little-endian host, for every language from 0 to 65535, every
`DirectoryStats` value and every list of fewer than 2^32 items, if `WriteIndexFile` ends without
an exception, `Deserialise` reads back what `Serialise` wrote for one item, and the file can be
opened, then `ReadIndexFile` with the same language and stats reports success and returns a
list equal to the items, in the same order. -/
theorem WriteIndexFile_ReadIndexFile_round_trip {TItem : Type} (host : Host) (self : FileIndex)
    (Serialise : TItem → List UInt8) (Deserialise : List UInt8 → Option (TItem × List UInt8))
    (language : Int) (stats : DirectoryStats) (items : List TItem) (disk : Disk)
    (hhost : host.bigEndian = false) (hself : self.InRange) (hstats : stats.InRange)
    (hlang : 0 ≤ language ∧ language < 2 ^ 16) (hcount : items.length < 2 ^ 32)
    (hinv : ∀ item stream, Deserialise (Serialise item ++ stream) = some (item, stream))
    (hok : (WriteIndexFile host self Serialise language stats items disk).2 = true)
    (hread : disk.readable = true) :
    ReadIndexFile host self Deserialise language stats
      (WriteIndexFile host self Serialise language stats items disk).1 = (true, items) :=
  ReadIndexFile_after_WriteIndexFile host self Serialise Deserialise language stats items disk
    hhost hself hstats hlang hcount hinv hok hread

/-- A round trip of two items under the language 5 on a little-endian host. -/
theorem WriteIndexFile_ReadIndexFile_round_trip_witness :
    ReadIndexFile ⟨false, true, true, 0⟩ { _magicNumber := 1, _version := 1, SearchPaths := [] }
        byteDeserialise 5 {}
        (WriteIndexFile ⟨false, true, true, 0⟩
          { _magicNumber := 1, _version := 1, SearchPaths := [] }
          byteSerialise 5 {} [7, 8] ⟨none, true, true, 100⟩).1 = (true, [7, 8]) :=
  WriteIndexFile_ReadIndexFile_round_trip ⟨false, true, true, 0⟩
    { _magicNumber := 1, _version := 1, SearchPaths := [] } byteSerialise byteDeserialise 5 {}
    [7, 8] ⟨none, true, true, 100⟩ rfl (by decide) (by decide) (by decide) (by decide)
    (fun _ _ => rfl) (by decide) rfl

section
variable {TItem : Type}

theorem ReadIndexFile_not_readable (host : Host) (self : FileIndex)
    (Deserialise : List UInt8 → Option (TItem × List UInt8)) (language : Int)
    (stats : DirectoryStats) (disk : Disk) (hread : disk.readable = false) :
    ReadIndexFile host self Deserialise language stats disk = (false, []) := by
  unfold ReadIndexFile
  cases disk.file <;> simp [hread]

theorem ReadIndexFile_empty_file (host : Host) (self : FileIndex)
    (Deserialise : List UInt8 → Option (TItem × List UInt8)) (language : Int)
    (stats : DirectoryStats) (disk : Disk) (hfile : disk.file = some []) :
    ReadIndexFile host self Deserialise language stats disk = (false, []) := by
  have hint : readInt host 4 [] = none := rfl
  have hnone : FileIndexHeader.read host [] = none := by
    unfold FileIndexHeader.read
    rw [hint]
    rfl
  unfold ReadIndexFile
  rw [hfile]
  simp only [hnone]
  split <;> rfl

/-- On a big-endian host the header size that was written never compares equal. -/
theorem bigEndian_HeaderSize_mismatch (host : Host) (hhost : host.bigEndian = true) :
    ORCT_ensure_value_is_little_endian32 host (u32 (sizeofFileIndexHeader host))
      ≠ sizeofFileIndexHeader host := by
  unfold ORCT_ensure_value_is_little_endian32 sizeofFileIndexHeader padTo64
  rw [if_pos hhost]
  cases host.align64 <;> decide

/-- A file that `WriteIndexFile` has opened is a miss for a reader for which the comparison of
the header that was written fails. -/
theorem ReadIndexFile_miss_of_header_mismatch (host : Host) (writer reader : FileIndex)
    (Serialise : TItem → List UInt8) (Deserialise : List UInt8 → Option (TItem × List UInt8))
    (written expected : Int) (stats stats' : DirectoryStats) (items : List TItem) (disk : Disk)
    (hw : disk.writable = true)
    (hne : host.bigEndian = false →
      ¬ (writer._magicNumber % 2 ^ 32 = reader._magicNumber
        ∧ writer.FILE_INDEX_VERSION % 2 ^ 8 = reader.FILE_INDEX_VERSION
        ∧ writer._version % 2 ^ 8 = reader._version
        ∧ ((u16OfInt written : Nat) : Int) = expected
        ∧ stats.TotalFiles % 2 ^ 32 = stats'.TotalFiles
        ∧ stats.TotalFileSize % 2 ^ 64 = stats'.TotalFileSize
        ∧ stats.FileDateModifiedChecksum % 2 ^ 32 = stats'.FileDateModifiedChecksum
        ∧ stats.PathChecksum % 2 ^ 32 = stats'.PathChecksum)) :
    (ReadIndexFile host reader Deserialise expected stats'
      (WriteIndexFile host writer Serialise written stats items disk).1).1 = false := by
  obtain ⟨-, hfile⟩ := WriteIndexFile_file host writer Serialise written stats items disk hw
  cases hread : (WriteIndexFile host writer Serialise written stats items disk).1.readable with
  | false => rw [ReadIndexFile_not_readable host reader Deserialise expected stats' _ hread]
  | true =>
    rcases hfile with ⟨hfile, -⟩ | ⟨suffix, hfile, -⟩
    · rw [ReadIndexFile_empty_file host reader Deserialise expected stats' _ hfile]
    · rw [ReadIndexFile_of_header host reader Deserialise expected stats' _ _ _ hfile hread,
        if_neg]
      rintro ⟨c1, c2, c3, c4, c5, c6, c7, c8, c9⟩
      cases hhost : host.bigEndian with
      | true =>
        exact bigEndian_HeaderSize_mismatch host hhost (by simpa [WriteIndexFile.header] using c1)
      | false =>
        apply hne hhost
        have hl : u16 (u16OfInt written) = u16OfInt written := by
          unfold u16 u16OfInt
          omega
        simp only [ORCT_ensure_value_is_little_endian32, ORCT_ensure_value_is_little_endian16,
          ORCT_ensure_value_is_little_endian64, hhost, WriteIndexFile.header, hl,
          Bool.false_eq_true, if_false] at c2 c3 c4 c5 c6 c7 c8 c9
        exact ⟨c2, c3, c4, c5, c6, c7, c8, c9⟩

end

/-- C3: a cache file that `WriteIndexFile` has opened and written to is reported as a miss by
`ReadIndexFile` (with the same language) whenever the reader's magic number, its
`FILE_INDEX_VERSION`, its family version byte or one of the four `DirectoryStats` fields it
expects differs from the value the file was written with, whatever the other fields. -/
theorem ReadIndexFile_miss_on_changed_field {TItem : Type} (host : Host)
    (writer reader : FileIndex) (Serialise : TItem → List UInt8)
    (Deserialise : List UInt8 → Option (TItem × List UInt8)) (language : Int)
    (stats stats' : DirectoryStats) (items : List TItem) (disk : Disk)
    (hwriter : writer.InRange) (hstats : stats.InRange) (hw : disk.writable = true)
    (hdiff : reader._magicNumber ≠ writer._magicNumber
      ∨ reader.FILE_INDEX_VERSION ≠ writer.FILE_INDEX_VERSION
      ∨ reader._version ≠ writer._version
      ∨ stats'.TotalFiles ≠ stats.TotalFiles
      ∨ stats'.TotalFileSize ≠ stats.TotalFileSize
      ∨ stats'.FileDateModifiedChecksum ≠ stats.FileDateModifiedChecksum
      ∨ stats'.PathChecksum ≠ stats.PathChecksum) :
    (ReadIndexFile host reader Deserialise language stats'
      (WriteIndexFile host writer Serialise language stats items disk).1).1 = false := by
  apply ReadIndexFile_miss_of_header_mismatch host writer reader Serialise Deserialise language
    language stats stats' items disk hw
  rintro - ⟨c2, c3, c4, -, c6, c7, c8, c9⟩
  obtain ⟨hm, hv, hfv⟩ := hwriter
  obtain ⟨h1, h2, h3, h4⟩ := hstats
  rw [Nat.mod_eq_of_lt hm] at c2
  rw [Nat.mod_eq_of_lt hfv] at c3
  rw [Nat.mod_eq_of_lt hv] at c4
  rw [Nat.mod_eq_of_lt h1] at c6
  rw [Nat.mod_eq_of_lt h2] at c7
  rw [Nat.mod_eq_of_lt h3] at c8
  rw [Nat.mod_eq_of_lt h4] at c9
  rcases hdiff with h | h | h | h | h | h | h
  · exact h c2.symm
  · exact h c3.symm
  · exact h c4.symm
  · exact h c6.symm
  · exact h c7.symm
  · exact h c8.symm
  · exact h c9.symm

/-- A file written with `FILE_INDEX_VERSION` 4 is a miss for a build whose
`FILE_INDEX_VERSION` is 5. -/
theorem ReadIndexFile_miss_on_changed_field_witness :
    (ReadIndexFile ⟨false, true, true, 0⟩
      { _magicNumber := 1, _version := 1, SearchPaths := [], FILE_INDEX_VERSION := 5 }
      byteDeserialise 5 {}
      (WriteIndexFile ⟨false, true, true, 0⟩
        { _magicNumber := 1, _version := 1, SearchPaths := [] }
        byteSerialise 5 {} [7, 8] ⟨none, true, true, 100⟩).1).1 = false :=
  ReadIndexFile_miss_on_changed_field ⟨false, true, true, 0⟩
    { _magicNumber := 1, _version := 1, SearchPaths := [] }
    { _magicNumber := 1, _version := 1, SearchPaths := [], FILE_INDEX_VERSION := 5 }
    byteSerialise byteDeserialise 5 {} {} [7, 8] ⟨none, true, true, 100⟩
    (by decide) (by decide) rfl (Or.inr (Or.inl (by decide)))

/-- C4, as stated, fails: a file written under the language 65537 holds the language id 1 and
is accepted by `ReadIndexFile` under the language 1. -/
theorem language_65537_hit_under_language_1 :
    (65537 : Int) ≠ 1
    ∧ ReadIndexFile ⟨false, true, true, 0⟩ { _magicNumber := 1, _version := 1, SearchPaths := [] }
        byteDeserialise 1 {}
        (WriteIndexFile ⟨false, true, true, 0⟩
          { _magicNumber := 1, _version := 1, SearchPaths := [] }
          byteSerialise 65537 {} [7, 8] ⟨none, true, true, 100⟩).1 = (true, [7, 8]) := by
  decide

/-- C4, amended: for every two language values L1 and L2 such that L2 is not L1 reduced modulo
2^16 (the `uint16_t` that the header holds), and so for every two different languages when L1 is
from 0 to 65535, a cache file that `WriteIndexFile` has opened and written to under L1 is
reported as a miss by `ReadIndexFile` under L2. -/
theorem ReadIndexFile_miss_on_other_language {TItem : Type} (host : Host) (self : FileIndex)
    (Serialise : TItem → List UInt8) (Deserialise : List UInt8 → Option (TItem × List UInt8))
    (language₁ language₂ : Int) (stats : DirectoryStats) (items : List TItem) (disk : Disk)
    (hw : disk.writable = true)
    (hdiff : language₁ % 2 ^ 16 ≠ language₂ ∨
      (0 ≤ language₁ ∧ language₁ < 2 ^ 16 ∧ language₁ ≠ language₂)) :
    (ReadIndexFile host self Deserialise language₂ stats
      (WriteIndexFile host self Serialise language₁ stats items disk).1).1 = false := by
  apply ReadIndexFile_miss_of_header_mismatch host self self Serialise Deserialise language₁
    language₂ stats stats items disk hw
  rintro - ⟨-, -, -, c5, -⟩
  unfold u16OfInt at c5
  omega

/-- A file written under the language 5 is a miss under the language 6. -/
theorem ReadIndexFile_miss_on_other_language_witness :
    (ReadIndexFile ⟨false, true, true, 0⟩ { _magicNumber := 1, _version := 1, SearchPaths := [] }
      byteDeserialise 6 {}
      (WriteIndexFile ⟨false, true, true, 0⟩
        { _magicNumber := 1, _version := 1, SearchPaths := [] }
        byteSerialise 5 {} [7, 8] ⟨none, true, true, 100⟩).1).1 = false :=
  ReadIndexFile_miss_on_other_language ⟨false, true, true, 0⟩
    { _magicNumber := 1, _version := 1, SearchPaths := [] } byteSerialise byteDeserialise 5 6 {}
    [7, 8] ⟨none, true, true, 100⟩ rfl (Or.inl (by decide))

/-- Three files of which `Create` rejects the second: `Build` returns two items. -/
theorem Build_partial_failure_witness :
    ∃ r, Build ⟨false, true, true, 0⟩ { _magicNumber := 1, _version := 1, SearchPaths := [] }
        (fun _ path => (path != [0x62], path.length)) (fun n => [UInt8.ofNat n]) 0
        ⟨{}, [[0x61], [0x62], [0x63]]⟩ [0, 0] ⟨none, true, true, 100⟩ = some r
      ∧ r.1.length = 3 - 1 :=
  Build_partial_failure ⟨false, true, true, 0⟩
    { _magicNumber := 1, _version := 1, SearchPaths := [] }
    (fun _ path => (path != [0x62], path.length)) (fun n => [UInt8.ofNat n]) 0
    ⟨{}, [[0x61], [0x62], [0x63]]⟩ [0, 0] ⟨none, true, true, 100⟩ 1 (by decide)

/-! ## Sensitivity of the checksums -/

theorem ror32_lt (x shift : Nat) : ror32 x shift < 2 ^ 32 := by
  unfold ror32
  apply Nat.or_lt_two_pow
  · have h : u32 x < 2 ^ 32 := Nat.mod_lt _ (by decide)
    rw [Nat.shiftRight_eq_div_pow]
    exact lt_of_le_of_lt (Nat.div_le_self _ _) h
  · exact Nat.mod_lt _ (by decide)

theorem ror32_five_injective (x y : Nat) (hx : x < 2 ^ 32) (hy : y < 2 ^ 32)
    (h : ror32 x 5 = ror32 y 5) : x = y := by
  rw [ror32_five x hx, ror32_five y hy] at h
  omega

theorem dateWord_lt (t : Nat) : dateWord t < 2 ^ 32 := by
  unfold dateWord
  apply Nat.xor_lt_two_pow
  · exact Nat.mod_lt _ (by decide)
  · exact Nat.mod_lt _ (by decide)

/-- The date checksum of `Scan` as a fold of `dateWord`. -/
theorem Scan_dateChecksum_eq (host : Host) (ScanDirectory : StdString → List FileDescriptor)
    (self : FileIndex) :
    (Scan host ScanDirectory self).Stats.FileDateModifiedChecksum
      = (scanSequence ScanDirectory self).foldl
          (fun acc d => ror32 (acc ^^^ dateWord d.LastModified) 5) 0 := by
  rw [Scan_eq_foldl]
  simp only [Scan_foldl_FileDateModifiedChecksum, high32_eq, low32_eq, dateWord]

theorem dateFold_lt (ds : List FileDescriptor) (a : Nat) (ha : a < 2 ^ 32) :
    ds.foldl (fun acc d => ror32 (acc ^^^ dateWord d.LastModified) 5) a < 2 ^ 32 := by
  induction ds generalizing a with
  | nil => exact ha
  | cons d ds ih => exact ih _ (ror32_lt _ _)

theorem dateFold_injective (ds : List FileDescriptor) :
    ∀ a b, a < 2 ^ 32 → b < 2 ^ 32 →
      ds.foldl (fun acc d => ror32 (acc ^^^ dateWord d.LastModified) 5) a
        = ds.foldl (fun acc d => ror32 (acc ^^^ dateWord d.LastModified) 5) b → a = b := by
  induction ds with
  | nil => intro a b _ _ h; exact h
  | cons d ds ih =>
    intro a b ha hb h
    have hstep := ih _ _ (ror32_lt _ _) (ror32_lt _ _) h
    have hxor := ror32_five_injective _ _
      (Nat.xor_lt_two_pow ha (dateWord_lt _)) (Nat.xor_lt_two_pow hb (dateWord_lt _)) hstep
    exact Nat.xor_left_injective hxor

/-- C11: there are two scan sequences that are permutations of one another (the same two
files, with the same sizes and timestamps, in the two orders) for which `Scan` yields different
`FileDateModifiedChecksum` values. -/
theorem Scan_dateChecksum_order_dependent (host : Host) :
    ∃ (ScanDirectory₁ ScanDirectory₂ : StdString → List FileDescriptor) (self : FileIndex),
      (scanSequence ScanDirectory₁ self).Perm (scanSequence ScanDirectory₂ self)
      ∧ (Scan host ScanDirectory₁ self).Stats.FileDateModifiedChecksum
          ≠ (Scan host ScanDirectory₂ self).Stats.FileDateModifiedChecksum := by
  refine ⟨fun _ => [⟨[0x61], 5, 1⟩, ⟨[0x62], 7, 2⟩], fun _ => [⟨[0x62], 7, 2⟩, ⟨[0x61], 5, 1⟩],
    { _magicNumber := 0, _version := 0, SearchPaths := [[0x2F]] }, ?_, ?_⟩
  · simpa [scanSequence] using List.Perm.swap _ _ []
  · rw [Scan_dateChecksum_eq, Scan_dateChecksum_eq]
    decide

/-- C12, as stated, fails: the timestamps 0 and 0x0000000100000001 are different 64-bit values,
and a scan of one file yields the date checksum 0 with either. -/
theorem Scan_dateChecksum_blind_to_equal_halves :
    (0 : Nat) ≠ 0x0000000100000001 ∧ 0x0000000100000001 < 2 ^ 64
    ∧ (Scan ⟨false, true, true, 0⟩ (fun _ => [⟨[0x61], 5, 0⟩])
        { _magicNumber := 0, _version := 0, SearchPaths := [[0x2F]] }).Stats.FileDateModifiedChecksum
      = (Scan ⟨false, true, true, 0⟩ (fun _ => [⟨[0x61], 5, 0x0000000100000001⟩])
        { _magicNumber := 0, _version := 0, SearchPaths := [[0x2F]] }).Stats.FileDateModifiedChecksum := by
  decide

/-- C12, amended: for every scan sequence and every position in it, replacing the modification
timestamp `t` of the descriptor at that position by `t'`, with every path, size and other
timestamp and the order held fixed, changes the `FileDateModifiedChecksum` computed by `Scan`
exactly when `high32(t) XOR low32(t)` differs from `high32(t') XOR low32(t')`. -/
theorem Scan_dateChecksum_sensitive (host : Host)
    (ScanDirectory₁ ScanDirectory₂ : StdString → List FileDescriptor) (self₁ self₂ : FileIndex)
    (before after : List FileDescriptor) (d : FileDescriptor) (t' : Nat)
    (h₁ : scanSequence ScanDirectory₁ self₁ = before ++ d :: after)
    (h₂ : scanSequence ScanDirectory₂ self₂ = before ++ { d with LastModified := t' } :: after) :
    (Scan host ScanDirectory₁ self₁).Stats.FileDateModifiedChecksum
        ≠ (Scan host ScanDirectory₂ self₂).Stats.FileDateModifiedChecksum
      ↔ high32 d.LastModified ^^^ low32 d.LastModified ≠ high32 t' ^^^ low32 t' := by
  rw [Scan_dateChecksum_eq, Scan_dateChecksum_eq, h₁, h₂]
  simp only [List.foldl_append, List.foldl_cons]
  have hA := dateFold_lt before 0 (by decide)
  apply not_congr
  constructor
  · intro h
    have hstep := dateFold_injective after _ _ (ror32_lt _ _) (ror32_lt _ _) h
    have hxor := ror32_five_injective _ _
      (Nat.xor_lt_two_pow hA (dateWord_lt _)) (Nat.xor_lt_two_pow hA (dateWord_lt _)) hstep
    exact Nat.xor_right_injective hxor
  · intro h
    simp only [dateWord, h]

/-- One file whose timestamp goes from 1 to 2: the date checksum changes. -/
theorem Scan_dateChecksum_sensitive_witness :
    (Scan ⟨false, true, true, 0⟩ (fun _ => [⟨[0x61], 5, 1⟩])
        { _magicNumber := 0, _version := 0, SearchPaths := [[0x2F]] }).Stats.FileDateModifiedChecksum
      ≠ (Scan ⟨false, true, true, 0⟩ (fun _ => [⟨[0x61], 5, 2⟩])
        { _magicNumber := 0, _version := 0, SearchPaths := [[0x2F]] }).Stats.FileDateModifiedChecksum :=
  (Scan_dateChecksum_sensitive ⟨false, true, true, 0⟩ (fun _ => [⟨[0x61], 5, 1⟩])
    (fun _ => [⟨[0x61], 5, 2⟩]) { _magicNumber := 0, _version := 0, SearchPaths := [[0x2F]] }
    { _magicNumber := 0, _version := 0, SearchPaths := [[0x2F]] } [] [] ⟨[0x61], 5, 1⟩ 2
    (by decide) (by decide)).2 (by decide)

theorem GetPathChecksum_lt (host : Host) (path : StdString) :
    GetPathChecksum host path < 2 ^ 32 := by
  unfold GetPathChecksum
  exact Nat.mod_lt _ (by decide)

/-- C13, as stated, fails: the different paths "t28070.td6" and "t165114.td6" have the same
hash, so that a scan of the one and a scan of the other yield the same `PathChecksum`. -/
theorem Scan_PathChecksum_collision :
    ([0x74, 0x32, 0x38, 0x30, 0x37, 0x30, 0x2E, 0x74, 0x64, 0x36] : StdString)
      ≠ [0x74, 0x31, 0x36, 0x35, 0x31, 0x31, 0x34, 0x2E, 0x74, 0x64, 0x36]
    ∧ (Scan ⟨false, true, true, 0⟩
        (fun _ => [⟨[0x74, 0x32, 0x38, 0x30, 0x37, 0x30, 0x2E, 0x74, 0x64, 0x36], 5, 1⟩])
        { _magicNumber := 0, _version := 0, SearchPaths := [[0x2F]] }).Stats.PathChecksum
      = (Scan ⟨false, true, true, 0⟩
        (fun _ => [⟨[0x74, 0x31, 0x36, 0x35, 0x31, 0x31, 0x34, 0x2E, 0x74, 0x64, 0x36], 5, 1⟩])
        { _magicNumber := 0, _version := 0, SearchPaths := [[0x2F]] }).Stats.PathChecksum := by
  decide

/-- C13, amended: for every scan sequence and every position in it, replacing the path of the
descriptor at that position by another path, with every size, timestamp and other path and the
order held fixed, changes the `PathChecksum` computed by `Scan` exactly when the two paths have
different `GetPathChecksum` hashes. -/
theorem Scan_PathChecksum_sensitive (host : Host)
    (ScanDirectory₁ ScanDirectory₂ : StdString → List FileDescriptor) (self₁ self₂ : FileIndex)
    (before after : List FileDescriptor) (d : FileDescriptor) (path' : StdString)
    (h₁ : scanSequence ScanDirectory₁ self₁ = before ++ d :: after)
    (h₂ : scanSequence ScanDirectory₂ self₂ = before ++ { d with Path := path' } :: after) :
    (Scan host ScanDirectory₁ self₁).Stats.PathChecksum
        ≠ (Scan host ScanDirectory₂ self₂).Stats.PathChecksum
      ↔ GetPathChecksum host d.Path ≠ GetPathChecksum host path' := by
  rw [Scan_eq_foldl, Scan_eq_foldl]
  simp only [Scan_foldl_PathChecksum, h₁, h₂, List.map_append, List.map_cons, List.sum_append,
    List.sum_cons]
  have ha := GetPathChecksum_lt host d.Path
  have hb := GetPathChecksum_lt host path'
  omega

/-- One file whose path goes from "a" to "b": the path checksum changes. -/
theorem Scan_PathChecksum_sensitive_witness :
    (Scan ⟨false, true, true, 0⟩ (fun _ => [⟨[0x61], 5, 1⟩])
        { _magicNumber := 0, _version := 0, SearchPaths := [[0x2F]] }).Stats.PathChecksum
      ≠ (Scan ⟨false, true, true, 0⟩ (fun _ => [⟨[0x62], 5, 1⟩])
        { _magicNumber := 0, _version := 0, SearchPaths := [[0x2F]] }).Stats.PathChecksum :=
  (Scan_PathChecksum_sensitive ⟨false, true, true, 0⟩ (fun _ => [⟨[0x61], 5, 1⟩])
    (fun _ => [⟨[0x62], 5, 1⟩]) { _magicNumber := 0, _version := 0, SearchPaths := [[0x2F]] }
    { _magicNumber := 0, _version := 0, SearchPaths := [[0x2F]] } [] [] ⟨[0x61], 5, 1⟩ [0x62]
    (by decide) (by decide)).2 (by decide)


/-! ## The byte swaps of Endian.h -/

/-- Masking out the byte that starts at bit `k`. -/
theorem and_byte_mask (y k : Nat) : y &&& (255 * 2 ^ k) = y / 2 ^ k % 256 * 2 ^ k := by
  apply Nat.eq_of_testBit_eq
  intro i
  have h255 : (255 : Nat) = 2 ^ 8 - 1 := by decide
  have h256 : (256 : Nat) = 2 ^ 8 := by decide
  rw [Nat.testBit_and, Nat.mul_comm 255, Nat.mul_comm _ (2 ^ k), Nat.testBit_mul_pow_two,
    Nat.testBit_mul_pow_two, h255, h256, Nat.testBit_two_pow_sub_one, Nat.testBit_mod_two_pow,
    ← Nat.shiftRight_eq_div_pow, Nat.testBit_shiftRight]
  by_cases hik : k ≤ i
  · have : k + (i - k) = i := by omega
    simp [hik, this, Bool.and_comm]
  · simp [hik]

theorem ORCT_bswap16_eq (x : Nat) (hx : x < 2 ^ 16) :
    ORCT_bswap16 x = x % 256 * 256 + x / 256 := by
  have hlt : x / 256 < 2 ^ 8 := by omega
  unfold ORCT_bswap16 u16
  rw [Nat.mod_eq_of_lt hx, Nat.shiftLeft_eq, Nat.shiftRight_eq_div_pow, Nat.mul_comm x,
    ← Nat.mul_add_lt_is_or (by simpa using hlt)]
  omega

theorem ORCT_bswap32_eq (x : Nat) (hx : x < 2 ^ 32) :
    ORCT_bswap32 x
      = x % 256 * 2 ^ 24 + x / 2 ^ 8 % 256 * 2 ^ 16 + x / 2 ^ 16 % 256 * 2 ^ 8 + x / 2 ^ 24 := by
  have h1 : u32 (u32 x <<< 24) = 2 ^ 24 * (x % 256) := by
    simp only [u32, Nat.shiftLeft_eq]; omega
  have h2 : u32 (u32 x <<< 8) &&& 0x00FF0000 = x / 2 ^ 8 % 256 * 2 ^ 16 := by
    have := and_byte_mask (u32 (u32 x <<< 8)) 16
    norm_num at this ⊢
    rw [this]
    simp only [u32, Nat.shiftLeft_eq]; omega
  have h3 : (u32 x >>> 8) &&& 0x0000FF00 = x / 2 ^ 16 % 256 * 2 ^ 8 := by
    have := and_byte_mask (u32 x >>> 8) 8
    norm_num at this ⊢
    rw [this]
    simp only [u32, Nat.shiftRight_eq_div_pow]; omega
  have h4 : u32 x >>> 24 = x / 2 ^ 24 := by
    simp only [u32, Nat.shiftRight_eq_div_pow]; omega
  unfold ORCT_bswap32
  rw [h1, h2, h3, h4]
  rw [← Nat.mul_add_lt_is_or (by omega)]
  rw [show 2 ^ 24 * (x % 256) + x / 2 ^ 8 % 256 * 2 ^ 16
      = 2 ^ 16 * (2 ^ 8 * (x % 256) + x / 2 ^ 8 % 256) by omega]
  rw [← Nat.mul_add_lt_is_or (by omega)]
  rw [show 2 ^ 16 * (2 ^ 8 * (x % 256) + x / 2 ^ 8 % 256) + x / 2 ^ 16 % 256 * 2 ^ 8
      = 2 ^ 8 * (2 ^ 8 * (2 ^ 8 * (x % 256) + x / 2 ^ 8 % 256) + x / 2 ^ 16 % 256) by omega]
  rw [← Nat.mul_add_lt_is_or (by omega)]
  unfold u32
  omega


theorem or_mul_two_pow_eq_add (a b i : Nat) (h : b < 2 ^ i) : b ||| 2 ^ i * a = 2 ^ i * a + b := by
  rw [Nat.lor_comm, Nat.mul_add_lt_is_or h]

theorem ORCT_bswap64_eq (x : Nat) (hx : x < 2 ^ 64) :
    ORCT_bswap64 x
      = x % 256 * 2 ^ 56 + x / 2 ^ 8 % 256 * 2 ^ 48 + x / 2 ^ 16 % 256 * 2 ^ 40
        + x / 2 ^ 24 % 256 * 2 ^ 32 + x / 2 ^ 32 % 256 * 2 ^ 24 + x / 2 ^ 40 % 256 * 2 ^ 16
        + x / 2 ^ 48 % 256 * 2 ^ 8 + x / 2 ^ 56 := by
  have hu : u64 x = x := Nat.mod_eq_of_lt hx
  have h1 : x >>> 56 = x / 2 ^ 56 := Nat.shiftRight_eq_div_pow _ _
  have h2 : (x &&& 0x00ff000000000000) >>> 40 = 2 ^ 8 * (x / 2 ^ 48 % 256) := by
    have := and_byte_mask x 48
    norm_num at this ⊢
    rw [this, Nat.shiftRight_eq_div_pow]; omega
  have h3 : (x &&& 0x0000ff0000000000) >>> 24 = 2 ^ 16 * (x / 2 ^ 40 % 256) := by
    have := and_byte_mask x 40
    norm_num at this ⊢
    rw [this, Nat.shiftRight_eq_div_pow]; omega
  have h4 : (x &&& 0x000000ff00000000) >>> 8 = 2 ^ 24 * (x / 2 ^ 32 % 256) := by
    have := and_byte_mask x 32
    norm_num at this ⊢
    rw [this, Nat.shiftRight_eq_div_pow]; omega
  have h5 : u64 ((x &&& 0x00000000ff000000) <<< 8) = 2 ^ 32 * (x / 2 ^ 24 % 256) := by
    have := and_byte_mask x 24
    norm_num at this ⊢
    rw [this]; simp only [u64, Nat.shiftLeft_eq]; omega
  have h6 : u64 ((x &&& 0x0000000000ff0000) <<< 24) = 2 ^ 40 * (x / 2 ^ 16 % 256) := by
    have := and_byte_mask x 16
    norm_num at this ⊢
    rw [this]; simp only [u64, Nat.shiftLeft_eq]; omega
  have h7 : u64 ((x &&& 0x000000000000ff00) <<< 40) = 2 ^ 48 * (x / 2 ^ 8 % 256) := by
    have := and_byte_mask x 8
    norm_num at this ⊢
    rw [this]; simp only [u64, Nat.shiftLeft_eq]; omega
  have h8 : u64 (x <<< 56) = 2 ^ 56 * (x % 256) := by
    simp only [u64, Nat.shiftLeft_eq]; omega
  unfold ORCT_bswap64
  rw [hu, h1, h2, h3, h4, h5, h6, h7, h8]
  rw [or_mul_two_pow_eq_add _ _ 8 (by omega), or_mul_two_pow_eq_add _ _ 16 (by omega),
    or_mul_two_pow_eq_add _ _ 24 (by omega), or_mul_two_pow_eq_add _ _ 32 (by omega),
    or_mul_two_pow_eq_add _ _ 40 (by omega), or_mul_two_pow_eq_add _ _ 48 (by omega),
    or_mul_two_pow_eq_add _ _ 56 (by omega)]
  unfold u64
  omega

theorem list_length_two {α : Type} (l : List α) (h : l.length = 2) : ∃ a b, l = [a, b] := by
  match l, h with
  | [a, b], _ => exact ⟨a, b, rfl⟩

theorem list_length_four {α : Type} (l : List α) (h : l.length = 4) :
    ∃ a b c d, l = [a, b, c, d] := by
  match l, h with
  | [a, b, c, d], _ => exact ⟨a, b, c, d, rfl⟩

theorem list_length_eight {α : Type} (l : List α) (h : l.length = 8) :
    ∃ a b c d e f g k, l = [a, b, c, d, e, f, g, k] := by
  match l, h with
  | [a, b, c, d, e, f, g, k], _ => exact ⟨a, b, c, d, e, f, g, k, rfl⟩

/-- The base-256 digits of a number of four bytes. -/
theorem bytes4_digits (a b c d : Nat) (hb : b < 256) (hc : c < 256) (hd : d < 256) :
    (d + 256 * (c + 256 * (b + 256 * a))) % 256 = d
    ∧ (d + 256 * (c + 256 * (b + 256 * a))) / 2 ^ 8 % 256 = c
    ∧ (d + 256 * (c + 256 * (b + 256 * a))) / 2 ^ 16 % 256 = b
    ∧ (d + 256 * (c + 256 * (b + 256 * a))) / 2 ^ 24 = a := by
  refine ⟨by omega, by omega, by omega, by omega⟩

/-- The base-256 digits of a number of eight bytes. -/
theorem bytes8_digits (a b c d e f g k : Nat) (hb : b < 256) (hc : c < 256) (hd : d < 256)
    (he : e < 256) (hf : f < 256) (hg : g < 256) (hk : k < 256) :
    (k + 256 * (g + 256 * (f + 256 * (e + 256 * (d + 256 * (c + 256 * (b + 256 * a))))))) % 256
      = k
    ∧ (k + 256 * (g + 256 * (f + 256 * (e + 256 * (d + 256 * (c + 256 * (b + 256 * a)))))))
        / 2 ^ 8 % 256 = g
    ∧ (k + 256 * (g + 256 * (f + 256 * (e + 256 * (d + 256 * (c + 256 * (b + 256 * a)))))))
        / 2 ^ 16 % 256 = f
    ∧ (k + 256 * (g + 256 * (f + 256 * (e + 256 * (d + 256 * (c + 256 * (b + 256 * a)))))))
        / 2 ^ 24 % 256 = e
    ∧ (k + 256 * (g + 256 * (f + 256 * (e + 256 * (d + 256 * (c + 256 * (b + 256 * a)))))))
        / 2 ^ 32 % 256 = d
    ∧ (k + 256 * (g + 256 * (f + 256 * (e + 256 * (d + 256 * (c + 256 * (b + 256 * a)))))))
        / 2 ^ 40 % 256 = c
    ∧ (k + 256 * (g + 256 * (f + 256 * (e + 256 * (d + 256 * (c + 256 * (b + 256 * a)))))))
        / 2 ^ 48 % 256 = b
    ∧ (k + 256 * (g + 256 * (f + 256 * (e + 256 * (d + 256 * (c + 256 * (b + 256 * a)))))))
        / 2 ^ 56 = a := by
  refine ⟨by omega, by omega, by omega, by omega, by omega, by omega, by omega, by omega⟩

/-- After `ORCT_ensure_value_is_little_endian16`, a 16-bit member read from the stream holds
the little-endian value of its two bytes, on either host. -/
theorem ensure16_loadInt (host : Host) (bytes : List UInt8) (h : bytes.length = 2) :
    ORCT_ensure_value_is_little_endian16 host (loadInt host bytes) = valueLE bytes := by
  obtain ⟨a, b, rfl⟩ := list_length_two bytes h
  have ha := UInt8.toNat_lt a
  have hb := UInt8.toNat_lt b
  unfold ORCT_ensure_value_is_little_endian16 loadInt
  cases host.bigEndian
  · simp
  · simp only [if_true, List.reverse_cons, List.reverse_nil, List.nil_append, List.singleton_append,
      valueLE, Nat.mul_zero, Nat.add_zero]
    rw [ORCT_bswap16_eq _ (by omega)]
    omega

/-- After `ORCT_ensure_value_is_little_endian32`, a 32-bit member read from the stream holds
the little-endian value of its four bytes, on either host. -/
theorem ensure32_loadInt (host : Host) (bytes : List UInt8) (h : bytes.length = 4) :
    ORCT_ensure_value_is_little_endian32 host (loadInt host bytes) = valueLE bytes := by
  obtain ⟨a, b, c, d, rfl⟩ := list_length_four bytes h
  have ha := UInt8.toNat_lt a
  have hb := UInt8.toNat_lt b
  have hc := UInt8.toNat_lt c
  have hd := UInt8.toNat_lt d
  unfold ORCT_ensure_value_is_little_endian32 loadInt
  cases host.bigEndian
  · simp
  · simp only [if_true, List.reverse_cons, List.reverse_nil, List.nil_append, List.singleton_append,
      List.cons_append, valueLE, Nat.mul_zero, Nat.add_zero]
    obtain ⟨r0, r1, r2, r3⟩ := bytes4_digits a.toNat b.toNat c.toNat d.toNat
      (by omega) (by omega) (by omega)
    rw [ORCT_bswap32_eq _ (by omega), r0, r1, r2, r3]
    omega

/-- After `ORCT_ensure_value_is_little_endian64`, a 64-bit member read from the stream holds
the little-endian value of its eight bytes, on either host. -/
theorem ensure64_loadInt (host : Host) (bytes : List UInt8) (h : bytes.length = 8) :
    ORCT_ensure_value_is_little_endian64 host (loadInt host bytes) = valueLE bytes := by
  obtain ⟨a, b, c, d, e, f, g, k, rfl⟩ := list_length_eight bytes h
  have ha := UInt8.toNat_lt a
  have hb := UInt8.toNat_lt b
  have hc := UInt8.toNat_lt c
  have hd := UInt8.toNat_lt d
  have he := UInt8.toNat_lt e
  have hf := UInt8.toNat_lt f
  have hg := UInt8.toNat_lt g
  have hk := UInt8.toNat_lt k
  unfold ORCT_ensure_value_is_little_endian64 loadInt
  cases host.bigEndian
  · simp
  · simp only [if_true, List.reverse_cons, List.reverse_nil, List.nil_append, List.singleton_append,
      List.cons_append, valueLE, Nat.mul_zero, Nat.add_zero]
    obtain ⟨r0, r1, r2, r3, r4, r5, r6, r7⟩ := bytes8_digits a.toNat b.toNat c.toNat d.toNat
      e.toNat f.toNat g.toNat k.toNat (by omega) (by omega) (by omega) (by omega) (by omega)
      (by omega) (by omega)
    rw [ORCT_bswap64_eq _ (by omega), r0, r1, r2, r3, r4, r5, r6, r7]
    omega

/-! ## The header that `ReadIndexFile` compares -/

/-- The function `ReadIndexFile`, told with `ReadIndexFile.ensureLittleEndian` and
`ReadIndexFile.accepts`. -/
theorem ReadIndexFile_eq {TItem : Type} (host : Host) (self : FileIndex)
    (Deserialise : List UInt8 → Option (TItem × List UInt8)) (language : Int)
    (stats : DirectoryStats) (disk : Disk) :
    ReadIndexFile host self Deserialise language stats disk
      = match disk.file with
        | none => (false, [])
        | some content =>
          if disk.readable then
            match FileIndexHeader.read host content with
            | none => (false, [])
            | some (header, fs) =>
              if ReadIndexFile.accepts host self language stats
                  (ReadIndexFile.ensureLittleEndian host header) then
                ReadIndexFile.readItems Deserialise
                  (ReadIndexFile.ensureLittleEndian host header).NumItems fs []
              else (false, [])
          else (false, []) := by
  rfl

theorem readBytes_drop (content : List UInt8) (k w : Nat) (h : k + w ≤ content.length) :
    readBytes w (content.drop k) = some ((content.drop k).take w, content.drop (k + w)) := by
  unfold readBytes
  rw [if_pos (by simp; omega), List.drop_drop, Nat.add_comm]

theorem readInt_drop (host : Host) (content : List UInt8) (k w : Nat)
    (h : k + w ≤ content.length) :
    readInt host w (content.drop k)
      = some (loadInt host ((content.drop k).take w), content.drop (k + w)) := by
  simp [readInt, readBytes_drop content k w h]

/-- The header that `ReadValue` yields for a file that is long enough. -/
theorem FileIndexHeader.read_eq (host : Host) (content : List UInt8)
    (hlen : sizeofFileIndexHeader host ≤ content.length) :
    FileIndexHeader.read host content = some
      ({ HeaderSize := loadInt host ((content.drop 0).take 4)
         MagicNumber := loadInt host ((content.drop 4).take 4)
         VersionA := loadInt host ((content.drop 8).take 1)
         VersionB := loadInt host ((content.drop 9).take 1)
         LanguageId := loadInt host ((content.drop 10).take 2)
         Stats :=
          { TotalFiles := loadInt host ((content.drop (12 + padTo64 host)).take 4)
            TotalFileSize := loadInt host ((content.drop (16 + 2 * padTo64 host)).take 8)
            FileDateModifiedChecksum :=
              loadInt host ((content.drop (24 + 2 * padTo64 host)).take 4)
            PathChecksum := loadInt host ((content.drop (28 + 2 * padTo64 host)).take 4) }
         NumItems := loadInt host ((content.drop (32 + 2 * padTo64 host)).take 4) },
       content.drop (sizeofFileIndexHeader host)) := by
  unfold sizeofFileIndexHeader at hlen ⊢
  unfold FileIndexHeader.read
  generalize padTo64 host = pad at hlen ⊢
  have h0 : content = content.drop 0 := rfl
  conv_lhs => rw [h0]
  simp only [bind, Option.bind]
  rw [readInt_drop host content 0 4 (by omega)]
  simp only
  rw [readInt_drop host content (0 + 4) 4 (by omega)]
  simp only
  rw [readInt_drop host content (0 + 4 + 4) 1 (by omega)]
  simp only
  rw [readInt_drop host content (0 + 4 + 4 + 1) 1 (by omega)]
  simp only
  rw [readInt_drop host content (0 + 4 + 4 + 1 + 1) 2 (by omega)]
  simp only
  rw [readBytes_drop content (0 + 4 + 4 + 1 + 1 + 2) pad (by omega)]
  simp only
  rw [readInt_drop host content (0 + 4 + 4 + 1 + 1 + 2 + pad) 4 (by omega)]
  simp only
  rw [readBytes_drop content (0 + 4 + 4 + 1 + 1 + 2 + pad + 4) pad (by omega)]
  simp only
  rw [readInt_drop host content (0 + 4 + 4 + 1 + 1 + 2 + pad + 4 + pad) 8 (by omega)]
  simp only
  rw [readInt_drop host content (0 + 4 + 4 + 1 + 1 + 2 + pad + 4 + pad + 8) 4 (by omega)]
  simp only
  rw [readInt_drop host content (0 + 4 + 4 + 1 + 1 + 2 + pad + 4 + pad + 8 + 4) 4 (by omega)]
  simp only
  rw [readInt_drop host content (0 + 4 + 4 + 1 + 1 + 2 + pad + 4 + pad + 8 + 4 + 4) 4 (by omega)]
  simp only
  rw [readBytes_drop content (0 + 4 + 4 + 1 + 1 + 2 + pad + 4 + pad + 8 + 4 + 4 + 4) pad
    (by omega)]
  simp only [pure]
  have e1 : 0 + 4 + 4 + 1 + 1 + 2 + pad = 12 + pad := by omega
  have e2 : 0 + 4 + 4 + 1 + 1 + 2 + pad + 4 + pad = 16 + 2 * pad := by omega
  have e3 : 0 + 4 + 4 + 1 + 1 + 2 + pad + 4 + pad + 8 = 24 + 2 * pad := by omega
  have e4 : 0 + 4 + 4 + 1 + 1 + 2 + pad + 4 + pad + 8 + 4 = 28 + 2 * pad := by omega
  have e5 : 0 + 4 + 4 + 1 + 1 + 2 + pad + 4 + pad + 8 + 4 + 4 = 32 + 2 * pad := by omega
  have e6 : 0 + 4 + 4 + 1 + 1 + 2 + pad + 4 + pad + 8 + 4 + 4 + 4 + pad = 36 + 3 * pad := by
    omega
  rw [e6, e5, e4, e3, e2, e1]

theorem loadInt_single (host : Host) (bytes : List UInt8) (h : bytes.length = 1) :
    loadInt host bytes = valueLE bytes := by
  match bytes, h with
  | [a], _ => unfold loadInt; split <;> rfl

theorem length_drop_take (content : List UInt8) (k w : Nat) (h : k + w ≤ content.length) :
    ((content.drop k).take w).length = w := by
  simp; omega

/-- C16: on every host byte order, for every cache file that is long enough to hold a header,
the header that `ReadIndexFile` compares with the expected values (and whose `NumItems` it
takes as the number of items) holds, in each multi-byte member, the little-endian value of the
bytes of that member in the file: `HeaderSize` at offset 0, `MagicNumber` at 4, `LanguageId`
at 10, and, `pad` being the 0 or 4 bytes that align a `uint64_t`, `TotalFiles` at 12 + pad,
`TotalFileSize` at 16 + 2 pad, the checksums at 24 + 2 pad and 28 + 2 pad, `NumItems` at
32 + 2 pad. -/
theorem ReadIndexFile_compares_little_endian {TItem : Type} (host : Host) (self : FileIndex)
    (Deserialise : List UInt8 → Option (TItem × List UInt8)) (language : Int)
    (stats : DirectoryStats) (disk : Disk) (content : List UInt8)
    (hfile : disk.file = some content) (hread : disk.readable = true)
    (hlen : sizeofFileIndexHeader host ≤ content.length) :
    ∃ raw fs, FileIndexHeader.read host content = some (raw, fs)
      ∧ (ReadIndexFile.ensureLittleEndian host raw).HeaderSize = fieldLE content 0 4
      ∧ (ReadIndexFile.ensureLittleEndian host raw).MagicNumber = fieldLE content 4 4
      ∧ (ReadIndexFile.ensureLittleEndian host raw).VersionA = fieldLE content 8 1
      ∧ (ReadIndexFile.ensureLittleEndian host raw).VersionB = fieldLE content 9 1
      ∧ (ReadIndexFile.ensureLittleEndian host raw).LanguageId = fieldLE content 10 2
      ∧ (ReadIndexFile.ensureLittleEndian host raw).Stats.TotalFiles
          = fieldLE content (12 + padTo64 host) 4
      ∧ (ReadIndexFile.ensureLittleEndian host raw).Stats.TotalFileSize
          = fieldLE content (16 + 2 * padTo64 host) 8
      ∧ (ReadIndexFile.ensureLittleEndian host raw).Stats.FileDateModifiedChecksum
          = fieldLE content (24 + 2 * padTo64 host) 4
      ∧ (ReadIndexFile.ensureLittleEndian host raw).Stats.PathChecksum
          = fieldLE content (28 + 2 * padTo64 host) 4
      ∧ (ReadIndexFile.ensureLittleEndian host raw).NumItems
          = fieldLE content (32 + 2 * padTo64 host) 4
      ∧ ReadIndexFile host self Deserialise language stats disk
          = if ReadIndexFile.accepts host self language stats
                (ReadIndexFile.ensureLittleEndian host raw) then
              ReadIndexFile.readItems Deserialise
                (ReadIndexFile.ensureLittleEndian host raw).NumItems fs []
            else (false, []) := by
  have hsize : 36 + 3 * padTo64 host ≤ content.length := hlen
  refine ⟨_, _, FileIndexHeader.read_eq host content hlen, ?_, ?_, ?_, ?_, ?_, ?_, ?_, ?_, ?_, ?_,
    ?_⟩
  · exact ensure32_loadInt host _ (length_drop_take content _ _ (by omega))
  · exact ensure32_loadInt host _ (length_drop_take content _ _ (by omega))
  · exact loadInt_single host _ (length_drop_take content _ _ (by omega))
  · exact loadInt_single host _ (length_drop_take content _ _ (by omega))
  · exact ensure16_loadInt host _ (length_drop_take content _ _ (by omega))
  · exact ensure32_loadInt host _ (length_drop_take content _ _ (by omega))
  · exact ensure64_loadInt host _ (length_drop_take content _ _ (by omega))
  · exact ensure32_loadInt host _ (length_drop_take content _ _ (by omega))
  · exact ensure32_loadInt host _ (length_drop_take content _ _ (by omega))
  · exact ensure32_loadInt host _ (length_drop_take content _ _ (by omega))
  · rw [ReadIndexFile_eq, hfile]
    simp only [hread, if_true, FileIndexHeader.read_eq host content hlen]

/-- A file of 36 bytes written in little-endian order, read on a big-endian host whose
`uint64_t` is aligned to 4 bytes: the header size compared is 36. -/
theorem ReadIndexFile_compares_little_endian_witness :
    ∃ raw fs, FileIndexHeader.read ⟨true, true, false, 0⟩
        (FileIndexHeader.toBytes ⟨false, true, false, 0⟩ { HeaderSize := 36, MagicNumber := 7 })
        = some (raw, fs)
      ∧ (ReadIndexFile.ensureLittleEndian ⟨true, true, false, 0⟩ raw).HeaderSize = 36
      ∧ (ReadIndexFile.ensureLittleEndian ⟨true, true, false, 0⟩ raw).MagicNumber = 7 := by
  obtain ⟨raw, fs, h, h1, h2, -⟩ := ReadIndexFile_compares_little_endian ⟨true, true, false, 0⟩
    { _magicNumber := 7, _version := 0, SearchPaths := [] } byteDeserialise 0 {}
    ⟨some (FileIndexHeader.toBytes ⟨false, true, false, 0⟩ { HeaderSize := 36, MagicNumber := 7 }),
      true, true, 0⟩
    (FileIndexHeader.toBytes ⟨false, true, false, 0⟩ { HeaderSize := 36, MagicNumber := 7 })
    rfl rfl (by decide)
  exact ⟨raw, fs, h, h1.trans (by decide), h2.trans (by decide)⟩

/-! ## The layout of the header that `WriteIndexFile` writes -/

theorem liesAt_of_eq (bytes pre field post : List UInt8) (offset : Nat)
    (h : bytes = pre ++ field ++ post) (hl : pre.length = offset) : liesAt bytes offset field := by
  subst h hl
  simp [liesAt]

theorem FileIndexHeader.toBytes_length (host : Host) (header : FileIndexHeader) :
    (header.toBytes host).length = sizeofFileIndexHeader host := by
  simp only [FileIndexHeader.toBytes, List.length_append, storeInt_length, List.length_replicate,
    sizeofFileIndexHeader]
  omega

/-- C14, as stated, fails where `uint64_t` is aligned to 8 bytes: the header that
`WriteIndexFile` writes then occupies 48 bytes, its `HeaderSize` holds 48, the four bytes at
offset 12 are padding and not `TotalFiles`, and the first item record starts at offset 48. -/
theorem header_is_48_bytes_with_aligned_uint64 :
    ((WriteIndexFile.header ⟨false, true, true, 0⟩
        { _magicNumber := 1, _version := 1, SearchPaths := [] } 5 { TotalFiles := 3 }
        ([7, 8] : List UInt8)).toBytes ⟨false, true, true, 0⟩).length = 48
    ∧ (WriteIndexFile.header ⟨false, true, true, 0⟩
        { _magicNumber := 1, _version := 1, SearchPaths := [] } 5 { TotalFiles := 3 }
        ([7, 8] : List UInt8)).HeaderSize = 48
    ∧ ¬ liesAt ((WriteIndexFile.header ⟨false, true, true, 0⟩
          { _magicNumber := 1, _version := 1, SearchPaths := [] } 5 { TotalFiles := 3 }
          ([7, 8] : List UInt8)).toBytes ⟨false, true, true, 0⟩) 12
        (storeInt ⟨false, true, true, 0⟩ 4 3)
    ∧ (((WriteIndexFile ⟨false, true, true, 0⟩
          { _magicNumber := 1, _version := 1, SearchPaths := [] } byteSerialise 5
          { TotalFiles := 3 } [7, 8] ⟨none, true, true, 100⟩).1.file.getD []).drop 36).take 2
        ≠ [7, 8]
    ∧ (((WriteIndexFile ⟨false, true, true, 0⟩
          { _magicNumber := 1, _version := 1, SearchPaths := [] } byteSerialise 5
          { TotalFiles := 3 } [7, 8] ⟨none, true, true, 100⟩).1.file.getD []).drop 48)
        = [7, 8] := by
  decide

/-- C14, amended: with `pad` the number of bytes that align a `uint64_t` member (0 where it is
aligned to 4 bytes, 4 where it is aligned to 8), the header that `WriteIndexFile` writes
occupies 36 + 3 pad bytes, with `HeaderSize` at offset 0 holding 36 + 3 pad, `MagicNumber` at
4, `VersionA` at 8, `VersionB` at 9, `LanguageId` at 10, `TotalFiles` at 12 + pad,
`TotalFileSize` at 16 + 2 pad, `FileDateModifiedChecksum` at 24 + 2 pad, `PathChecksum` at
28 + 2 pad and `NumItems` at 32 + 2 pad, each in host byte order, and the first item record
starts at offset 36 + 3 pad. With `uint64_t` aligned to 4 bytes these are 36 bytes and the
offsets 0, 4, 8, 9, 10, 12, 16, 24, 28, 32 and 36. -/
theorem WriteIndexFile_header_layout {TItem : Type} (host : Host) (self : FileIndex)
    (language : Int) (stats : DirectoryStats) (items : List TItem) :
    padTo64 host = (if host.align64 then 4 else 0)
    ∧ ((WriteIndexFile.header host self language stats items).toBytes host).length
        = 36 + 3 * padTo64 host
    ∧ (WriteIndexFile.header host self language stats items).HeaderSize = 36 + 3 * padTo64 host
    ∧ liesAt ((WriteIndexFile.header host self language stats items).toBytes host) 0
        (storeInt host 4 (36 + 3 * padTo64 host))
    ∧ liesAt ((WriteIndexFile.header host self language stats items).toBytes host) 4
        (storeInt host 4 self._magicNumber)
    ∧ liesAt ((WriteIndexFile.header host self language stats items).toBytes host) 8
        (storeInt host 1 self.FILE_INDEX_VERSION)
    ∧ liesAt ((WriteIndexFile.header host self language stats items).toBytes host) 9
        (storeInt host 1 self._version)
    ∧ liesAt ((WriteIndexFile.header host self language stats items).toBytes host) 10
        (storeInt host 2 (u16OfInt language))
    ∧ liesAt ((WriteIndexFile.header host self language stats items).toBytes host)
        (12 + padTo64 host) (storeInt host 4 stats.TotalFiles)
    ∧ liesAt ((WriteIndexFile.header host self language stats items).toBytes host)
        (16 + 2 * padTo64 host) (storeInt host 8 stats.TotalFileSize)
    ∧ liesAt ((WriteIndexFile.header host self language stats items).toBytes host)
        (24 + 2 * padTo64 host) (storeInt host 4 stats.FileDateModifiedChecksum)
    ∧ liesAt ((WriteIndexFile.header host self language stats items).toBytes host)
        (28 + 2 * padTo64 host) (storeInt host 4 stats.PathChecksum)
    ∧ liesAt ((WriteIndexFile.header host self language stats items).toBytes host)
        (32 + 2 * padTo64 host) (storeInt host 4 (u32 items.length))
    ∧ ∀ (Serialise : TItem → List UInt8) (disk : Disk),
        (WriteIndexFile host self Serialise language stats items disk).2 = true →
        (WriteIndexFile host self Serialise language stats items disk).1.file
          = some ((WriteIndexFile.header host self language stats items).toBytes host
              ++ items.flatMap Serialise) := by
  refine ⟨rfl, FileIndexHeader.toBytes_length host _, rfl, ?_, ?_, ?_, ?_, ?_, ?_, ?_, ?_, ?_, ?_,
    ?_⟩
  · exact liesAt_of_eq _ [] _ _ 0
      (by simp only [FileIndexHeader.toBytes, WriteIndexFile.header, sizeofFileIndexHeader,
        List.append_assoc, List.nil_append]; rfl) rfl
  · exact liesAt_of_eq _ (storeInt host 4 (sizeofFileIndexHeader host)) _ _ 4
      (by simp only [FileIndexHeader.toBytes, WriteIndexFile.header, List.append_assoc]; rfl)
      (by simp only [List.length_append, storeInt_length, List.length_replicate])
  · exact liesAt_of_eq _ (storeInt host 4 (sizeofFileIndexHeader host)
        ++ storeInt host 4 self._magicNumber) _ _ 8
      (by simp only [FileIndexHeader.toBytes, WriteIndexFile.header, List.append_assoc]; rfl)
      (by simp only [List.length_append, storeInt_length, List.length_replicate])
  · exact liesAt_of_eq _ (storeInt host 4 (sizeofFileIndexHeader host)
        ++ storeInt host 4 self._magicNumber ++ storeInt host 1 self.FILE_INDEX_VERSION) _ _ 9
      (by simp only [FileIndexHeader.toBytes, WriteIndexFile.header, List.append_assoc]; rfl)
      (by simp only [List.length_append, storeInt_length, List.length_replicate])
  · exact liesAt_of_eq _ (storeInt host 4 (sizeofFileIndexHeader host)
        ++ storeInt host 4 self._magicNumber ++ storeInt host 1 self.FILE_INDEX_VERSION
        ++ storeInt host 1 self._version) _ _ 10
      (by simp only [FileIndexHeader.toBytes, WriteIndexFile.header, List.append_assoc]; rfl)
      (by simp only [List.length_append, storeInt_length, List.length_replicate])
  · exact liesAt_of_eq _ (storeInt host 4 (sizeofFileIndexHeader host)
        ++ storeInt host 4 self._magicNumber ++ storeInt host 1 self.FILE_INDEX_VERSION
        ++ storeInt host 1 self._version ++ storeInt host 2 (u16OfInt language)
        ++ List.replicate (padTo64 host) host.padding) _ _ _
      (by simp only [FileIndexHeader.toBytes, WriteIndexFile.header, List.append_assoc]; rfl)
      (by simp only [List.length_append, storeInt_length, List.length_replicate])
  · exact liesAt_of_eq _ (storeInt host 4 (sizeofFileIndexHeader host)
        ++ storeInt host 4 self._magicNumber ++ storeInt host 1 self.FILE_INDEX_VERSION
        ++ storeInt host 1 self._version ++ storeInt host 2 (u16OfInt language)
        ++ List.replicate (padTo64 host) host.padding ++ storeInt host 4 stats.TotalFiles
        ++ List.replicate (padTo64 host) host.padding) _ _ _
      (by simp only [FileIndexHeader.toBytes, WriteIndexFile.header, List.append_assoc]; rfl)
      (by simp only [List.length_append, storeInt_length, List.length_replicate]; omega)
  · exact liesAt_of_eq _ (storeInt host 4 (sizeofFileIndexHeader host)
        ++ storeInt host 4 self._magicNumber ++ storeInt host 1 self.FILE_INDEX_VERSION
        ++ storeInt host 1 self._version ++ storeInt host 2 (u16OfInt language)
        ++ List.replicate (padTo64 host) host.padding ++ storeInt host 4 stats.TotalFiles
        ++ List.replicate (padTo64 host) host.padding ++ storeInt host 8 stats.TotalFileSize) _ _ _
      (by simp only [FileIndexHeader.toBytes, WriteIndexFile.header, List.append_assoc]; rfl)
      (by simp only [List.length_append, storeInt_length, List.length_replicate]; omega)
  · exact liesAt_of_eq _ (storeInt host 4 (sizeofFileIndexHeader host)
        ++ storeInt host 4 self._magicNumber ++ storeInt host 1 self.FILE_INDEX_VERSION
        ++ storeInt host 1 self._version ++ storeInt host 2 (u16OfInt language)
        ++ List.replicate (padTo64 host) host.padding ++ storeInt host 4 stats.TotalFiles
        ++ List.replicate (padTo64 host) host.padding ++ storeInt host 8 stats.TotalFileSize
        ++ storeInt host 4 stats.FileDateModifiedChecksum) _ _ _
      (by simp only [FileIndexHeader.toBytes, WriteIndexFile.header, List.append_assoc]; rfl)
      (by simp only [List.length_append, storeInt_length, List.length_replicate]; omega)
  · exact liesAt_of_eq _ (storeInt host 4 (sizeofFileIndexHeader host)
        ++ storeInt host 4 self._magicNumber ++ storeInt host 1 self.FILE_INDEX_VERSION
        ++ storeInt host 1 self._version ++ storeInt host 2 (u16OfInt language)
        ++ List.replicate (padTo64 host) host.padding ++ storeInt host 4 stats.TotalFiles
        ++ List.replicate (padTo64 host) host.padding ++ storeInt host 8 stats.TotalFileSize
        ++ storeInt host 4 stats.FileDateModifiedChecksum
        ++ storeInt host 4 stats.PathChecksum) _ (List.replicate (padTo64 host) host.padding) _
      (by simp only [FileIndexHeader.toBytes, WriteIndexFile.header, List.append_assoc])
      (by simp only [List.length_append, storeInt_length, List.length_replicate]; omega)
  · intro Serialise disk hok
    have hw := WriteIndexFile_writable host self Serialise language stats items disk hok
    obtain ⟨-, hfile⟩ := WriteIndexFile_file host self Serialise language stats items disk hw
    rcases hfile with ⟨-, hfalse⟩ | ⟨suffix, hfile, hsuffix⟩
    · rw [hok] at hfalse
      cases hfalse
    · rw [hfile, hsuffix hok]

/-- The header of a host whose `uint64_t` is aligned to 4 bytes: 36 bytes, `TotalFiles` at
offset 12, the first item at offset 36. -/
theorem WriteIndexFile_header_layout_witness :
    ((WriteIndexFile.header ⟨false, true, false, 0⟩
        { _magicNumber := 1, _version := 1, SearchPaths := [] } 5 { TotalFiles := 3 }
        ([7, 8] : List UInt8)).toBytes ⟨false, true, false, 0⟩).length = 36
    ∧ liesAt ((WriteIndexFile.header ⟨false, true, false, 0⟩
          { _magicNumber := 1, _version := 1, SearchPaths := [] } 5 { TotalFiles := 3 }
          ([7, 8] : List UInt8)).toBytes ⟨false, true, false, 0⟩) 12
        (storeInt ⟨false, true, false, 0⟩ 4 3)
    ∧ (WriteIndexFile ⟨false, true, false, 0⟩
          { _magicNumber := 1, _version := 1, SearchPaths := [] } byteSerialise 5
          { TotalFiles := 3 } [7, 8] ⟨none, true, true, 100⟩).1.file
        = some ((WriteIndexFile.header ⟨false, true, false, 0⟩
          { _magicNumber := 1, _version := 1, SearchPaths := [] } 5 { TotalFiles := 3 }
          ([7, 8] : List UInt8)).toBytes ⟨false, true, false, 0⟩ ++ [7, 8]) :=
  ⟨(WriteIndexFile_header_layout ⟨false, true, false, 0⟩
      { _magicNumber := 1, _version := 1, SearchPaths := [] } 5 { TotalFiles := 3 }
      ([7, 8] : List UInt8)).2.1,
   (WriteIndexFile_header_layout ⟨false, true, false, 0⟩
      { _magicNumber := 1, _version := 1, SearchPaths := [] } 5 { TotalFiles := 3 }
      ([7, 8] : List UInt8)).2.2.2.2.2.2.2.2.1,
   (WriteIndexFile_header_layout ⟨false, true, false, 0⟩
      { _magicNumber := 1, _version := 1, SearchPaths := [] } 5 { TotalFiles := 3 }
      ([7, 8] : List UInt8)).2.2.2.2.2.2.2.2.2.2.2.2.2 byteSerialise ⟨none, true, true, 100⟩
      (by decide)⟩

/-- C15 fails on the code: on a big-endian host `WriteIndexFile` emits the header members in
big-endian order (the header size 36 as 00 00 00 24, not 24 00 00 00), the file it has just
written without failure is reported as a miss by `ReadIndexFile` on the same host and on a
little-endian host, whereas the file of a little-endian host is accepted on the big-endian
host: the read path converts, the write path does not. -/
theorem WriteIndexFile_big_endian_host_writes_big_endian :
    (WriteIndexFile ⟨true, true, false, 0⟩ { _magicNumber := 1, _version := 1, SearchPaths := [] }
        byteSerialise 5 {} [7, 8] ⟨none, true, true, 100⟩).2 = true
    ∧ ((WriteIndexFile ⟨true, true, false, 0⟩
          { _magicNumber := 1, _version := 1, SearchPaths := [] }
          byteSerialise 5 {} [7, 8] ⟨none, true, true, 100⟩).1.file.getD []).take 4
        = [0, 0, 0, 36]
    ∧ bytesLE 4 36 = [36, 0, 0, 0]
    ∧ ReadIndexFile ⟨true, true, false, 0⟩ { _magicNumber := 1, _version := 1, SearchPaths := [] }
        byteDeserialise 5 {}
        (WriteIndexFile ⟨true, true, false, 0⟩
          { _magicNumber := 1, _version := 1, SearchPaths := [] }
          byteSerialise 5 {} [7, 8] ⟨none, true, true, 100⟩).1 = (false, [])
    ∧ ReadIndexFile ⟨false, true, false, 0⟩ { _magicNumber := 1, _version := 1, SearchPaths := [] }
        byteDeserialise 5 {}
        (WriteIndexFile ⟨true, true, false, 0⟩
          { _magicNumber := 1, _version := 1, SearchPaths := [] }
          byteSerialise 5 {} [7, 8] ⟨none, true, true, 100⟩).1 = (false, [])
    ∧ ReadIndexFile ⟨true, true, false, 0⟩ { _magicNumber := 1, _version := 1, SearchPaths := [] }
        byteDeserialise 5 {}
        (WriteIndexFile ⟨false, true, false, 0⟩
          { _magicNumber := 1, _version := 1, SearchPaths := [] }
          byteSerialise 5 {} [7, 8] ⟨none, true, true, 100⟩).1 = (true, [7, 8]) := by
  decide

/-! ## The item records -/

section
variable {TItem : Type}

theorem ReadIndexFile.readItems_of_deserialiseAll
    (Deserialise : List UInt8 → Option (TItem × List UInt8)) :
    ∀ (n : Nat) (stream : List UInt8) (acc items : List TItem) (rest : List UInt8),
      deserialiseAll Deserialise n stream = some (items, rest) →
      ReadIndexFile.readItems Deserialise n stream acc = (true, acc ++ items)
        ∧ items.length = n := by
  intro n
  induction n with
  | zero =>
    intro stream acc items rest h
    simp only [deserialiseAll, Option.some.injEq, Prod.mk.injEq] at h
    obtain ⟨rfl, -⟩ := h
    simp [ReadIndexFile.readItems]
  | succ n ih =>
    intro stream acc items rest h
    unfold deserialiseAll at h
    cases hd : Deserialise stream with
    | none => simp [hd] at h
    | some r =>
      obtain ⟨item, stream'⟩ := r
      simp only [hd, Option.map_eq_some'] at h
      obtain ⟨⟨items', rest'⟩, hall, heq⟩ := h
      simp only [Prod.mk.injEq] at heq
      obtain ⟨rfl, rfl⟩ := heq
      obtain ⟨hr, hl⟩ := ih stream' (acc ++ [item]) items' rest' hall
      simp [ReadIndexFile.readItems, hd, hr, hl]

theorem ReadIndexFile.readItems_of_deserialiseAll_none
    (Deserialise : List UInt8 → Option (TItem × List UInt8)) :
    ∀ (n : Nat) (stream : List UInt8) (acc : List TItem),
      deserialiseAll Deserialise n stream = none →
      (ReadIndexFile.readItems Deserialise n stream acc).1 = false := by
  intro n
  induction n with
  | zero => intro stream acc h; simp [deserialiseAll] at h
  | succ n ih =>
    intro stream acc h
    unfold deserialiseAll at h
    cases hd : Deserialise stream with
    | none => simp [ReadIndexFile.readItems, hd]
    | some r =>
      obtain ⟨item, stream'⟩ := r
      simp only [hd, Option.map_eq_none'] at h
      simp only [ReadIndexFile.readItems, hd]
      exact ih stream' _ h

theorem deserialiseAll_records (Serialise : TItem → List UInt8)
    (Deserialise : List UInt8 → Option (TItem × List UInt8))
    (hinv : ∀ item stream, Deserialise (Serialise item ++ stream) = some (item, stream)) :
    ∀ (records : List TItem) (tail : List UInt8),
      deserialiseAll Deserialise records.length (records.flatMap Serialise ++ tail)
        = some (records, tail) := by
  intro records
  induction records with
  | nil => intro tail; simp [deserialiseAll]
  | cons item records ih =>
    intro tail
    simp [deserialiseAll, List.flatMap_cons, hinv, ih]

end

/-- C17: for every cache file whose header, as `ReadIndexFile` compares it, matches all the
expected values and on whose records `NumItems` successive calls of `Deserialise` succeed,
`ReadIndexFile` reports success and returns the list of the items of those calls, in their
order, of length exactly `NumItems`; and the calls on the records of a builder whose
`Deserialise` reads back what `Serialise` wrote leave every byte after the last record in the
stream. -/
theorem ReadIndexFile_deserialises_NumItems {TItem : Type} (host : Host) (self : FileIndex)
    (Deserialise : List UInt8 → Option (TItem × List UInt8)) (language : Int)
    (stats : DirectoryStats) (disk : Disk) (content fs rest : List UInt8)
    (raw : FileIndexHeader) (items : List TItem)
    (hfile : disk.file = some content) (hread : disk.readable = true)
    (hheader : FileIndexHeader.read host content = some (raw, fs))
    (haccepts : ReadIndexFile.accepts host self language stats
      (ReadIndexFile.ensureLittleEndian host raw))
    (hall : deserialiseAll Deserialise (ReadIndexFile.ensureLittleEndian host raw).NumItems fs
      = some (items, rest)) :
    ReadIndexFile host self Deserialise language stats disk = (true, items)
    ∧ items.length = (ReadIndexFile.ensureLittleEndian host raw).NumItems
    ∧ ∀ (Serialise : TItem → List UInt8),
        (∀ item stream, Deserialise (Serialise item ++ stream) = some (item, stream)) →
        ∀ (records : List TItem) (tail : List UInt8),
          deserialiseAll Deserialise records.length (records.flatMap Serialise ++ tail)
            = some (records, tail) := by
  obtain ⟨hr, hl⟩ := ReadIndexFile.readItems_of_deserialiseAll Deserialise _ fs [] items rest hall
  refine ⟨?_, hl, fun Serialise hinv => deserialiseAll_records Serialise Deserialise hinv⟩
  rw [ReadIndexFile_eq, hfile]
  simp only [hread, if_true, hheader, haccepts, hr, List.nil_append]

/-- A file of two records followed by a further byte: the two items are returned. -/
theorem ReadIndexFile_deserialises_NumItems_witness :
    ReadIndexFile ⟨false, true, false, 0⟩ { _magicNumber := 1, _version := 1, SearchPaths := [] }
      byteDeserialise 5 {}
      ⟨some (FileIndexHeader.toBytes ⟨false, true, false, 0⟩
          { HeaderSize := 36, MagicNumber := 1, VersionA := 4, VersionB := 1, LanguageId := 5,
            NumItems := 2 } ++ [7, 8, 9]), true, true, 0⟩ = (true, [7, 8]) :=
  (ReadIndexFile_deserialises_NumItems ⟨false, true, false, 0⟩
    { _magicNumber := 1, _version := 1, SearchPaths := [] } byteDeserialise 5 {}
    ⟨some (FileIndexHeader.toBytes ⟨false, true, false, 0⟩
        { HeaderSize := 36, MagicNumber := 1, VersionA := 4, VersionB := 1, LanguageId := 5,
          NumItems := 2 } ++ [7, 8, 9]), true, true, 0⟩
    (FileIndexHeader.toBytes ⟨false, true, false, 0⟩
        { HeaderSize := 36, MagicNumber := 1, VersionA := 4, VersionB := 1, LanguageId := 5,
          NumItems := 2 } ++ [7, 8, 9])
    [7, 8, 9] [9]
    { HeaderSize := 36, MagicNumber := 1, VersionA := 4, VersionB := 1, LanguageId := 5,
      NumItems := 2 }
    [7, 8] rfl rfl (by decide) (by decide) (by decide)).1

section
variable {TItem : Type}

/-- The loop that writes the items appends the records of the items in their order, up to the
first write that fails. -/
theorem WriteIndexFile.writeItems_prefix (Serialise : TItem → List UInt8) :
    ∀ (items : List TItem) (disk : Disk) (content : List UInt8), disk.file = some content →
      ∃ k, k ≤ items.length
        ∧ (WriteIndexFile.writeItems Serialise items disk).1.file
            = some (content ++ (items.take k).flatMap Serialise)
        ∧ ((WriteIndexFile.writeItems Serialise items disk).2 = true → k = items.length) := by
  intro items
  induction items with
  | nil =>
    intro disk content h
    exact ⟨0, Nat.le_refl _, by simp [WriteIndexFile.writeItems, h], fun _ => rfl⟩
  | cons item items ih =>
    intro disk content h
    by_cases hfit : (Serialise item).length ≤ disk.space
    · obtain ⟨k, hk, hfile, hok⟩ := ih
        { disk with file := some (content ++ Serialise item),
                    space := disk.space - (Serialise item).length }
        (content ++ Serialise item) rfl
      refine ⟨k + 1, by simpa using hk, ?_, ?_⟩
      · simpa [WriteIndexFile.writeItems, Disk.Write, hfit, h, List.flatMap_cons] using hfile
      · intro hsucc
        have := hok (by simpa [WriteIndexFile.writeItems, Disk.Write, hfit, h] using hsucc)
        simp [this]
    · exact ⟨0, Nat.zero_le _, by simp [WriteIndexFile.writeItems, Disk.Write, hfit, h],
        by simp [WriteIndexFile.writeItems, Disk.Write, hfit]⟩

end

theorem NumItems_wraps {TItem : Type} (host : Host) (self : FileIndex) (language : Int)
    (stats : DirectoryStats) (items : List TItem) (h : items.length = 2 ^ 32) :
    (WriteIndexFile.header host self language stats items).NumItems = 0 := by
  simp only [WriteIndexFile.header, h, u32, Nat.mod_self]

/-- C18, as stated, fails: for a list of 2^32 items the header that `WriteIndexFile` fills in
holds `NumItems = 0`. -/
theorem NumItems_of_a_list_of_4294967296_items :
    (List.replicate (2 ^ 32) ()).length = 2 ^ 32
    ∧ (WriteIndexFile.header ⟨false, true, true, 0⟩
        { _magicNumber := 1, _version := 1, SearchPaths := [] } 5 {}
        (List.replicate (2 ^ 32) ())).NumItems = 0 :=
  ⟨List.length_replicate _ _, NumItems_wraps _ _ _ _ _ (List.length_replicate _ _)⟩

/-- C18, amended: for every item list, the `NumItems` member of the header that
`WriteIndexFile` fills in is the number of items modulo 2^32 (`static_cast<uint32_t>`), hence
the length of the list for every list of fewer than 2^32 items; once it has opened the file,
`WriteIndexFile` writes the header first (the file is left empty if that write fails) and then
the records that `Serialise` writes for the items, one record for each item in the order of the
list, up to the first write that fails; when no write fails the file holds the header followed
by the records of all the items. -/
theorem WriteIndexFile_writes_header_then_items {TItem : Type} (host : Host) (self : FileIndex)
    (Serialise : TItem → List UInt8) (language : Int) (stats : DirectoryStats)
    (items : List TItem) (disk : Disk) :
    (WriteIndexFile.header host self language stats items).NumItems = items.length % 2 ^ 32
    ∧ (items.length < 2 ^ 32 →
        (WriteIndexFile.header host self language stats items).NumItems = items.length)
    ∧ (disk.writable = true →
        ((WriteIndexFile host self Serialise language stats items disk).1.file = some []
          ∧ (WriteIndexFile host self Serialise language stats items disk).2 = false)
        ∨ ∃ k, k ≤ items.length
          ∧ (WriteIndexFile host self Serialise language stats items disk).1.file
            = some ((WriteIndexFile.header host self language stats items).toBytes host
                ++ (items.take k).flatMap Serialise))
    ∧ ((WriteIndexFile host self Serialise language stats items disk).2 = true →
        (WriteIndexFile host self Serialise language stats items disk).1.file
          = some ((WriteIndexFile.header host self language stats items).toBytes host
              ++ items.flatMap Serialise)) := by
  refine ⟨rfl, fun h => Nat.mod_eq_of_lt h, ?_, ?_⟩
  · intro hw
    unfold WriteIndexFile
    rw [if_pos hw]
    by_cases hfit : ((WriteIndexFile.header host self language stats items).toBytes host).length
        ≤ disk.space
    · obtain ⟨k, hk, hfile, -⟩ := WriteIndexFile.writeItems_prefix Serialise items
        { disk with
            file := some ((WriteIndexFile.header host self language stats items).toBytes host),
            space := disk.space
              - ((WriteIndexFile.header host self language stats items).toBytes host).length }
        _ rfl
      simp only [Disk.Write, hfit, if_true, Option.getD_some, List.nil_append]
      exact Or.inr ⟨k, hk, hfile⟩
    · simp [Disk.Write, hfit]
  · intro hok
    have hw := WriteIndexFile_writable host self Serialise language stats items disk hok
    obtain ⟨-, hfile⟩ := WriteIndexFile_file host self Serialise language stats items disk hw
    rcases hfile with ⟨-, hfalse⟩ | ⟨suffix, hfile, hsuffix⟩
    · rw [hok] at hfalse
      cases hfalse
    · rw [hfile, hsuffix hok]

/-- Two items written to an empty disk: the file holds the header, then the record of the
first item, then the record of the second. -/
theorem WriteIndexFile_writes_header_then_items_witness :
    (WriteIndexFile.header ⟨false, true, false, 0⟩
        { _magicNumber := 1, _version := 1, SearchPaths := [] } 5 {}
        ([7, 8] : List UInt8)).NumItems = 2
    ∧ (WriteIndexFile ⟨false, true, false, 0⟩
          { _magicNumber := 1, _version := 1, SearchPaths := [] } byteSerialise 5 {} [7, 8]
          ⟨none, true, true, 100⟩).1.file
        = some ((WriteIndexFile.header ⟨false, true, false, 0⟩
            { _magicNumber := 1, _version := 1, SearchPaths := [] } 5 {}
            ([7, 8] : List UInt8)).toBytes ⟨false, true, false, 0⟩
          ++ byteSerialise 7 ++ byteSerialise 8) :=
  ⟨(WriteIndexFile_writes_header_then_items ⟨false, true, false, 0⟩
      { _magicNumber := 1, _version := 1, SearchPaths := [] } byteSerialise 5 {} [7, 8]
      ⟨none, true, true, 100⟩).2.1 (by decide),
   (WriteIndexFile_writes_header_then_items ⟨false, true, false, 0⟩
      { _magicNumber := 1, _version := 1, SearchPaths := [] } byteSerialise 5 {} [7, 8]
      ⟨none, true, true, 100⟩).2.2.2 (by decide)⟩

/-! ## Failures of the cache file -/

/-- C19: if the cache file is absent, or cannot be opened, or ends before the header has been
read, or one of the `NumItems` calls of `Deserialise` (the first or a later one) raises an
exception, then `ReadIndexFile` returns with `loadedItems = false`, and `LoadOrBuild` returns
what `Build` returns for the scanned files: the items that `Create` yields for them, in scan
order, and none of the items that were deserialised before the failure. -/
theorem ReadIndexFile_failure_is_a_miss {TItem : Type} (host : Host) (self : FileIndex)
    (ScanDirectory : StdString → List FileDescriptor) (Create : Int → StdString → Bool × TItem)
    (Serialise : TItem → List UInt8) (Deserialise : List UInt8 → Option (TItem × List UInt8))
    (language : Int) (schedule : List Nat) (disk : Disk)
    (hfail : disk.file = none ∨ disk.readable = false
      ∨ ∃ content, disk.file = some content
          ∧ (FileIndexHeader.read host content = none
            ∨ ∃ raw fs, FileIndexHeader.read host content = some (raw, fs)
                ∧ deserialiseAll Deserialise (ReadIndexFile.ensureLittleEndian host raw).NumItems fs
                    = none)) :
    (ReadIndexFile host self Deserialise language (Scan host ScanDirectory self).Stats disk).1
        = false
    ∧ LoadOrBuild host self ScanDirectory Create Serialise Deserialise language schedule disk
        = Build host self Create Serialise language (Scan host ScanDirectory self) schedule disk
    ∧ (LoadOrBuild host self ScanDirectory Create Serialise Deserialise language schedule
          disk).map Prod.fst
        = some ((Scan host ScanDirectory self).Files.filterMap (createdItem Create language)) := by
  have hmiss : (ReadIndexFile host self Deserialise language
      (Scan host ScanDirectory self).Stats disk).1 = false := by
    rw [ReadIndexFile_eq]
    rcases hfail with h | h | ⟨content, hfile, h⟩
    · simp [h]
    · cases disk.file <;> simp [h]
    · rw [hfile]
      cases hread : disk.readable with
      | false => simp
      | true =>
        simp only [if_true]
        rcases h with h | ⟨raw, fs, h, hall⟩
        · simp [h]
        · simp only [h]
          split
          · exact ReadIndexFile.readItems_of_deserialiseAll_none Deserialise _ fs [] hall
          · rfl
  have hbuild : LoadOrBuild host self ScanDirectory Create Serialise Deserialise language
      schedule disk
      = Build host self Create Serialise language (Scan host ScanDirectory self) schedule
          disk := by
    simp only [LoadOrBuild, hmiss, Bool.false_eq_true, if_false]
  refine ⟨hmiss, hbuild, ?_⟩
  rw [hbuild]
  obtain ⟨state, hstate, hitems⟩ :=
    Build.tasks_spec Create language (Scan host ScanDirectory self) schedule
  simp [Build, hstate, hitems]

/-- A cache file whose header matches and promises two items but holds one record: the first
item (7) is deserialised, the second call fails, and `LoadOrBuild` returns the items built from
the two scanned files (their lengths, 1 and 2), not the item 7. -/
theorem ReadIndexFile_failure_is_a_miss_witness :
    ReadIndexFile ⟨false, true, false, 0⟩ { _magicNumber := 1, _version := 1, SearchPaths := [[0x2F]] }
        byteDeserialise 5
        (Scan ⟨false, true, false, 0⟩ (fun _ => [⟨[0x61], 0, 0⟩, ⟨[0x61, 0x62], 0, 0⟩])
          { _magicNumber := 1, _version := 1, SearchPaths := [[0x2F]] }).Stats
        ⟨some (FileIndexHeader.toBytes ⟨false, true, false, 0⟩
            { HeaderSize := 36, MagicNumber := 1, VersionA := 4, VersionB := 1, LanguageId := 5,
              Stats := { TotalFiles := 2, PathChecksum := 3514617713 },
              NumItems := 2 } ++ [7]), true, false, 0⟩ = (false, [7])
    ∧ (LoadOrBuild ⟨false, true, false, 0⟩
          { _magicNumber := 1, _version := 1, SearchPaths := [[0x2F]] }
          (fun _ => [⟨[0x61], 0, 0⟩, ⟨[0x61, 0x62], 0, 0⟩])
          (fun _ path => (true, UInt8.ofNat path.length)) byteSerialise byteDeserialise 5 [0, 0]
          ⟨some (FileIndexHeader.toBytes ⟨false, true, false, 0⟩
              { HeaderSize := 36, MagicNumber := 1, VersionA := 4, VersionB := 1, LanguageId := 5,
                Stats := { TotalFiles := 2, PathChecksum := 3514617713 },
                NumItems := 2 } ++ [7]), true, false, 0⟩).map Prod.fst
        = some [1, 2] :=
  ⟨by decide,
   (ReadIndexFile_failure_is_a_miss ⟨false, true, false, 0⟩
      { _magicNumber := 1, _version := 1, SearchPaths := [[0x2F]] }
      (fun _ => [⟨[0x61], 0, 0⟩, ⟨[0x61, 0x62], 0, 0⟩])
      (fun _ path => (true, UInt8.ofNat path.length)) byteSerialise byteDeserialise 5 [0, 0]
      ⟨some (FileIndexHeader.toBytes ⟨false, true, false, 0⟩
          { HeaderSize := 36, MagicNumber := 1, VersionA := 4, VersionB := 1, LanguageId := 5,
            Stats := { TotalFiles := 2, PathChecksum := 3514617713 },
            NumItems := 2 } ++ [7]), true, false, 0⟩
      (Or.inr (Or.inr ⟨_, rfl, Or.inr
        ⟨{ HeaderSize := 36, MagicNumber := 1, VersionA := 4, VersionB := 1, LanguageId := 5,
           Stats := { TotalFiles := 2, PathChecksum := 3514617713 },
           NumItems := 2 }, [7], by decide, by decide⟩⟩))).2.2⟩

/-! ## `Build`, `Rebuild` and `LoadOrBuild` -/

/-- What `Build` returns, whatever the schedule of the pool and the state of the disk: the items
that `Create` yields for the scanned files, and the disk as one call of `WriteIndexFile` with
that list leaves it. -/
theorem Build_eq {TItem : Type} (host : Host) (self : FileIndex)
    (Create : Int → StdString → Bool × TItem) (Serialise : TItem → List UInt8) (language : Int)
    (scanResult : ScanResult) (schedule : List Nat) (disk : Disk) :
    Build host self Create Serialise language scanResult schedule disk
      = some (scanResult.Files.filterMap (createdItem Create language),
          (WriteIndexFile host self Serialise language scanResult.Stats
            (scanResult.Files.filterMap (createdItem Create language)) disk).1) := by
  obtain ⟨state, hstate, hitems⟩ := Build.tasks_spec Create language scanResult schedule
  simp only [Build, hstate, Option.map_some', hitems]

/-- C20: for every scan result, the list that `Build` returns is the same for every state of
the disk, whether `WriteIndexFile` succeeds or fails at any point (the file cannot be opened,
or the space runs out in the header or in any item record), and `Build` returns in every case;
so do `Rebuild` and, on a miss, `LoadOrBuild`. -/
theorem Build_list_independent_of_cache_write {TItem : Type} (host : Host) (self : FileIndex)
    (ScanDirectory : StdString → List FileDescriptor) (Create : Int → StdString → Bool × TItem)
    (Serialise : TItem → List UInt8) (Deserialise : List UInt8 → Option (TItem × List UInt8))
    (language : Int) (scanResult : ScanResult) (schedule : List Nat) (disk₁ disk₂ : Disk) :
    (Build host self Create Serialise language scanResult schedule disk₁).map Prod.fst
        = some (scanResult.Files.filterMap (createdItem Create language))
    ∧ (Build host self Create Serialise language scanResult schedule disk₁).map Prod.fst
        = (Build host self Create Serialise language scanResult schedule disk₂).map Prod.fst
    ∧ (Rebuild host self ScanDirectory Create Serialise language schedule disk₁).map Prod.fst
        = (Rebuild host self ScanDirectory Create Serialise language schedule disk₂).map Prod.fst
    ∧ ((ReadIndexFile host self Deserialise language (Scan host ScanDirectory self).Stats
          disk₁).1 = false →
        (ReadIndexFile host self Deserialise language (Scan host ScanDirectory self).Stats
          disk₂).1 = false →
        (LoadOrBuild host self ScanDirectory Create Serialise Deserialise language schedule
            disk₁).map Prod.fst
          = (LoadOrBuild host self ScanDirectory Create Serialise Deserialise language schedule
            disk₂).map Prod.fst) := by
  refine ⟨?_, ?_, ?_, ?_⟩
  · rw [Build_eq]; rfl
  · rw [Build_eq, Build_eq]; rfl
  · simp only [Rebuild, Build_eq, Option.map_some']
  · intro h₁ h₂
    simp only [LoadOrBuild, h₁, h₂, Bool.false_eq_true, if_false, Build_eq, Option.map_some']

/-- The same two files built on a disk with room, on a disk that cannot be opened, on a full
disk and on a disk that is full after the header and one record: the write succeeds on the
first only, and `Build` returns the same two items on all four. -/
theorem Build_list_independent_of_cache_write_witness :
    (WriteIndexFile ⟨false, true, false, 0⟩ { _magicNumber := 1, _version := 1, SearchPaths := [] }
        byteSerialise 5 {} [1, 2] ⟨none, true, true, 100⟩).2 = true
    ∧ (WriteIndexFile ⟨false, true, false, 0⟩ { _magicNumber := 1, _version := 1, SearchPaths := [] }
        byteSerialise 5 {} [1, 2] ⟨none, true, false, 100⟩).2 = false
    ∧ (WriteIndexFile ⟨false, true, false, 0⟩ { _magicNumber := 1, _version := 1, SearchPaths := [] }
        byteSerialise 5 {} [1, 2] ⟨none, true, true, 0⟩).2 = false
    ∧ (WriteIndexFile ⟨false, true, false, 0⟩ { _magicNumber := 1, _version := 1, SearchPaths := [] }
        byteSerialise 5 {} [1, 2] ⟨none, true, true, 37⟩).2 = false
    ∧ (Build ⟨false, true, false, 0⟩ { _magicNumber := 1, _version := 1, SearchPaths := [] }
          (fun _ path => (true, UInt8.ofNat path.length)) byteSerialise 5
          ⟨{}, [[0x61], [0x61, 0x62]]⟩ [0] ⟨none, true, true, 100⟩).map Prod.fst
        = (Build ⟨false, true, false, 0⟩ { _magicNumber := 1, _version := 1, SearchPaths := [] }
          (fun _ path => (true, UInt8.ofNat path.length)) byteSerialise 5
          ⟨{}, [[0x61], [0x61, 0x62]]⟩ [0] ⟨none, true, true, 37⟩).map Prod.fst :=
  ⟨by decide, by decide, by decide, by decide,
   (Build_list_independent_of_cache_write ⟨false, true, false, 0⟩
      { _magicNumber := 1, _version := 1, SearchPaths := [] } (fun _ => [])
      (fun _ path => (true, UInt8.ofNat path.length)) byteSerialise byteDeserialise 5
      ⟨{}, [[0x61], [0x61, 0x62]]⟩ [0] ⟨none, true, true, 100⟩ ⟨none, true, true, 37⟩).2.1⟩

/-- C21: whenever `ReadIndexFile` reports `loadedItems = true` for the stats of the current
scan, `LoadOrBuild` returns exactly the deserialised list and leaves the cache file as it is,
whatever `Create` and `Serialise` are and whatever the schedule (no file is built and nothing
is written). -/
theorem LoadOrBuild_cache_hit {TItem : Type} (host : Host) (self : FileIndex)
    (ScanDirectory : StdString → List FileDescriptor) (Create : Int → StdString → Bool × TItem)
    (Serialise : TItem → List UInt8) (Deserialise : List UInt8 → Option (TItem × List UInt8))
    (language : Int) (schedule : List Nat) (disk : Disk)
    (hhit : (ReadIndexFile host self Deserialise language (Scan host ScanDirectory self).Stats
      disk).1 = true) :
    LoadOrBuild host self ScanDirectory Create Serialise Deserialise language schedule disk
        = some ((ReadIndexFile host self Deserialise language (Scan host ScanDirectory self).Stats
            disk).2, disk)
    ∧ ∀ (Create' : Int → StdString → Bool × TItem) (Serialise' : TItem → List UInt8)
        (schedule' : List Nat),
        LoadOrBuild host self ScanDirectory Create' Serialise' Deserialise language schedule' disk
          = LoadOrBuild host self ScanDirectory Create Serialise Deserialise language schedule
              disk := by
  constructor
  · simp only [LoadOrBuild, hhit, if_true]
  · intro Create' Serialise' schedule'
    simp only [LoadOrBuild, hhit, if_true]

/-- C22: the list that `Rebuild` returns is the same for every state of the disk (with or
without a cache file, whatever the file holds); the disk after `Rebuild` is the disk as
`WriteIndexFile` leaves it, also when the scan finds no file; and when `LoadOrBuild` misses
the cache it returns what `Rebuild` returns. -/
theorem Rebuild_ignores_the_cache {TItem : Type} (host : Host) (self : FileIndex)
    (ScanDirectory : StdString → List FileDescriptor) (Create : Int → StdString → Bool × TItem)
    (Serialise : TItem → List UInt8) (Deserialise : List UInt8 → Option (TItem × List UInt8))
    (language : Int) (schedule : List Nat) (disk disk' : Disk) :
    (Rebuild host self ScanDirectory Create Serialise language schedule disk).map Prod.fst
        = (Rebuild host self ScanDirectory Create Serialise language schedule disk').map Prod.fst
    ∧ Rebuild host self ScanDirectory Create Serialise language schedule disk
        = some ((Scan host ScanDirectory self).Files.filterMap (createdItem Create language),
            (WriteIndexFile host self Serialise language (Scan host ScanDirectory self).Stats
              ((Scan host ScanDirectory self).Files.filterMap (createdItem Create language))
              disk).1)
    ∧ ((Scan host ScanDirectory self).Files = [] →
        Rebuild host self ScanDirectory Create Serialise language schedule disk
          = some ([], (WriteIndexFile host self Serialise language
              (Scan host ScanDirectory self).Stats [] disk).1))
    ∧ ((ReadIndexFile host self Deserialise language (Scan host ScanDirectory self).Stats
          disk).1 = false →
        LoadOrBuild host self ScanDirectory Create Serialise Deserialise language schedule disk
          = Rebuild host self ScanDirectory Create Serialise language schedule disk) := by
  refine ⟨?_, ?_, ?_, ?_⟩
  · simp only [Rebuild, Build_eq, Option.map_some']
  · simp only [Rebuild, Build_eq]
  · intro h
    simp only [Rebuild, Build_eq, h, List.filterMap_nil]
  · intro h
    simp only [LoadOrBuild, h, Bool.false_eq_true, if_false, Rebuild]

/-- A miss on an empty disk: `LoadOrBuild` returns what `Rebuild` returns. -/
theorem Rebuild_ignores_the_cache_witness :
    LoadOrBuild ⟨false, true, false, 0⟩ { _magicNumber := 1, _version := 1, SearchPaths := [[0x2F]] }
        (fun _ => [⟨[0x61], 0, 0⟩]) (fun _ path => (true, UInt8.ofNat path.length))
        byteSerialise byteDeserialise 5 [] ⟨none, true, true, 100⟩
      = Rebuild ⟨false, true, false, 0⟩ { _magicNumber := 1, _version := 1, SearchPaths := [[0x2F]] }
        (fun _ => [⟨[0x61], 0, 0⟩]) (fun _ path => (true, UInt8.ofNat path.length))
        byteSerialise 5 [] ⟨none, true, true, 100⟩ :=
  (Rebuild_ignores_the_cache ⟨false, true, false, 0⟩
    { _magicNumber := 1, _version := 1, SearchPaths := [[0x2F]] }
    (fun _ => [⟨[0x61], 0, 0⟩]) (fun _ path => (true, UInt8.ofNat path.length))
    byteSerialise byteDeserialise 5 [] ⟨none, true, true, 100⟩ ⟨none, true, true, 100⟩).2.2.2
    (by decide)

/-- C28: in every execution of `Build` the disk is left as one call of `WriteIndexFile` leaves
it, and the list which that call writes is the list that `Build` returns: the items of all the
scanned files, gathered from the containers of all the tasks after they have ended. -/
theorem Build_writes_the_complete_list_once {TItem : Type} (host : Host) (self : FileIndex)
    (Create : Int → StdString → Bool × TItem) (Serialise : TItem → List UInt8) (language : Int)
    (scanResult : ScanResult) (schedule : List Nat) (disk : Disk) :
    ∃ state items,
      Build.tasks Create language scanResult schedule = some state
      ∧ (∀ task ∈ state.tasks, task.i = task.rangeEnd)
      ∧ items = state.tasks.foldl (fun allItems task => allItems ++ task.items) []
      ∧ items = scanResult.Files.filterMap (createdItem Create language)
      ∧ Build host self Create Serialise language scanResult schedule disk
          = some (items, (WriteIndexFile host self Serialise language scanResult.Stats items
              disk).1) := by
  have hjoin : ∀ (tasks : List (RangeTask TItem)) (processed : Nat) (r : List (RangeTask TItem) × Nat),
      Build.join Create language scanResult tasks processed = some r →
      ∀ task ∈ r.1, task.i = task.rangeEnd := by
    intro tasks
    induction tasks with
    | nil =>
      intro processed r h
      simp only [Build.join, Option.some.injEq] at h
      subst h
      simp
    | cons t tasks ih =>
      intro processed r h
      simp only [Build.join, Option.bind_eq_some, Option.map_eq_some'] at h
      obtain ⟨r₁, -, rest, hrest, rfl⟩ := h
      intro task ht
      rcases List.mem_cons.1 ht with rfl | ht
      · rfl
      · exact ih _ _ hrest task ht
  obtain ⟨state, hstate, hitems⟩ := Build.tasks_spec Create language scanResult schedule
  refine ⟨state, _, hstate, ?_, rfl, hitems, ?_⟩
  · have h := hstate
    simp only [Build.tasks, bind, Option.bind_eq_some, pure, Option.some.injEq] at h
    obtain ⟨ranges, -, s₁, -, r, hr, rfl⟩ := h
    exact hjoin _ _ _ hr
  · rw [Build_eq, hitems]

/-! ## The counter `processed` -/

theorem sum_map_set {α : Type} (f : α → Nat) :
    ∀ (l : List α) (k : Nat) (a b : α), l[k]? = some a →
      ((l.set k b).map f).sum + f a = (l.map f).sum + f b := by
  intro l
  induction l with
  | nil => intro k a b h; simp at h
  | cons x l ih =>
    intro k a b h
    cases k with
    | zero =>
      simp only [List.getElem?_cons_zero, Option.some.injEq] at h
      subst h
      simp only [List.set_cons_zero, List.map_cons, List.sum_cons]
      omega
    | succ k =>
      simp only [List.getElem?_cons_succ] at h
      have := ih k a b h
      simp only [List.set_cons_succ, List.map_cons, List.sum_cons]
      omega

section
variable {TItem : Type} (Create : Int → StdString → Bool × TItem) (language : Int)
  (scanResult : ScanResult)

/-- A step of the pool counts the file it examines: the counter and the iterations still to
be made add up to the same number before and after. -/
theorem Build.step_count (state state' : Build.State TItem) (k : Nat)
    (hwf : ∀ task ∈ state.tasks, task.rangeEnd ≤ scanResult.Files.length)
    (h : Build.step Create language scanResult state k = some state') :
    state'.processed + Build.remaining state'.tasks
      = state.processed + Build.remaining state.tasks := by
  unfold Build.step at h
  cases hk : state.tasks[k]? with
  | none =>
    simp only [hk, Option.some.injEq] at h
    subst h
    rfl
  | some task =>
    have hmem : task ∈ state.tasks := List.getElem?_mem hk
    simp only [hk] at h
    by_cases hlt : task.i < task.rangeEnd
    · have hend := hwf task hmem
      have hi : task.i < scanResult.Files.length := by omega
      simp only [hlt, if_true, BuildRange.next_eq Create language scanResult task.i hi,
        Option.map_some', Option.some.injEq] at h
      subst h
      have hs := sum_map_set (fun t : RangeTask TItem => t.rangeEnd - t.i) state.tasks k task
        { task with i := task.i + 1,
                    items := task.items ++ (createdItem Create language scanResult.Files[task.i]).toList }
        hk
      simp only [Build.remaining]
      simp only at hs
      omega
    · simp only [hlt, if_false, Option.some.injEq] at h
      subst h
      rfl

theorem Build.run_count :
    ∀ (schedule : List Nat) (state state' : Build.State TItem),
      (∀ task ∈ state.tasks, task.rangeEnd ≤ scanResult.Files.length) →
      Build.run Create language scanResult schedule state = some state' →
      state'.processed + Build.remaining state'.tasks
        = state.processed + Build.remaining state.tasks := by
  intro schedule
  induction schedule with
  | nil =>
    intro state state' _ h
    simp only [Build.run, Option.some.injEq] at h
    subst h
    rfl
  | cons k schedule ih =>
    intro state state' hwf h
    obtain ⟨s₁, h₁, hwf₁, -⟩ := Build.step_spec Create language scanResult state k hwf
    simp only [Build.run, h₁, Option.some_bind] at h
    rw [ih s₁ state' hwf₁ h, Build.step_count Create language scanResult state s₁ k hwf h₁]

theorem Build.join_count :
    ∀ (tasks : List (RangeTask TItem)) (processed : Nat) (r : List (RangeTask TItem) × Nat),
      (∀ task ∈ tasks, task.rangeEnd ≤ scanResult.Files.length) →
      Build.join Create language scanResult tasks processed = some r →
      r.2 = processed + Build.remaining tasks := by
  intro tasks
  induction tasks with
  | nil =>
    intro processed r _ h
    simp only [Build.join, Option.some.injEq] at h
    subst h
    simp [Build.remaining]
  | cons task tasks ih =>
    intro processed r hwf h
    have hend := hwf task (List.mem_cons_self _ _)
    have hloop : BuildRange.loop Create language scanResult (task.rangeEnd - task.i) task.i
        task.items processed
        = some (RangeTask.finished Create language scanResult task,
            processed + (task.rangeEnd - task.i)) := by
      by_cases hle : task.rangeEnd ≤ task.i
      · have h0 : task.rangeEnd - task.i = 0 := by omega
        simp [h0, BuildRange.loop, RangeTask.finished]
      · exact BuildRange.loop_eq Create language scanResult _ _ _ _ (by omega)
    simp only [Build.join, hloop, Option.some_bind, Option.map_eq_some'] at h
    obtain ⟨rest, hrest, rfl⟩ := h
    have := ih _ rest (fun t ht => hwf t (List.mem_cons_of_mem _ ht)) hrest
    simp only [Build.remaining, List.map_cons, List.sum_cons] at this ⊢
    omega

/-- The ranges that `Build` submits, and the tasks bound to them: as many iterations are to be
made as there are files. -/
theorem Build.ranges_remaining :
    ∃ ranges, Build.ranges scanResult.Files.length = some ranges
      ∧ (∀ r ∈ ranges, r.2 ≤ scanResult.Files.length)
      ∧ Build.remaining (ranges.map fun r =>
          ({ rangeStart := r.1, rangeEnd := r.2, i := r.1, items := [] } : RangeTask TItem))
        = scanResult.Files.length := by
  by_cases hN : 0 < scanResult.Files.length
  · obtain ⟨rs, hrs, -, -, -, hsize, -, -, hcover, -⟩ :=
      Build.submit_spec scanResult.Files.length scanResult.Files.length 0 hN (by omega)
    refine ⟨rs, by simp [Build.ranges, hN, hrs], fun r hr => (hsize r hr).2.2, ?_⟩
    have hlen := congrArg List.length hcover
    simp only [List.length_flatMap, List.length_range', Nat.sub_zero] at hlen
    simpa [Build.remaining, Function.comp_def] using hlen
  · have hnil : scanResult.Files = [] := List.length_eq_zero.1 (by omega)
    exact ⟨[], by simp [Build.ranges, hnil], by simp, by simp [hnil, Build.remaining]⟩

/-- In every state that the pool reaches, the counter and the iterations still to be made add
up to the number of files. -/
theorem Build.reached_count (ranges : List (Nat × Nat)) (schedule : List Nat)
    (state : Build.State TItem)
    (hranges : Build.ranges scanResult.Files.length = some ranges)
    (h : Build.run Create language scanResult schedule
      { tasks := ranges.map fun r => { rangeStart := r.1, rangeEnd := r.2, i := r.1, items := [] }
        processed := 0 } = some state) :
    (∀ task ∈ state.tasks, task.rangeEnd ≤ scanResult.Files.length)
    ∧ state.processed + Build.remaining state.tasks = scanResult.Files.length := by
  obtain ⟨rs, hrs, hle, hrem⟩ := @Build.ranges_remaining TItem scanResult
  rw [hranges, Option.some.injEq] at hrs
  subst hrs
  have hwf : ∀ task ∈ (ranges.map fun r =>
      ({ rangeStart := r.1, rangeEnd := r.2, i := r.1, items := [] } : RangeTask TItem)),
      task.rangeEnd ≤ scanResult.Files.length := by
    intro task ht
    simp only [List.mem_map] at ht
    obtain ⟨r, hr, rfl⟩ := ht
    exact hle r hr
  obtain ⟨s₁, h₁, hwf₁, -⟩ := Build.run_spec Create language scanResult schedule
    { tasks := ranges.map fun r => { rangeStart := r.1, rangeEnd := r.2, i := r.1, items := [] }
      processed := 0 } hwf
  rw [h, Option.some.injEq] at h₁
  subst h₁
  refine ⟨hwf₁, ?_⟩
  rw [Build.run_count Create language scanResult schedule _ state hwf h, hrem]
  simp

/-- When `Join` has returned, the counter holds the number of files. -/
theorem Build.tasks_count (schedule : List Nat) (state : Build.State TItem)
    (h : Build.tasks Create language scanResult schedule = some state) :
    state.processed = scanResult.Files.length := by
  simp only [Build.tasks, bind, Option.bind_eq_some, pure, Option.some.injEq] at h
  obtain ⟨ranges, hranges, s₁, h₁, r, hr, rfl⟩ := h
  obtain ⟨hwf₁, hcount⟩ := Build.reached_count Create language scanResult ranges schedule s₁ hranges h₁
  have := Build.join_count Create language scanResult s₁.tasks s₁.processed r hwf₁ hr
  simp only
  omega

end

/-- C27: for every file list, every builder `Create` (whatever the number of files for which it
reports "no item") and every schedule of the tasks, the parallel part of `Build` ends, and
when all the tasks have ended the shared counter `processed` equals the number of files. -/
theorem Build_processed_counts_every_file {TItem : Type}
    (Create : Int → StdString → Bool × TItem) (language : Int) (scanResult : ScanResult)
    (schedule : List Nat) :
    ∃ state, Build.tasks Create language scanResult schedule = some state
      ∧ (∀ task ∈ state.tasks, task.i = task.rangeEnd)
      ∧ state.processed = scanResult.Files.length := by
  obtain ⟨state, hstate, -⟩ := Build.tasks_spec Create language scanResult schedule
  refine ⟨state, hstate, ?_, Build.tasks_count Create language scanResult schedule state hstate⟩
  have hjoin : ∀ (tasks : List (RangeTask TItem)) (processed : Nat)
      (r : List (RangeTask TItem) × Nat),
      Build.join Create language scanResult tasks processed = some r →
      ∀ task ∈ r.1, task.i = task.rangeEnd := by
    intro tasks
    induction tasks with
    | nil =>
      intro processed r h
      simp only [Build.join, Option.some.injEq] at h
      subst h
      simp
    | cons t tasks ih =>
      intro processed r h
      simp only [Build.join, Option.bind_eq_some, Option.map_eq_some'] at h
      obtain ⟨r₁, -, rest, hrest, rfl⟩ := h
      intro task ht
      rcases List.mem_cons.1 ht with rfl | ht
      · rfl
      · exact ih _ _ hrest task ht
  have h := hstate
  simp only [Build.tasks, bind, Option.bind_eq_some, pure, Option.some.injEq] at h
  obtain ⟨ranges, -, s₁, -, r, hr, rfl⟩ := h
  exact hjoin _ _ _ hr

/-- C29: for every size of `size_t`, every scan result, every builder and every schedule, each
call of `reportProgress` in `Build` computes its percentage without a division by zero, and
the percentage is at most 100 (and at least 0, being unsigned); for an empty scan no call is
made, and for a scan that is not empty the list of the calls is not empty. -/
theorem Build_progress_safe_and_bounded {TItem : Type} (sizeBits : Nat)
    (Create : Int → StdString → Bool × TItem) (language : Int) (scanResult : ScanResult)
    (schedule : List Nat) :
    (∀ report ∈ Build.progress sizeBits Create language scanResult schedule,
      ∃ percentage, report = some percentage ∧ percentage ≤ 100)
    ∧ (scanResult.Files = [] → Build.progress sizeBits Create language scanResult schedule = [])
    ∧ (scanResult.Files ≠ [] →
        Build.progress sizeBits Create language scanResult schedule ≠ []) := by
  have hbound : ∀ processed, processed ≤ scanResult.Files.length →
      0 < scanResult.Files.length →
      ∃ percentage, Build.reportProgress sizeBits processed scanResult.Files.length
          = some percentage ∧ percentage ≤ 100 := by
    intro processed hle hN
    refine ⟨_, by rw [Build.reportProgress, if_neg (by omega)], ?_⟩
    apply Nat.div_le_of_le_mul
    calc processed * 100 % 2 ^ sizeBits ≤ processed * 100 := Nat.mod_le _ _
      _ ≤ scanResult.Files.length * 100 := Nat.mul_le_mul_right _ hle
  refine ⟨?_, ?_, ?_⟩
  · intro report hreport
    unfold Build.progress at hreport
    by_cases hN : 0 < scanResult.Files.length
    · simp only [gt_iff_lt, hN, if_true] at hreport
      cases hranges : Build.ranges scanResult.Files.length with
      | none => simp [hranges] at hreport
      | some ranges =>
        simp only [hranges, List.map_append, List.mem_append, List.mem_map,
          List.mem_filterMap, Option.mem_toList, Option.mem_def] at hreport
        rcases hreport with ⟨state, ⟨done, -, hrun⟩, rfl⟩ | ⟨state, hstate, rfl⟩
        · obtain ⟨-, hcount⟩ :=
            Build.reached_count Create language scanResult ranges done state hranges hrun
          exact hbound _ (by omega) hN
        · have := Build.tasks_count Create language scanResult schedule state hstate
          exact hbound _ (by omega) hN
    · simp [hN] at hreport
  · intro h
    simp [Build.progress, h]
  · intro h
    have hN : 0 < scanResult.Files.length := List.length_pos.2 h
    obtain ⟨state, hstate, -⟩ := Build.tasks_spec Create language scanResult schedule
    unfold Build.progress
    simp only [gt_iff_lt, hN, if_true]
    cases hranges : Build.ranges scanResult.Files.length with
    | none => simp [Build.tasks, hranges] at hstate
    | some ranges => simp [hstate]

/-! ## The byte swaps of `Endian.h` -/

theorem UInt8_ofNat_toNat (b : UInt8) : UInt8.ofNat b.toNat = b := by
  cases b with
  | mk v =>
    cases v with
    | ofFin f =>
      apply UInt8.ext
      simp [UInt8.toNat, UInt8.ofNat]

theorem bytesLE_valueLE : ∀ (bytes : List UInt8), bytesLE bytes.length (valueLE bytes) = bytes := by
  intro bytes
  induction bytes with
  | nil => rfl
  | cons b bytes ih =>
    have hb := UInt8.toNat_lt b
    have h1 : (b.toNat + 256 * valueLE bytes) % 256 = b.toNat := by omega
    have h2 : (b.toNat + 256 * valueLE bytes) / 256 = valueLE bytes := by omega
    simp only [List.length_cons, valueLE, bytesLE, h1, h2, ih, UInt8_ofNat_toNat]

/-- A swap that turns the value of every reversed list of `n` bytes into the value of the
list reverses the bytes of every number of `n` bytes, and undoes itself. -/
theorem bswap_of_reverse (n : Nat) (bswap : Nat → Nat)
    (h : ∀ bytes : List UInt8, bytes.length = n → bswap (valueLE bytes.reverse) = valueLE bytes)
    (x : Nat) (hx : x < 256 ^ n) :
    bytesLE n (bswap x) = (bytesLE n x).reverse ∧ bswap (bswap x) = x := by
  have hval : valueLE (bytesLE n x) = x := by
    rw [valueLE_bytesLE, Nat.mod_eq_of_lt hx]
  have hswap : bswap x = valueLE (bytesLE n x).reverse := by
    have := h (bytesLE n x).reverse (by simp [bytesLE_length])
    rwa [List.reverse_reverse, hval] at this
  constructor
  · rw [hswap]
    have := bytesLE_valueLE (bytesLE n x).reverse
    rwa [List.length_reverse, bytesLE_length] at this
  · rw [hswap, h (bytesLE n x) (bytesLE_length n x), hval]

/-- C34: for every 16-, 32- and 64-bit value, `ORCT_bswap16`, `ORCT_bswap32` and `ORCT_bswap64`
return the value whose bytes are those of the argument in reversed order (the list of the
bytes of the result, least significant first, is the reversed list of the bytes of the
argument, so byte i of the one is byte n-1-i of the other), and each undoes itself; on a
little-endian host `ORCT_ensure_value_is_little_endian16/32/64` return their argument, on a
big-endian host its byte swap. -/
theorem ORCT_bswap_reverses_bytes (host : Host) (x16 x32 x64 : Nat)
    (h16 : x16 < 2 ^ 16) (h32 : x32 < 2 ^ 32) (h64 : x64 < 2 ^ 64) :
    (bytesLE 2 (ORCT_bswap16 x16) = (bytesLE 2 x16).reverse
      ∧ ORCT_bswap16 (ORCT_bswap16 x16) = x16)
    ∧ (bytesLE 4 (ORCT_bswap32 x32) = (bytesLE 4 x32).reverse
      ∧ ORCT_bswap32 (ORCT_bswap32 x32) = x32)
    ∧ (bytesLE 8 (ORCT_bswap64 x64) = (bytesLE 8 x64).reverse
      ∧ ORCT_bswap64 (ORCT_bswap64 x64) = x64)
    ∧ (host.bigEndian = false →
        ORCT_ensure_value_is_little_endian16 host x16 = x16
        ∧ ORCT_ensure_value_is_little_endian32 host x32 = x32
        ∧ ORCT_ensure_value_is_little_endian64 host x64 = x64)
    ∧ (host.bigEndian = true →
        ORCT_ensure_value_is_little_endian16 host x16 = ORCT_bswap16 x16
        ∧ ORCT_ensure_value_is_little_endian32 host x32 = ORCT_bswap32 x32
        ∧ ORCT_ensure_value_is_little_endian64 host x64 = ORCT_bswap64 x64) := by
  refine ⟨?_, ?_, ?_, ?_, ?_⟩
  · have hpow : (256 : Nat) ^ 2 = 2 ^ 16 := by norm_num
    refine bswap_of_reverse 2 ORCT_bswap16 ?_ x16 (by rw [hpow]; exact h16)
    intro bytes hlen
    exact ensure16_loadInt ⟨true, true, false, 0⟩ bytes hlen
  · have hpow : (256 : Nat) ^ 4 = 2 ^ 32 := by norm_num
    refine bswap_of_reverse 4 ORCT_bswap32 ?_ x32 (by rw [hpow]; exact h32)
    intro bytes hlen
    exact ensure32_loadInt ⟨true, true, false, 0⟩ bytes hlen
  · have hpow : (256 : Nat) ^ 8 = 2 ^ 64 := by norm_num
    refine bswap_of_reverse 8 ORCT_bswap64 ?_ x64 (by rw [hpow]; exact h64)
    intro bytes hlen
    exact ensure64_loadInt ⟨true, true, false, 0⟩ bytes hlen
  · intro hle
    simp [ORCT_ensure_value_is_little_endian16, ORCT_ensure_value_is_little_endian32,
      ORCT_ensure_value_is_little_endian64, hle]
  · intro hbe
    simp [ORCT_ensure_value_is_little_endian16, ORCT_ensure_value_is_little_endian32,
      ORCT_ensure_value_is_little_endian64, hbe]

/-- The swaps of 0x1234, 0x12345678 and 0x0123456789ABCDEF. -/
theorem ORCT_bswap_reverses_bytes_witness :
    ORCT_bswap16 0x1234 = 0x3412 ∧ ORCT_bswap32 0x12345678 = 0x78563412
    ∧ ORCT_bswap64 0x0123456789ABCDEF = 0xEFCDAB8967452301
    ∧ bytesLE 4 (ORCT_bswap32 0x12345678) = (bytesLE 4 0x12345678).reverse
    ∧ ORCT_bswap64 (ORCT_bswap64 0x0123456789ABCDEF) = 0x0123456789ABCDEF :=
  ⟨by decide, by decide, by decide,
   (ORCT_bswap_reverses_bytes ⟨true, true, false, 0⟩ 0x1234 0x12345678 0x0123456789ABCDEF
      (by decide) (by decide) (by decide)).2.1.1,
   (ORCT_bswap_reverses_bytes ⟨true, true, false, 0⟩ 0x1234 0x12345678 0x0123456789ABCDEF
      (by decide) (by decide) (by decide)).2.2.1.2⟩

/-! ## The header size and the language id -/

/-- C32: for every cache file whose header, once read and converted, holds the expected magic
number, both expected version bytes, the expected language id and the four expected stats
fields, `ReadIndexFile` reports a miss and deserialises no item when the `HeaderSize` member
differs from `sizeof(FileIndexHeader)`; when it is equal, the file is accepted and the items are
read. -/
theorem ReadIndexFile_miss_on_HeaderSize {TItem : Type} (host : Host) (self : FileIndex)
    (Deserialise : List UInt8 → Option (TItem × List UInt8)) (language : Int)
    (stats : DirectoryStats) (disk : Disk) (content fs : List UInt8) (header : FileIndexHeader)
    (hfile : disk.file = some content) (hread : disk.readable = true)
    (hheader : FileIndexHeader.read host content = some (header, fs))
    (hmagic : (ReadIndexFile.ensureLittleEndian host header).MagicNumber = self._magicNumber)
    (hversionA : (ReadIndexFile.ensureLittleEndian host header).VersionA
      = self.FILE_INDEX_VERSION)
    (hversionB : (ReadIndexFile.ensureLittleEndian host header).VersionB = self._version)
    (hlanguage : ((ReadIndexFile.ensureLittleEndian host header).LanguageId : Int) = language)
    (hstats : (ReadIndexFile.ensureLittleEndian host header).Stats = stats) :
    ((ReadIndexFile.ensureLittleEndian host header).HeaderSize ≠ sizeofFileIndexHeader host →
      ReadIndexFile host self Deserialise language stats disk = (false, []))
    ∧ ((ReadIndexFile.ensureLittleEndian host header).HeaderSize = sizeofFileIndexHeader host →
      ReadIndexFile host self Deserialise language stats disk
        = ReadIndexFile.readItems Deserialise
            (ReadIndexFile.ensureLittleEndian host header).NumItems fs []) := by
  rw [ReadIndexFile_eq]
  simp only [hfile, hread, if_true, hheader]
  constructor
  · intro hne
    rw [if_neg]
    intro hacc
    exact hne hacc.1
  · intro heq
    rw [if_pos]
    exact ⟨heq, hmagic, hversionA, hversionB, hlanguage, by rw [hstats], by rw [hstats],
      by rw [hstats], by rw [hstats]⟩

/-- A file of 37 bytes whose header holds the size 40 in place of 36 and matches in every other
member is a miss, and its item is not read; with the size 36 it is a hit. -/
theorem ReadIndexFile_miss_on_HeaderSize_witness :
    ReadIndexFile ⟨false, true, false, 0⟩ { _magicNumber := 1, _version := 1, SearchPaths := [] }
        byteDeserialise 5 {}
        ⟨some ((FileIndexHeader.toBytes ⟨false, true, false, 0⟩
          { HeaderSize := 40, MagicNumber := 1, VersionA := 4, VersionB := 1, LanguageId := 5,
            NumItems := 1 }) ++ [7]), true, true, 0⟩ = (false, [])
    ∧ ReadIndexFile ⟨false, true, false, 0⟩ { _magicNumber := 1, _version := 1, SearchPaths := [] }
        byteDeserialise 5 {}
        ⟨some ((FileIndexHeader.toBytes ⟨false, true, false, 0⟩
          { HeaderSize := 36, MagicNumber := 1, VersionA := 4, VersionB := 1, LanguageId := 5,
            NumItems := 1 }) ++ [7]), true, true, 0⟩ = (true, [7]) :=
  ⟨(ReadIndexFile_miss_on_HeaderSize ⟨false, true, false, 0⟩
      { _magicNumber := 1, _version := 1, SearchPaths := [] } byteDeserialise 5 {}
      ⟨some ((FileIndexHeader.toBytes ⟨false, true, false, 0⟩
          { HeaderSize := 40, MagicNumber := 1, VersionA := 4, VersionB := 1, LanguageId := 5,
            NumItems := 1 }) ++ [7]), true, true, 0⟩ _ [7]
      { HeaderSize := 40, MagicNumber := 1, VersionA := 4, VersionB := 1, LanguageId := 5,
        NumItems := 1 }
      rfl rfl (by decide) (by decide) (by decide) (by decide) (by decide) (by decide)).1
      (by decide),
   by decide⟩

/-- The language id that `WriteIndexFile` stores and the one that `ReadIndexFile` compares: a
language that is negative or greater than 65535 differs from the stored id, and the file
written under it is a miss under the same language and stats; for every language from 0 to
65535 the stored id equals the language, and on a little-endian host so does the id that
`ReadIndexFile` compares after it has read the header back. -/
theorem WriteIndexFile_language_id {TItem : Type} (host : Host)
    (self : FileIndex) (Serialise : TItem → List UInt8)
    (Deserialise : List UInt8 → Option (TItem × List UInt8)) (language : Int)
    (stats : DirectoryStats) (items : List TItem) (disk : Disk)
    (hw : disk.writable = true) :
    ((language < 0 ∨ 65535 < language) →
      (((WriteIndexFile.header host self language stats items).LanguageId : Nat) : Int) ≠ language
      ∧ (ReadIndexFile host self Deserialise language stats
          (WriteIndexFile host self Serialise language stats items disk).1).1 = false)
    ∧ ((0 ≤ language ∧ language ≤ 65535) →
      (((WriteIndexFile.header host self language stats items).LanguageId : Nat) : Int) = language
      ∧ (host.bigEndian = false → ∀ rest : List UInt8,
          (FileIndexHeader.read host
              ((WriteIndexFile.header host self language stats items).toBytes host ++ rest)).map
            (fun r => (((ReadIndexFile.ensureLittleEndian host r.1).LanguageId : Nat) : Int))
          = some language)) := by
  constructor
  · intro hout
    have hne : ((u16OfInt language : Nat) : Int) ≠ language := by
      unfold u16OfInt
      omega
    refine ⟨hne, ?_⟩
    apply ReadIndexFile_miss_of_header_mismatch host self self Serialise Deserialise language
      language stats stats items disk hw
    intro _ hall
    exact hne hall.2.2.2.1
  · intro hin
    have heq := u16OfInt_cast language hin.1 (by omega)
    refine ⟨heq, ?_⟩
    intro hle rest
    have hl : u16 (u16OfInt language) = u16OfInt language := by
      unfold u16 u16OfInt
      omega
    rw [FileIndexHeader.read_toBytes]
    simp only [Option.map_some', ReadIndexFile.ensureLittleEndian, FileIndexHeader.wrap,
      WriteIndexFile.header, ORCT_ensure_value_is_little_endian16, hle, Bool.false_eq_true,
      if_false, hl, heq]

/-- C33: on a big-endian host, the cache file that `WriteIndexFile` has written under the
language 5 holds the language id 5 in host byte order; `ReadIndexFile` swaps the two bytes it
has read and compares 1280 with the language 5, so the language comparison fails for a
language within 0..65535, and the file is a miss under the same language and stats (on a
little-endian host the same call is a hit). On every host, a language that is negative or
greater than 65535 differs from the id stored in the header and the file written under it is a
miss (so for the language -1); for every language from 0 to 65535 the stored id equals the
language, and on a little-endian host so does the id that `ReadIndexFile` compares. -/
theorem ReadIndexFile_language_comparison_fails_on_big_endian_host :
    ((((WriteIndexFile.header ⟨true, true, false, 0⟩
          { _magicNumber := 1, _version := 1, SearchPaths := [] } 5 {} [(7 : UInt8)]).LanguageId
        : Nat) : Int) = 5
      ∧ (FileIndexHeader.read ⟨true, true, false, 0⟩
            ((WriteIndexFile.header ⟨true, true, false, 0⟩
              { _magicNumber := 1, _version := 1, SearchPaths := [] } 5 {}
              [(7 : UInt8)]).toBytes ⟨true, true, false, 0⟩ ++ [7])).map
          (fun r => (((ReadIndexFile.ensureLittleEndian ⟨true, true, false, 0⟩
            r.1).LanguageId : Nat) : Int)) = some 1280
      ∧ (WriteIndexFile ⟨true, true, false, 0⟩
          { _magicNumber := 1, _version := 1, SearchPaths := [] } byteSerialise 5 {} [7]
          ⟨none, true, true, 100⟩).2 = true
      ∧ ReadIndexFile ⟨true, true, false, 0⟩
          { _magicNumber := 1, _version := 1, SearchPaths := [] } byteDeserialise 5 {}
          (WriteIndexFile ⟨true, true, false, 0⟩
            { _magicNumber := 1, _version := 1, SearchPaths := [] } byteSerialise 5 {} [7]
            ⟨none, true, true, 100⟩).1 = (false, [])
      ∧ ReadIndexFile ⟨false, true, false, 0⟩
          { _magicNumber := 1, _version := 1, SearchPaths := [] } byteDeserialise 5 {}
          (WriteIndexFile ⟨false, true, false, 0⟩
            { _magicNumber := 1, _version := 1, SearchPaths := [] } byteSerialise 5 {} [7]
            ⟨none, true, true, 100⟩).1 = (true, [7])
      ∧ (ReadIndexFile ⟨false, true, false, 0⟩
          { _magicNumber := 1, _version := 1, SearchPaths := [] } byteDeserialise (-1) {}
          (WriteIndexFile ⟨false, true, false, 0⟩
            { _magicNumber := 1, _version := 1, SearchPaths := [] } byteSerialise (-1) {} [7]
            ⟨none, true, true, 100⟩).1).1 = false)
    ∧ ∀ (TItem : Type) (host : Host) (self : FileIndex) (Serialise : TItem → List UInt8)
        (Deserialise : List UInt8 → Option (TItem × List UInt8)) (language : Int)
        (stats : DirectoryStats) (items : List TItem) (disk : Disk), disk.writable = true →
        ((language < 0 ∨ 65535 < language) →
          (((WriteIndexFile.header host self language stats items).LanguageId : Nat) : Int)
            ≠ language
          ∧ (ReadIndexFile host self Deserialise language stats
              (WriteIndexFile host self Serialise language stats items disk).1).1 = false)
        ∧ ((0 ≤ language ∧ language ≤ 65535) →
          (((WriteIndexFile.header host self language stats items).LanguageId : Nat) : Int)
            = language
          ∧ (host.bigEndian = false → ∀ rest : List UInt8,
              (FileIndexHeader.read host
                  ((WriteIndexFile.header host self language stats items).toBytes host
                    ++ rest)).map
                (fun r => (((ReadIndexFile.ensureLittleEndian host r.1).LanguageId : Nat) : Int))
              = some language)) := by
  refine ⟨⟨by decide, by decide, by decide, by decide, by decide, by decide⟩, ?_⟩
  intro TItem host self Serialise Deserialise language stats items disk hw
  exact WriteIndexFile_language_id host self Serialise Deserialise language stats items disk hw

/-! ## Reloading what was built -/

/-- The stats that `Scan` returns are within the range of their C++ types. -/
theorem Scan_stats_InRange (host : Host) (ScanDirectory : StdString → List FileDescriptor)
    (self : FileIndex) : (Scan host ScanDirectory self).Stats.InRange := by
  rw [Scan_eq_foldl]
  refine ⟨?_, ?_, ?_, ?_⟩
  · simp only [Scan_foldl_TotalFiles]
    exact Nat.mod_lt _ (by decide)
  · simp only [Scan_foldl_TotalFileSize]
    exact Nat.mod_lt _ (by decide)
  · simp only [Scan_foldl_FileDateModifiedChecksum]
    induction scanSequence ScanDirectory self using List.reverseRecOn with
    | nil => decide
    | append_singleton ds d _ =>
      simp only [List.foldl_append, List.foldl_cons, List.foldl_nil]
      exact ror32_lt _ _
  · simp only [Scan_foldl_PathChecksum]
    exact Nat.mod_lt _ (by decide)

/-- C23, as stated, fails: with the language 65536, `Rebuild` writes the cache file without
failure (for a builder whose `Deserialise` reads back what `Serialise` wrote), and the call of
`LoadOrBuild` that follows with the same language, on the disk as `Rebuild` has left it, misses
the cache: `ReadIndexFile` reports no loaded items. -/
theorem Rebuild_then_LoadOrBuild_misses_for_language_65536 :
    (∀ (item : UInt8) (stream : List UInt8),
        byteDeserialise (byteSerialise item ++ stream) = some (item, stream))
    ∧ ∃ disk', Rebuild ⟨false, true, false, 0⟩
          { _magicNumber := 1, _version := 1, SearchPaths := [[0x2F]] }
          (fun _ => [⟨[0x61], 0, 0⟩]) (fun _ path => (true, UInt8.ofNat path.length))
          byteSerialise 65536 [] ⟨none, true, true, 100⟩ = some ([1], disk')
        ∧ WriteIndexFile ⟨false, true, false, 0⟩
            { _magicNumber := 1, _version := 1, SearchPaths := [[0x2F]] } byteSerialise 65536
            (Scan ⟨false, true, false, 0⟩ (fun _ => [⟨[0x61], 0, 0⟩])
              { _magicNumber := 1, _version := 1, SearchPaths := [[0x2F]] }).Stats [1]
            ⟨none, true, true, 100⟩ = (disk', true)
        ∧ (ReadIndexFile ⟨false, true, false, 0⟩
            { _magicNumber := 1, _version := 1, SearchPaths := [[0x2F]] } byteDeserialise 65536
            (Scan ⟨false, true, false, 0⟩ (fun _ => [⟨[0x61], 0, 0⟩])
              { _magicNumber := 1, _version := 1, SearchPaths := [[0x2F]] }).Stats disk').1
          = false := by
  refine ⟨fun _ _ => rfl, _, Build_eq _ _ _ _ _ _ _ _, by decide, by decide⟩

/-- C23, amended: on a little-endian host, for every language from 0 to 65535 and every
file-system state in which the scan finds fewer than 2^32 files, the cache file can be opened,
the cache write of `Rebuild` ends without an exception and `Deserialise` reads back what
`Serialise` wrote for one item: after `Rebuild` (or a `LoadOrBuild` that misses), a call of
`LoadOrBuild` with the same language and the same scanned files hits the cache and returns a
list equal to the list that the first call returned, and leaves the cache file as it is. -/
theorem Rebuild_then_LoadOrBuild_hits {TItem : Type} (host : Host) (self : FileIndex)
    (ScanDirectory : StdString → List FileDescriptor) (Create : Int → StdString → Bool × TItem)
    (Serialise : TItem → List UInt8) (Deserialise : List UInt8 → Option (TItem × List UInt8))
    (language : Int) (schedule schedule' : List Nat) (disk : Disk)
    (hhost : host.bigEndian = false) (hself : self.InRange)
    (hlang : 0 ≤ language ∧ language < 2 ^ 16)
    (hcount : (Scan host ScanDirectory self).Files.length < 2 ^ 32)
    (hinv : ∀ item stream, Deserialise (Serialise item ++ stream) = some (item, stream))
    (hread : disk.readable = true)
    (hok : (WriteIndexFile host self Serialise language (Scan host ScanDirectory self).Stats
      ((Scan host ScanDirectory self).Files.filterMap (createdItem Create language)) disk).2
        = true) :
    ∃ items disk',
      Rebuild host self ScanDirectory Create Serialise language schedule disk
        = some (items, disk')
      ∧ ((ReadIndexFile host self Deserialise language (Scan host ScanDirectory self).Stats
            disk).1 = false →
          LoadOrBuild host self ScanDirectory Create Serialise Deserialise language schedule disk
            = some (items, disk'))
      ∧ ReadIndexFile host self Deserialise language (Scan host ScanDirectory self).Stats disk'
          = (true, items)
      ∧ LoadOrBuild host self ScanDirectory Create Serialise Deserialise language schedule' disk'
          = some (items, disk') := by
  have hlen : ((Scan host ScanDirectory self).Files.filterMap
      (createdItem Create language)).length < 2 ^ 32 :=
    Nat.lt_of_le_of_lt (List.length_filterMap_le _ _) hcount
  have hhit := ReadIndexFile_after_WriteIndexFile host self Serialise Deserialise language
    (Scan host ScanDirectory self).Stats
    ((Scan host ScanDirectory self).Files.filterMap (createdItem Create language)) disk
    hhost hself (Scan_stats_InRange host ScanDirectory self) hlang hlen hinv hok hread
  refine ⟨_, _, by simp only [Rebuild, Build_eq], ?_, hhit, ?_⟩
  · intro hmiss
    simp only [LoadOrBuild, hmiss, Bool.false_eq_true, if_false, Build_eq]
  · simp only [LoadOrBuild, hhit, if_true]

/-- A rebuild of two files under the language 5, and the reload that hits the cache. -/
theorem Rebuild_then_LoadOrBuild_hits_witness :
    ∃ items disk',
      Rebuild ⟨false, true, false, 0⟩ { _magicNumber := 1, _version := 1, SearchPaths := [[0x2F]] }
          (fun _ => [⟨[0x61], 0, 0⟩, ⟨[0x61, 0x62], 0, 0⟩])
          (fun _ path => (true, UInt8.ofNat path.length)) byteSerialise 5 [0]
          ⟨none, true, true, 100⟩ = some (items, disk')
      ∧ LoadOrBuild ⟨false, true, false, 0⟩
          { _magicNumber := 1, _version := 1, SearchPaths := [[0x2F]] }
          (fun _ => [⟨[0x61], 0, 0⟩, ⟨[0x61, 0x62], 0, 0⟩])
          (fun _ path => (true, UInt8.ofNat path.length)) byteSerialise byteDeserialise 5 []
          disk' = some (items, disk') :=
  let h := Rebuild_then_LoadOrBuild_hits ⟨false, true, false, 0⟩
    { _magicNumber := 1, _version := 1, SearchPaths := [[0x2F]] }
    (fun _ => [⟨[0x61], 0, 0⟩, ⟨[0x61, 0x62], 0, 0⟩])
    (fun _ path => (true, UInt8.ofNat path.length)) byteSerialise byteDeserialise 5 [0] []
    ⟨none, true, true, 100⟩ rfl (by decide) (by decide) (by decide) (fun _ _ => rfl) rfl
    (by decide)
  ⟨h.choose, h.choose_spec.choose, h.choose_spec.choose_spec.1,
    h.choose_spec.choose_spec.2.2.2⟩

/-- C24, as stated, fails: the scan finds one file, for which `Create` yields an item, and the
cache file holds a header that matches the scan and an item count of 0: `LoadOrBuild` hits the
cache and returns an empty list. -/
theorem LoadOrBuild_empty_from_cache_with_buildable_file :
    (Scan ⟨false, true, false, 0⟩ (fun _ => [⟨[0x61], 0, 0⟩])
        { _magicNumber := 1, _version := 1, SearchPaths := [[0x2F]] }).Files = [[0x61]]
    ∧ ((fun (_ : Int) (path : StdString) => (true, UInt8.ofNat path.length)) 5 [0x61]).1 = true
    ∧ LoadOrBuild ⟨false, true, false, 0⟩
        { _magicNumber := 1, _version := 1, SearchPaths := [[0x2F]] }
        (fun _ => [⟨[0x61], 0, 0⟩]) (fun _ path => (true, UInt8.ofNat path.length))
        byteSerialise byteDeserialise 5 []
        ⟨some (FileIndexHeader.toBytes ⟨false, true, false, 0⟩
          { HeaderSize := 36, MagicNumber := 1, VersionA := 4, VersionB := 1, LanguageId := 5,
            Stats := (Scan ⟨false, true, false, 0⟩ (fun _ => [⟨[0x61], 0, 0⟩])
              { _magicNumber := 1, _version := 1, SearchPaths := [[0x2F]] }).Stats,
            NumItems := 0 }), true, true, 100⟩
      = some ([], ⟨some (FileIndexHeader.toBytes ⟨false, true, false, 0⟩
          { HeaderSize := 36, MagicNumber := 1, VersionA := 4, VersionB := 1, LanguageId := 5,
            Stats := (Scan ⟨false, true, false, 0⟩ (fun _ => [⟨[0x61], 0, 0⟩])
              { _magicNumber := 1, _version := 1, SearchPaths := [[0x2F]] }).Stats,
            NumItems := 0 }), true, true, 100⟩) := by
  refine ⟨by decide, rfl, by decide⟩

/-- C24, amended: for every language, file-system state and cache file content, if
`LoadOrBuild` misses the cache and returns an empty list, then `Create` reports "no item" for
every file found by the scan. -/
theorem LoadOrBuild_empty_after_miss {TItem : Type} (host : Host) (self : FileIndex)
    (ScanDirectory : StdString → List FileDescriptor) (Create : Int → StdString → Bool × TItem)
    (Serialise : TItem → List UInt8) (Deserialise : List UInt8 → Option (TItem × List UInt8))
    (language : Int) (schedule : List Nat) (disk : Disk)
    (hmiss : (ReadIndexFile host self Deserialise language (Scan host ScanDirectory self).Stats
      disk).1 = false)
    (hempty : (LoadOrBuild host self ScanDirectory Create Serialise Deserialise language schedule
      disk).map Prod.fst = some []) :
    ∀ path ∈ (Scan host ScanDirectory self).Files, (Create language path).1 = false := by
  simp only [LoadOrBuild, hmiss, Bool.false_eq_true, if_false, Build_eq, Option.map_some',
    Option.some.injEq, List.filterMap_eq_nil_iff] at hempty
  intro path hpath
  have := hempty path hpath
  unfold createdItem at this
  by_cases hc : (Create language path).1 = true
  · simp [hc] at this
  · simpa using hc

/-- An empty disk and a builder that yields no item: the call misses, the list is empty, and
the builder yields no item for the file "a" that the scan finds. -/
theorem LoadOrBuild_empty_after_miss_witness :
    (LoadOrBuild ⟨false, true, false, 0⟩
        { _magicNumber := 1, _version := 1, SearchPaths := [[0x2F]] }
        (fun _ => [⟨[0x61], 0, 0⟩]) (fun _ _ => (false, (0 : UInt8))) byteSerialise
        byteDeserialise 5 [] ⟨none, true, true, 100⟩).map Prod.fst = some []
    ∧ ((fun (_ : Int) (_ : StdString) => (false, (0 : UInt8))) 5 [0x61]).1 = false :=
  ⟨by decide,
   LoadOrBuild_empty_after_miss ⟨false, true, false, 0⟩
    { _magicNumber := 1, _version := 1, SearchPaths := [[0x2F]] }
    (fun _ => [⟨[0x61], 0, 0⟩]) (fun _ _ => (false, (0 : UInt8))) byteSerialise
    byteDeserialise 5 [] ⟨none, true, true, 100⟩ (by decide) (by decide) [0x61] (by decide)⟩

/-! ## Scenery objects -/

/-- C31: the validator of `ReadLegacy` does not log "Sell price can not be more than buy price."
for the price 10 and the removal price -20, for which removing refunds 20, more than the 10
that placing costs. For every price and removal price, of small and of large scenery, the
message is logged exactly when the removal price is at most 0 and greater than the price (the
removal price is compared as it is, not negated), so it is never logged for a positive
price. -/
theorem ReadLegacy_validate_misses_profit_on_removal :
    (-(-20 : Int) > 10
      ∧ "Sell price can not be more than buy price."
          ∉ SmallSceneryObject.ReadLegacy.validate 10 (-20)
      ∧ "Sell price can not be more than buy price."
          ∉ LargeSceneryObject.ReadLegacy.validate 10 (-20))
    ∧ ∀ price removal_price : Int,
        ("Sell price can not be more than buy price."
            ∈ SmallSceneryObject.ReadLegacy.validate price removal_price
          ↔ removal_price ≤ 0 ∧ removal_price > price)
        ∧ ("Sell price can not be more than buy price."
            ∈ LargeSceneryObject.ReadLegacy.validate price removal_price
          ↔ removal_price ≤ 0 ∧ removal_price > price)
        ∧ (0 < price →
            "Sell price can not be more than buy price."
              ∉ SmallSceneryObject.ReadLegacy.validate price removal_price
            ∧ "Sell price can not be more than buy price."
              ∉ LargeSceneryObject.ReadLegacy.validate price removal_price) := by
  have hne : ("Sell price can not be more than buy price." : String)
      ≠ "Price can not be free or negative." := by decide
  have hs : ∀ price removal_price : Int,
      ("Sell price can not be more than buy price."
          ∈ SmallSceneryObject.ReadLegacy.validate price removal_price
        ↔ removal_price ≤ 0 ∧ removal_price > price) := by
    intro p r
    unfold SmallSceneryObject.ReadLegacy.validate
    by_cases h1 : r ≤ 0 <;> by_cases h2 : r > p <;> by_cases h3 : p ≤ 0 <;>
      simp [h1, h2, h3, hne]
  have hl : ∀ price removal_price : Int,
      ("Sell price can not be more than buy price."
          ∈ LargeSceneryObject.ReadLegacy.validate price removal_price
        ↔ removal_price ≤ 0 ∧ removal_price > price) := by
    intro p r
    unfold LargeSceneryObject.ReadLegacy.validate
    by_cases h1 : r ≤ 0 <;> by_cases h2 : r > p <;> by_cases h3 : p ≤ 0 <;>
      simp [h1, h2, h3, hne]
  refine ⟨⟨by decide, ?_, ?_⟩, ?_⟩
  · rw [hs]; decide
  · rw [hl]; decide
  · intro p r
    refine ⟨hs p r, hl p r, ?_⟩
    intro hp
    rw [hs, hl]
    constructor <;> omega

theorem ReadFrameOffsets.loop_spec :
    ∀ (stream data : List UInt8) (k : Nat), stream[k]? = some 0xFF →
      ∃ middle rest, stream = middle ++ 0xFF :: rest ∧ (∀ b ∈ middle, b ≠ 0xFF)
        ∧ SmallSceneryObject.ReadFrameOffsets.loop stream data
            = some (data ++ middle ++ [0xFF], rest) := by
  intro stream
  induction stream with
  | nil => intro data k h; simp at h
  | cons b stream ih =>
    intro data k h
    by_cases hb : b = 0xFF
    · subst hb
      exact ⟨[], stream, rfl, by simp, by simp [SmallSceneryObject.ReadFrameOffsets.loop]⟩
    · cases k with
      | zero =>
        simp only [List.getElem?_cons_zero, Option.some.injEq] at h
        exact absurd h hb
      | succ k =>
        simp only [List.getElem?_cons_succ] at h
        obtain ⟨middle, rest, hstream, hmiddle, hloop⟩ := ih (data ++ [b]) k h
        refine ⟨b :: middle, rest, by rw [hstream]; rfl, ?_, ?_⟩
        · intro x hx
          rcases List.mem_cons.1 hx with rfl | hx
          · exact hb
          · exact hmiddle x hx
        · rw [SmallSceneryObject.ReadFrameOffsets.loop, if_pos hb, hloop]
          simp

/-- C38: for every byte stream that holds a byte 0xFF at some position after the first,
`ReadFrameOffsets` returns, and the list it returns has at least two elements, begins with the
first byte of the stream (also when that byte is 0xFF), ends with 0xFF, holds no 0xFF strictly
between the first and the last element, and is the part of the stream that was read: the
stream is the list followed by the bytes that are left. -/
theorem ReadFrameOffsets_shape (stream : List UInt8) (k : Nat) (hk : 0 < k)
    (hff : stream[k]? = some 0xFF) :
    ∃ data rest,
      SmallSceneryObject.ReadFrameOffsets stream = some (data, rest)
      ∧ 2 ≤ data.length
      ∧ data.head? = stream.head?
      ∧ data.getLast? = some 0xFF
      ∧ (∀ i, 0 < i → i + 1 < data.length → data[i]? ≠ some 0xFF)
      ∧ stream = data ++ rest
      ∧ rest.length + data.length = stream.length := by
  cases stream with
  | nil => simp at hff
  | cons first stream =>
    obtain ⟨j, rfl⟩ : ∃ j, k = j + 1 := ⟨k - 1, by omega⟩
    simp only [List.getElem?_cons_succ] at hff
    obtain ⟨middle, rest, hstream, hmiddle, hloop⟩ :=
      ReadFrameOffsets.loop_spec stream [first] j hff
    have hdata : [first] ++ middle ++ [0xFF] = first :: (middle ++ [0xFF]) := by simp
    rw [hdata] at hloop
    refine ⟨first :: (middle ++ [0xFF]), rest,
      by simp only [SmallSceneryObject.ReadFrameOffsets, hloop], by simp, by simp, ?_, ?_,
      by simp [hstream], by simp [hstream]; omega⟩
    · rw [← List.cons_append, List.getLast?_concat]
    · intro i hi hlen hget
      simp only [List.length_append, List.length_singleton, List.length_cons,
        List.length_nil] at hlen
      obtain ⟨i', rfl⟩ : ∃ i', i = i' + 1 := ⟨i - 1, by omega⟩
      have hi' : i' < middle.length := by omega
      simp only [List.getElem?_cons_succ] at hget
      rw [List.getElem?_append_left hi', List.getElem?_eq_getElem hi', Option.some.injEq] at hget
      exact hmiddle _ (List.getElem_mem _) hget

/-- A stream that begins with 0xFF: the first byte is kept, and the read ends at the next
0xFF. -/
theorem ReadFrameOffsets_shape_witness :
    ∃ data rest,
      SmallSceneryObject.ReadFrameOffsets [0xFF, 3, 0xFF, 9] = some (data, rest)
      ∧ 2 ≤ data.length
      ∧ data.head? = [(0xFF : UInt8), 3, 0xFF, 9].head?
      ∧ data.getLast? = some 0xFF
      ∧ (∀ i, 0 < i → i + 1 < data.length → data[i]? ≠ some 0xFF)
      ∧ [(0xFF : UInt8), 3, 0xFF, 9] = data ++ rest
      ∧ rest.length + data.length = [(0xFF : UInt8), 3, 0xFF, 9].length :=
  ReadFrameOffsets_shape [0xFF, 3, 0xFF, 9] 2 (by decide) (by decide)

/-! ## Track designs: the builder -/

/-- C25: `TrackDesignFileIndex::Create` reports an item (the first component of its tuple is
true) for every path, also when `track_design_open` returns the null pointer: the item is then
the default `TrackRepositoryItem`, with an empty name and an empty path; so a build of N files
yields N items, however many of them cannot be opened. When the file can be opened, the item
holds the path and the name `GetNameFromTrackPath(path)`. -/
theorem TrackDesignFileIndex_Create_reports_an_item_for_every_path (env : Environment)
    (self : TrackDesignFileIndex) (language : Int) (path : StdString) (files : List StdString) :
    (self.Create env language path).1 = true
    ∧ (env.track_design_open (c_str path) = none →
        (self.Create env language path).2 = {}
        ∧ (self.Create env language path).2.Path = []
        ∧ (self.Create env language path).2.RideType = RIDE_TYPE_NULL)
    ∧ (env.track_design_open (c_str path) ≠ none →
        (self.Create env language path).2.Path = path
        ∧ (self.Create env language path).2.Name = GetNameFromTrackPath env path)
    ∧ (files.filterMap (createdItem (self.Create env) language)).length = files.length := by
  have htrue : ∀ p, (self.Create env language p).1 = true := by
    intro p
    unfold TrackDesignFileIndex.Create
    cases env.track_design_open (c_str p) <;> rfl
  refine ⟨htrue path, ?_, ?_, ?_⟩
  · intro h
    have hc : self.Create env language path = (true, {}) := by
      simp only [TrackDesignFileIndex.Create, h]
    rw [hc]
    exact ⟨rfl, rfl, rfl⟩
  · intro h
    unfold TrackDesignFileIndex.Create
    cases hopen : env.track_design_open (c_str path) with
    | none => exact absurd hopen h
    | some td6 =>
      simp only
      split <;> exact ⟨rfl, rfl⟩
  · induction files with
    | nil => rfl
    | cons f files ih =>
      simp only [List.filterMap_cons, createdItem, htrue f, if_true, List.length_cons, ih]

/-! ## Track designs: the name -/

theorem substr_find_first_of (name : StdString) (ch : UInt8) :
    substr name (find_first_of name ch) = name.takeWhile (fun c => c ≠ ch) := by
  induction name with
  | nil => rfl
  | cons c name ih =>
    by_cases hc : c = ch
    · simp [find_first_of, substr, hc]
    · cases hf : find_first_of name ch with
      | none =>
        rw [hf] at ih
        simp only [substr] at ih
        simp only [find_first_of, hc, if_false, hf, Option.map_none', substr,
          List.takeWhile_cons, ne_eq, not_false_eq_true, decide_True, if_true, ← ih]
      | some i =>
        rw [hf] at ih
        simp only [substr] at ih
        simp only [find_first_of, hc, if_false, hf, Option.map_some', substr,
          List.takeWhile_cons, ne_eq, not_false_eq_true, decide_True, if_true, ← ih,
          List.take_succ_cons]

/-- C30: for every path, `GetNameFromTrackPath(path)` holds no '.', is a prefix of
`Path::GetFileNameWithoutExtension(path)`, equals it when it holds no '.', and is otherwise
followed in it by a '.': it is the file name without extension, cut at its first '.'. -/
theorem GetNameFromTrackPath_cut_at_first_dot (env : Environment) (path : StdString) :
    (0x2E : UInt8) ∉ GetNameFromTrackPath env path
    ∧ GetNameFromTrackPath env path <+: env.GetFileNameWithoutExtension path
    ∧ ((0x2E : UInt8) ∉ env.GetFileNameWithoutExtension path →
        GetNameFromTrackPath env path = env.GetFileNameWithoutExtension path)
    ∧ ((0x2E : UInt8) ∈ env.GetFileNameWithoutExtension path →
        ∃ rest, env.GetFileNameWithoutExtension path
          = GetNameFromTrackPath env path ++ 0x2E :: rest) := by
  simp only [GetNameFromTrackPath, substr_find_first_of]
  generalize env.GetFileNameWithoutExtension path = name
  refine ⟨?_, List.takeWhile_prefix _, ?_, ?_⟩
  · intro hmem
    have := List.mem_takeWhile_imp hmem
    simp at this
  · intro hnot
    rw [List.takeWhile_eq_self_iff]
    intro c hc
    simp only [ne_eq, decide_eq_true_eq]
    rintro rfl
    exact hnot hc
  · intro hmem
    induction name with
    | nil => simp at hmem
    | cons c name ih =>
      by_cases hc : c = 0x2E
      · exact ⟨name, by simp [hc]⟩
      · have hmem' : (0x2E : UInt8) ∈ name := by
          rcases List.mem_cons.1 hmem with h | h
          · exact absurd h.symm hc
          · exact h
        obtain ⟨rest, hrest⟩ := ih hmem'
        refine ⟨rest, ?_⟩
        simp only [List.takeWhile_cons, ne_eq, hc, not_false_eq_true, decide_True, if_true,
          List.cons_append]
        rw [← hrest]

/-! ## Track designs: `Serialise` and `Deserialise` -/

theorem c_str_no_NUL (str : StdString) : ∀ ch ∈ c_str str, ch ≠ 0 := by
  intro ch hch
  have := List.mem_takeWhile_imp hch
  simpa using this

theorem c_str_eq_self (str : StdString) (h : ∀ ch ∈ str, ch ≠ 0) : c_str str = str := by
  unfold c_str
  rw [List.takeWhile_eq_self_iff]
  intro ch hch
  simpa using h ch hch

theorem ReadStdString_append (str : StdString) (h : ∀ ch ∈ str, ch ≠ 0) (rest : List UInt8) :
    ReadStdString (str ++ 0 :: rest) = some (str, rest) := by
  induction str with
  | nil => simp [ReadStdString]
  | cons ch str ih =>
    have hch : ch ≠ 0 := h ch (List.mem_cons_self _ _)
    have := ih (fun c hc => h c (List.mem_cons_of_mem _ hc))
    simp [ReadStdString, hch, this]

/-- What `ReadStdString` reads from the bytes that `WriteString` has written. -/
theorem ReadStdString_WriteString (str : StdString) (rest : List UInt8) :
    ReadStdString (WriteString str ++ rest) = some (c_str str, rest) := by
  unfold WriteString
  rw [List.append_assoc, List.singleton_append]
  exact ReadStdString_append _ (c_str_no_NUL str) rest

/-- What `Deserialise` yields on the bytes that `Serialise` has written for an item, on a
little-endian host. -/
theorem TrackDesignFileIndex.Deserialise_Serialise (host : Host) (item : TrackRepositoryItem)
    (rest : List UInt8) (hhost : host.bigEndian = false) :
    TrackDesignFileIndex.Deserialise host (TrackDesignFileIndex.Serialise host item ++ rest)
      = some ({ Name := c_str item.Name, Path := c_str item.Path, RideType := u8 item.RideType,
                ObjectEntry := c_str item.ObjectEntry, Flags := u32 item.Flags }, rest) := by
  have h1 : (256 : Nat) ^ 1 = 2 ^ 8 := by norm_num
  have h4 : (256 : Nat) ^ 4 = 2 ^ 32 := by norm_num
  simp only [TrackDesignFileIndex.Deserialise, TrackDesignFileIndex.Serialise,
    List.append_assoc, bind, ReadStdString_WriteString, readInt_storeInt, Option.bind, pure,
    ORCT_ensure_value_is_little_endian32, hhost, Bool.false_eq_true, if_false, u8, u32, h1, h4]

/-- C26, as stated, fails: for an item whose `ObjectEntry` holds a zero byte, as the 8
characters "AB", NUL and five spaces, `Deserialise` reads the bytes that `Serialise` has written
to their end and returns an item whose `ObjectEntry` is "AB". -/
theorem TrackDesignFileIndex_round_trip_cuts_ObjectEntry_at_zero_byte :
    TrackDesignFileIndex.Deserialise ⟨false, true, false, 0⟩
        (TrackDesignFileIndex.Serialise ⟨false, true, false, 0⟩
          { Name := [0x61], Path := [0x61, 0x2E, 0x74, 0x64, 0x36], RideType := 2,
            ObjectEntry := [0x41, 0x42, 0, 0x20, 0x20, 0x20, 0x20, 0x20], Flags := 1 })
      = some ({ Name := [0x61], Path := [0x61, 0x2E, 0x74, 0x64, 0x36], RideType := 2,
                ObjectEntry := [0x41, 0x42], Flags := 1 }, [])
    ∧ ([0x41, 0x42] : StdString) ≠ [0x41, 0x42, 0, 0x20, 0x20, 0x20, 0x20, 0x20] := by
  refine ⟨by decide, by decide⟩

/-- C26, amended: on a little-endian host, for every `TrackRepositoryItem` whose `RideType`
and `Flags` are within their types, `Deserialise` applied to the bytes that `Serialise` has
written for the item, followed by any bytes, consumes exactly the bytes of the item and returns
the item with `Name`, `Path` and `ObjectEntry` cut at their first zero byte; so it returns an
item equal in all five fields when none of the three strings holds a zero byte. -/
theorem TrackDesignFileIndex_Deserialise_inverts_Serialise (host : Host)
    (item : TrackRepositoryItem) (rest : List UInt8) (hhost : host.bigEndian = false)
    (hRideType : item.RideType < 2 ^ 8) (hFlags : item.Flags < 2 ^ 32) :
    TrackDesignFileIndex.Deserialise host (TrackDesignFileIndex.Serialise host item ++ rest)
      = some ({ item with Name := c_str item.Name, Path := c_str item.Path,
                          ObjectEntry := c_str item.ObjectEntry }, rest)
    ∧ ((∀ ch ∈ item.Name, ch ≠ 0) → (∀ ch ∈ item.Path, ch ≠ 0) →
        (∀ ch ∈ item.ObjectEntry, ch ≠ 0) →
        TrackDesignFileIndex.Deserialise host (TrackDesignFileIndex.Serialise host item ++ rest)
          = some (item, rest)) := by
  have h := TrackDesignFileIndex.Deserialise_Serialise host item rest hhost
  have h8 : u8 item.RideType = item.RideType := Nat.mod_eq_of_lt hRideType
  have h32 : u32 item.Flags = item.Flags := Nat.mod_eq_of_lt hFlags
  rw [h8, h32] at h
  refine ⟨h, ?_⟩
  intro hn hp ho
  rw [h, c_str_eq_self _ hn, c_str_eq_self _ hp, c_str_eq_self _ ho]

/-- A read-only item of ride type 2 whose strings hold no zero byte, followed by one byte. -/
theorem TrackDesignFileIndex_Deserialise_inverts_Serialise_witness :
    TrackDesignFileIndex.Deserialise ⟨false, true, false, 0⟩
        (TrackDesignFileIndex.Serialise ⟨false, true, false, 0⟩
          { Name := [0x61], Path := [0x61, 0x2E, 0x74, 0x64, 0x36], RideType := 2,
            ObjectEntry := [0x41, 0x42, 0x20, 0x20, 0x20, 0x20, 0x20, 0x20], Flags := 1 } ++ [9])
      = some ({ Name := [0x61], Path := [0x61, 0x2E, 0x74, 0x64, 0x36], RideType := 2,
                ObjectEntry := [0x41, 0x42, 0x20, 0x20, 0x20, 0x20, 0x20, 0x20], Flags := 1 },
              [9]) :=
  (TrackDesignFileIndex_Deserialise_inverts_Serialise ⟨false, true, false, 0⟩
    { Name := [0x61], Path := [0x61, 0x2E, 0x74, 0x64, 0x36], RideType := 2,
      ObjectEntry := [0x41, 0x42, 0x20, 0x20, 0x20, 0x20, 0x20, 0x20], Flags := 1 } [9] rfl
    (by decide) (by decide)).2 (by decide) (by decide) (by decide)

/-- On a big-endian host `Serialise` writes `Flags` in host byte order and `Deserialise` swaps
the bytes of what it reads: the flags 1 come back as 0x01000000. -/
theorem TrackDesignFileIndex.Flags_on_big_endian_host :
    (TrackDesignFileIndex.Deserialise ⟨true, true, false, 0⟩
        (TrackDesignFileIndex.Serialise ⟨true, true, false, 0⟩
          { Name := [0x61], Path := [0x61], RideType := 2, ObjectEntry := [0x41],
            Flags := 1 })).map (fun r => r.1.Flags) = some 0x01000000 := by
  decide

/-! ## Track designs: the repository -/

theorem foldl_push_back {α : Type} (l init : List α) :
    l.foldl (fun acc x => acc ++ [x]) init = init ++ l := by
  induction l generalizing init with
  | nil => simp
  | cons x l ih => simp [ih]

theorem TrackDesignRepository.SortItems.less_eq_false_iff (env : Environment)
    (a b : TrackRepositoryItem) :
    TrackDesignRepository.SortItems.less env b a = false
      ↔ a.RideType < b.RideType
        ∨ (a.RideType = b.RideType ∧ ¬ env.Compare b.Name a.Name < 0) := by
  unfold TrackDesignRepository.SortItems.less
  by_cases h : b.RideType = a.RideType
  · simp [h]
  · have h' : ¬ a.RideType = b.RideType := fun e => h e.symm
    simp only [ne_eq, h, not_false_eq_true, if_true, decide_eq_false_iff_not, Nat.not_lt, h',
      false_and, or_false]
    omega

/-- The vector that `SortItems` leaves is sorted, when `String::Compare` is a strict weak
order. -/
theorem TrackDesignRepository.SortItems_sorted (env : Environment)
    (hasym : ∀ s t, env.Compare s t < 0 → ¬ env.Compare t s < 0)
    (hneg : ∀ s t u, ¬ env.Compare t s < 0 → ¬ env.Compare u t < 0 → ¬ env.Compare u s < 0)
    (items : List TrackRepositoryItem) :
    (TrackDesignRepository.SortItems env items).Pairwise fun a b =>
      a.RideType < b.RideType ∨ (a.RideType = b.RideType ∧ ¬ env.Compare b.Name a.Name < 0) := by
  haveI : IsTotal TrackRepositoryItem
      (fun a b => TrackDesignRepository.SortItems.less env b a = false) := by
    constructor
    intro a b
    simp only [TrackDesignRepository.SortItems.less_eq_false_iff]
    by_cases h1 : a.RideType < b.RideType
    · exact Or.inl (Or.inl h1)
    · by_cases h2 : b.RideType < a.RideType
      · exact Or.inr (Or.inl h2)
      · have he : a.RideType = b.RideType := by omega
        by_cases hc : env.Compare b.Name a.Name < 0
        · exact Or.inr (Or.inr ⟨he.symm, hasym _ _ hc⟩)
        · exact Or.inl (Or.inr ⟨he, hc⟩)
  haveI : IsTrans TrackRepositoryItem
      (fun a b => TrackDesignRepository.SortItems.less env b a = false) := by
    constructor
    intro a b c
    simp only [TrackDesignRepository.SortItems.less_eq_false_iff]
    rintro (h1 | ⟨h1, c1⟩) (h2 | ⟨h2, c2⟩)
    · exact Or.inl (by omega)
    · exact Or.inl (by omega)
    · exact Or.inl (by omega)
    · exact Or.inr ⟨by omega, hneg _ _ _ c1 c2⟩
  have := List.sorted_insertionSort
    (fun a b => TrackDesignRepository.SortItems.less env b a = false) items
  exact List.Pairwise.imp
    (fun {a b} h => (TrackDesignRepository.SortItems.less_eq_false_iff env a b).1 h) this

theorem TrackDesignRepository.SortItems_perm (env : Environment)
    (items : List TrackRepositoryItem) :
    (TrackDesignRepository.SortItems env items).Perm items :=
  List.perm_insertionSort _ items

/-- The call of `LoadOrBuild` returns. -/
theorem LoadOrBuild_returns {TItem : Type} (host : Host) (self : FileIndex)
    (ScanDirectory : StdString → List FileDescriptor) (Create : Int → StdString → Bool × TItem)
    (Serialise : TItem → List UInt8) (Deserialise : List UInt8 → Option (TItem × List UInt8))
    (language : Int) (schedule : List Nat) (disk : Disk) :
    ∃ r, LoadOrBuild host self ScanDirectory Create Serialise Deserialise language schedule disk
      = some r := by
  unfold LoadOrBuild
  simp only
  split
  · exact ⟨_, rfl⟩
  · exact ⟨_, Build_eq _ _ _ _ _ _ _ _⟩

/-- C35: when `String::Compare` is a strict weak order on the names, `Scan` returns, and the
item list of the repository after it is a permutation of the list that `LoadOrBuild` returned
and is sorted by `RideType` ascending and, among items of equal `RideType`, by `Name`: for every
adjacent pair a, b, either a.RideType < b.RideType, or the ride types are equal and
`Compare(b.Name, a.Name)` is not negative; the items present before the call are discarded. -/
theorem TrackDesignRepository_Scan_sorted_permutation (host : Host) (env : Environment)
    (_fileIndex : TrackDesignFileIndex) (ScanDirectory : StdString → List FileDescriptor)
    (schedule : List Nat) (previous : List TrackRepositoryItem) (language : Int) (disk : Disk)
    (hasym : ∀ s t, env.Compare s t < 0 → ¬ env.Compare t s < 0)
    (hneg : ∀ s t u, ¬ env.Compare t s < 0 → ¬ env.Compare u t < 0 → ¬ env.Compare u s < 0) :
    ∃ trackDesigns items disk',
      LoadOrBuild host _fileIndex.toFileIndex ScanDirectory (_fileIndex.Create env)
          (TrackDesignFileIndex.Serialise host) (TrackDesignFileIndex.Deserialise host) language
          schedule disk = some (trackDesigns, disk')
      ∧ TrackDesignRepository.Scan host env _fileIndex ScanDirectory schedule previous language
          disk = some (items, disk')
      ∧ items.Perm trackDesigns
      ∧ items.Chain' (fun a b =>
          a.RideType < b.RideType
            ∨ (a.RideType = b.RideType ∧ ¬ env.Compare b.Name a.Name < 0))
      ∧ TrackDesignRepository.Scan host env _fileIndex ScanDirectory schedule previous language
          disk
        = TrackDesignRepository.Scan host env _fileIndex ScanDirectory schedule [] language
          disk := by
  obtain ⟨r, hr⟩ := LoadOrBuild_returns host _fileIndex.toFileIndex ScanDirectory
    (_fileIndex.Create env) (TrackDesignFileIndex.Serialise host)
    (TrackDesignFileIndex.Deserialise host) language schedule disk
  refine ⟨r.1, TrackDesignRepository.SortItems env r.1, r.2, hr, ?_,
    TrackDesignRepository.SortItems_perm env r.1,
    (TrackDesignRepository.SortItems_sorted env hasym hneg r.1).chain', rfl⟩
  simp only [TrackDesignRepository.Scan, hr, Option.map_some', foldl_push_back, List.nil_append]

/-- A scan of three track files with a repository that held an item before. -/
theorem TrackDesignRepository_Scan_sorted_permutation_witness :
    ∃ trackDesigns items disk',
      LoadOrBuild ⟨false, true, false, 0⟩ (TrackDesignFileIndex.toFileIndex ⟨[0x31], [0x32], [0x33]⟩)
          (fun directory => if directory = [0x33] then
            [⟨[0x33, 0x61, 0x62], 0, 0⟩, ⟨[0x33, 0x61], 0, 0⟩, ⟨[0x33, 0x62], 0, 0⟩] else [])
          (TrackDesignFileIndex.Create exampleEnvironment ⟨[0x31], [0x32], [0x33]⟩)
          (TrackDesignFileIndex.Serialise ⟨false, true, false, 0⟩)
          (TrackDesignFileIndex.Deserialise ⟨false, true, false, 0⟩) 0
          [] ⟨none, true, true, 1000⟩ = some (trackDesigns, disk')
      ∧ TrackDesignRepository.Scan ⟨false, true, false, 0⟩ exampleEnvironment
          ⟨[0x31], [0x32], [0x33]⟩
          (fun directory => if directory = [0x33] then
            [⟨[0x33, 0x61, 0x62], 0, 0⟩, ⟨[0x33, 0x61], 0, 0⟩, ⟨[0x33, 0x62], 0, 0⟩] else [])
          [] [{ Name := [0x7A] }] 0 ⟨none, true, true, 1000⟩ = some (items, disk')
      ∧ items.Perm trackDesigns
      ∧ items.Chain' (fun a b =>
          a.RideType < b.RideType
            ∨ (a.RideType = b.RideType ∧ ¬ exampleEnvironment.Compare b.Name a.Name < 0))
      ∧ TrackDesignRepository.Scan ⟨false, true, false, 0⟩ exampleEnvironment
          ⟨[0x31], [0x32], [0x33]⟩
          (fun directory => if directory = [0x33] then
            [⟨[0x33, 0x61, 0x62], 0, 0⟩, ⟨[0x33, 0x61], 0, 0⟩, ⟨[0x33, 0x62], 0, 0⟩] else [])
          [] [{ Name := [0x7A] }] 0 ⟨none, true, true, 1000⟩
        = TrackDesignRepository.Scan ⟨false, true, false, 0⟩ exampleEnvironment
          ⟨[0x31], [0x32], [0x33]⟩
          (fun directory => if directory = [0x33] then
            [⟨[0x33, 0x61, 0x62], 0, 0⟩, ⟨[0x33, 0x61], 0, 0⟩, ⟨[0x33, 0x62], 0, 0⟩] else [])
          [] [] 0 ⟨none, true, true, 1000⟩ :=
  TrackDesignRepository_Scan_sorted_permutation ⟨false, true, false, 0⟩ exampleEnvironment
    ⟨[0x31], [0x32], [0x33]⟩
    (fun directory => if directory = [0x33] then
      [⟨[0x33, 0x61, 0x62], 0, 0⟩, ⟨[0x33, 0x61], 0, 0⟩, ⟨[0x33, 0x62], 0, 0⟩] else [])
    [] [{ Name := [0x7A] }] 0 ⟨none, true, true, 1000⟩
    (fun s t h => by simp only [exampleEnvironment] at h ⊢; omega)
    (fun s t u h₁ h₂ => by simp only [exampleEnvironment] at h₁ h₂ ⊢; omega)

/-! ## Track designs: read-only items, `Delete` and `Rename` -/

/-- What `GetTrackIndex` returns: the index of the first item whose path matches. -/
theorem TrackDesignRepository.GetTrackIndex_some (env : Environment) (path : StdString) :
    ∀ (items : List TrackRepositoryItem) (index : Nat),
      TrackDesignRepository.GetTrackIndex env items path = some index →
      ∃ before item after, items = before ++ item :: after ∧ before.length = index
        ∧ (∀ x ∈ before, env.PathEquals x.Path path = false)
        ∧ env.PathEquals item.Path path = true := by
  intro items
  induction items with
  | nil => intro index h; simp [TrackDesignRepository.GetTrackIndex] at h
  | cons x items ih =>
    intro index h
    unfold TrackDesignRepository.GetTrackIndex at h
    by_cases hx : env.PathEquals x.Path path = true
    · simp only [hx, if_true, Option.some.injEq] at h
      subst h
      exact ⟨[], x, items, rfl, rfl, by simp, hx⟩
    · simp only [hx, Bool.false_eq_true, if_false, Option.map_eq_some'] at h
      obtain ⟨i, hi, rfl⟩ := h
      obtain ⟨before, item, after, hitems, hlen, hbefore, hitem⟩ := ih i hi
      refine ⟨x :: before, item, after, by rw [hitems]; rfl, by simp [hlen], ?_, hitem⟩
      intro y hy
      rcases List.mem_cons.1 hy with rfl | hy
      · simpa using hx
      · exact hbefore y hy

theorem eraseIdx_append_cons {α : Type} (before : List α) (item : α) (after : List α) :
    (before ++ item :: after).eraseIdx before.length = before ++ after := by
  induction before with
  | nil => rfl
  | cons x before ih => simp [ih]

theorem getElem?_append_cons {α : Type} (before : List α) (item : α) (after : List α) :
    (before ++ item :: after)[before.length]? = some item := by
  induction before with
  | nil => simp
  | cons x before ih => simpa using ih

/-- C36: `Create` sets `TRIF_READ_ONLY` in the item it builds from a track design exactly when
the path starts with the first or the second search path (for a path that does not open as a
track design no item is built from the file and no flag is set). For every path that matches
no item, or whose item (the first whose path matches) has `TRIF_READ_ONLY` set, `Delete`
returns false and `Rename` the empty string, no file operation is attempted and the item list
is unchanged; and when `Delete` returns true, the first item whose path matches is the one that
is removed, the other items keeping their order. -/
theorem TrackDesignRepository_read_only_items (env : Environment)
    (self : TrackDesignFileIndex) (language : Int) (path newName : StdString)
    (_items : List TrackRepositoryItem) :
    (env.track_design_open (c_str path) ≠ none →
      ((self.Create env language path).2.Flags &&& TRIF_READ_ONLY ≠ 0
        ↔ ∃ directory ∈ self.toFileIndex.SearchPaths.take 2,
            env.StartsWith path directory = true))
    ∧ (env.track_design_open (c_str path) = none →
        (self.Create env language path).2.Flags &&& TRIF_READ_ONLY = 0)
    ∧ (TrackDesignRepository.GetTrackIndex env _items path = none →
        TrackDesignRepository.Delete env _items path = (false, _items, [])
        ∧ TrackDesignRepository.Rename env _items path newName = ([], _items, []))
    ∧ (∀ index item, TrackDesignRepository.GetTrackIndex env _items path = some index →
        _items[index]? = some item → item.Flags &&& TRIF_READ_ONLY ≠ 0 →
        TrackDesignRepository.Delete env _items path = (false, _items, [])
        ∧ TrackDesignRepository.Rename env _items path newName = ([], _items, []))
    ∧ ((TrackDesignRepository.Delete env _items path).1 = true →
        ∃ before item after, _items = before ++ item :: after
          ∧ (∀ x ∈ before, env.PathEquals x.Path path = false)
          ∧ env.PathEquals item.Path path = true
          ∧ item.Flags &&& TRIF_READ_ONLY = 0
          ∧ (TrackDesignRepository.Delete env _items path).2.1 = before ++ after
          ∧ (TrackDesignRepository.Delete env _items path).2.2
              = [FileOperation.Delete path]) := by
  refine ⟨?_, ?_, ?_, ?_, ?_⟩
  · intro hopen
    unfold TrackDesignFileIndex.Create
    cases h : env.track_design_open (c_str path) with
    | none => exact absurd h hopen
    | some td6 =>
      have hpaths : (∃ directory ∈ self.toFileIndex.SearchPaths.take 2,
            env.StartsWith path directory = true)
          ↔ (env.StartsWith path self.RCT1 = true ∨ env.StartsWith path self.RCT2 = true) := by
        simp [TrackDesignFileIndex.toFileIndex]
      rw [hpaths]
      simp only [TrackDesignFileIndex.IsTrackReadOnly]
      by_cases h1 : env.StartsWith path self.RCT1 = true
      · simp only [h1, Bool.true_or, if_true]
        exact ⟨fun _ => Or.inl trivial, fun _ => by decide⟩
      · by_cases h2 : env.StartsWith path self.RCT2 = true
        · simp only [h2, Bool.or_true, if_true]
          exact ⟨fun _ => Or.inr trivial, fun _ => by decide⟩
        · have h1' : env.StartsWith path self.RCT1 = false := by simpa using h1
          have h2' : env.StartsWith path self.RCT2 = false := by simpa using h2
          simp only [h1', h2', Bool.or_false, Bool.false_eq_true, if_false, or_self, iff_false,
            ne_eq, not_not]
          decide
  · intro hopen
    have hc : self.Create env language path = (true, {}) := by
      simp only [TrackDesignFileIndex.Create, hopen]
    rw [hc]
    decide
  · intro hnone
    simp only [TrackDesignRepository.Delete, TrackDesignRepository.Rename, hnone, and_self]
  · intro index item hindex hitem hflag
    simp only [TrackDesignRepository.Delete, TrackDesignRepository.Rename, hindex, hitem, hflag,
      if_false, and_self]
  · intro htrue
    unfold TrackDesignRepository.Delete at htrue ⊢
    cases hindex : TrackDesignRepository.GetTrackIndex env _items path with
    | none => simp [hindex] at htrue
    | some index =>
      obtain ⟨before, item, after, hitems, hlen, hbefore, hitem⟩ :=
        TrackDesignRepository.GetTrackIndex_some env path _items index hindex
      subst hlen
      have hget : _items[before.length]? = some item := by
        rw [hitems]
        exact getElem?_append_cons before item after
      simp only [hindex, hget] at htrue ⊢
      by_cases hflag : item.Flags &&& TRIF_READ_ONLY = 0
      · by_cases hdel : env.FileDelete path = true
        · rw [if_pos hflag, if_pos hdel]
          refine ⟨before, item, after, hitems, hbefore, hitem, hflag, ?_, rfl⟩
          rw [hitems]
          exact eraseIdx_append_cons before item after
        · simp [hflag, hdel] at htrue
      · simp [hflag] at htrue

/-- A read-only item and an item of the user directory: the first is neither deleted nor
renamed, the second is deleted, and `Create` flags the design under the first search path. -/
theorem TrackDesignRepository_read_only_items_witness :
    (TrackDesignRepository.Delete exampleEnvironment
        [{ Name := [0x61], Path := [0x31, 0x61], RideType := 2, Flags := 1 },
         { Name := [0x62], Path := [0x33, 0x62], RideType := 2, Flags := 0 }] [0x31, 0x61]
      = (false, [{ Name := [0x61], Path := [0x31, 0x61], RideType := 2, Flags := 1 },
         { Name := [0x62], Path := [0x33, 0x62], RideType := 2, Flags := 0 }], [])
      ∧ TrackDesignRepository.Rename exampleEnvironment
        [{ Name := [0x61], Path := [0x31, 0x61], RideType := 2, Flags := 1 },
         { Name := [0x62], Path := [0x33, 0x62], RideType := 2, Flags := 0 }] [0x31, 0x61] [0x7A]
      = ([], [{ Name := [0x61], Path := [0x31, 0x61], RideType := 2, Flags := 1 },
         { Name := [0x62], Path := [0x33, 0x62], RideType := 2, Flags := 0 }], []))
    ∧ TrackDesignRepository.Delete exampleEnvironment
        [{ Name := [0x61], Path := [0x31, 0x61], RideType := 2, Flags := 1 },
         { Name := [0x62], Path := [0x33, 0x62], RideType := 2, Flags := 0 }] [0x33, 0x62]
      = (true, [{ Name := [0x61], Path := [0x31, 0x61], RideType := 2, Flags := 1 }],
          [FileOperation.Delete [0x33, 0x62]])
    ∧ (TrackDesignFileIndex.Create exampleEnvironment ⟨[0x31], [0x32], [0x33]⟩ 0
        [0x31, 0x61]).2.Flags = 1
    ∧ (TrackDesignFileIndex.Create exampleEnvironment ⟨[0x31], [0x32], [0x33]⟩ 0
        [0x33, 0x62]).2.Flags = 0 :=
  ⟨(TrackDesignRepository_read_only_items exampleEnvironment ⟨[0x31], [0x32], [0x33]⟩ 0
      [0x31, 0x61] [0x7A]
      [{ Name := [0x61], Path := [0x31, 0x61], RideType := 2, Flags := 1 },
       { Name := [0x62], Path := [0x33, 0x62], RideType := 2, Flags := 0 }]).2.2.2.1 0
      { Name := [0x61], Path := [0x31, 0x61], RideType := 2, Flags := 1 }
      (by decide) (by decide) (by decide),
   by decide, by decide, by decide⟩

/-! ## Track designs: counts and listings -/

theorem foldl_push_back_if {α β : Type} (p : α → Bool) (f : α → β)
    (step : List β → α → List β)
    (hstep : ∀ refs a, step refs a = if p a = true then refs ++ [f a] else refs) :
    ∀ (l : List α) (refs : List β), l.foldl step refs = refs ++ (l.filter p).map f := by
  intro l
  induction l with
  | nil => intro refs; simp
  | cons a l ih =>
    intro refs
    rw [List.foldl_cons, ih, hstep]
    by_cases hp : p a = true
    · simp [hp]
    · simp [hp]

theorem foldl_count_if {α : Type} (p : α → Bool) (step : Nat → α → Nat)
    (hstep : ∀ count a, step count a = if p a = true then count + 1 else count) :
    ∀ (l : List α) (count : Nat), l.foldl step count = count + (l.filter p).length := by
  intro l
  induction l with
  | nil => intro count; simp
  | cons a l ih =>
    intro count
    rw [List.foldl_cons, ih, hstep]
    by_cases hp : p a = true
    · simp [hp]
      omega
    · simp [hp]

/-- The list and the count for an object entry, told with the test
`TrackDesignRepository.matchesObjectEntry`. -/
theorem TrackDesignRepository.GetItemsForObjectEntry_eq (env : Environment)
    (rideType : Nat) (entry : StdString) (items : List TrackRepositoryItem) :
    TrackDesignRepository.GetItemsForObjectEntry env items rideType entry
        = (items.filter (TrackDesignRepository.matchesObjectEntry env rideType entry)).map
            (fun item => { name := GetNameFromTrackPath env item.Path, path := item.Path })
    ∧ TrackDesignRepository.GetCountForObjectEntry env items rideType entry
        = (items.filter (TrackDesignRepository.matchesObjectEntry env rideType entry)).length := by
  constructor
  · unfold TrackDesignRepository.GetItemsForObjectEntry
    rw [foldl_push_back_if (TrackDesignRepository.matchesObjectEntry env rideType entry)
      (fun item => { name := GetNameFromTrackPath env item.Path, path := item.Path })]
    · simp
    · intro refs item
      unfold TrackDesignRepository.matchesObjectEntry
      by_cases hr : item.RideType = rideType
      · simp only [ne_eq, hr, not_true_eq_false, if_false]
      · simp only [ne_eq, hr, not_false_eq_true, if_true, Bool.false_eq_true, if_false]
  · unfold TrackDesignRepository.GetCountForObjectEntry
    rw [foldl_count_if (TrackDesignRepository.matchesObjectEntry env rideType entry)]
    · simp
    · intro count item
      unfold TrackDesignRepository.matchesObjectEntry
      by_cases hr : item.RideType = rideType
      · simp only [ne_eq, hr, not_true_eq_false, if_false]
      · simp only [ne_eq, hr, not_false_eq_true, if_true, Bool.false_eq_true, if_false]

/-- The list and the count for a ride group, told with the test
`TrackDesignRepository.matchesRideGroup`. -/
theorem TrackDesignRepository.GetItemsForRideGroup_eq (env : Environment)
    (rideType rideGroup : Nat) (items : List TrackRepositoryItem) :
    TrackDesignRepository.GetItemsForRideGroup env items rideType rideGroup
        = (items.filter (TrackDesignRepository.matchesRideGroup env rideType rideGroup)).map
            (fun item => { name := GetNameFromTrackPath env item.Path, path := item.Path })
    ∧ TrackDesignRepository.GetCountForRideGroup env items rideType rideGroup
        = (items.filter (TrackDesignRepository.matchesRideGroup env rideType rideGroup)).length := by
  constructor
  · unfold TrackDesignRepository.GetItemsForRideGroup
    rw [foldl_push_back_if (TrackDesignRepository.matchesRideGroup env rideType rideGroup)
      (fun item => { name := GetNameFromTrackPath env item.Path, path := item.Path })]
    · simp
    · intro refs item
      unfold TrackDesignRepository.matchesRideGroup
      by_cases hr : item.RideType = rideType
      · simp only [ne_eq, hr, not_true_eq_false, if_false]
        generalize env.RideGroupFind rideType _ = found
        cases found <;> simp
      · simp only [ne_eq, hr, not_false_eq_true, if_true, Bool.false_eq_true, if_false]
  · unfold TrackDesignRepository.GetCountForRideGroup
    rw [foldl_count_if (TrackDesignRepository.matchesRideGroup env rideType rideGroup)]
    · simp
    · intro count item
      unfold TrackDesignRepository.matchesRideGroup
      by_cases hr : item.RideType = rideType
      · simp only [ne_eq, hr, not_true_eq_false, if_false]
        generalize env.RideGroupFind rideType _ = found
        cases found <;> simp
      · simp only [ne_eq, hr, not_false_eq_true, if_true, Bool.false_eq_true, if_false]

/-- C37: for every state of the repository, every ride type, every entry string and every
ride group, `GetCountForObjectEntry` equals the length of the list that
`GetItemsForObjectEntry` returns and `GetCountForRideGroup` the length of the list that
`GetItemsForRideGroup` returns; the references are listed in the order of the repository (their
paths form a sublist of the paths of the items), and each has the path of an item of the
repository of that ride type and the name `GetNameFromTrackPath` of that path. -/
theorem TrackDesignRepository_count_agrees_with_listing (env : Environment)
    (_items : List TrackRepositoryItem) (rideType rideGroup : Nat) (entry : StdString) :
    TrackDesignRepository.GetCountForObjectEntry env _items rideType entry
        = (TrackDesignRepository.GetItemsForObjectEntry env _items rideType entry).length
    ∧ TrackDesignRepository.GetCountForRideGroup env _items rideType rideGroup
        = (TrackDesignRepository.GetItemsForRideGroup env _items rideType rideGroup).length
    ∧ ((TrackDesignRepository.GetItemsForObjectEntry env _items rideType entry).map
          (fun ref => ref.path)).Sublist (_items.map (fun item => item.Path))
    ∧ ((TrackDesignRepository.GetItemsForRideGroup env _items rideType rideGroup).map
          (fun ref => ref.path)).Sublist (_items.map (fun item => item.Path))
    ∧ (∀ ref ∈ TrackDesignRepository.GetItemsForObjectEntry env _items rideType entry,
        ∃ item ∈ _items, item.RideType = rideType ∧ ref.path = item.Path
          ∧ ref.name = GetNameFromTrackPath env item.Path)
    ∧ (∀ ref ∈ TrackDesignRepository.GetItemsForRideGroup env _items rideType rideGroup,
        ∃ item ∈ _items, item.RideType = rideType ∧ ref.path = item.Path
          ∧ ref.name = GetNameFromTrackPath env item.Path) := by
  obtain ⟨ho, hoc⟩ := TrackDesignRepository.GetItemsForObjectEntry_eq env rideType entry _items
  obtain ⟨hg, hgc⟩ := TrackDesignRepository.GetItemsForRideGroup_eq env rideType rideGroup _items
  have hro : ∀ item, TrackDesignRepository.matchesObjectEntry env rideType entry item = true →
      item.RideType = rideType := by
    intro item hm
    unfold TrackDesignRepository.matchesObjectEntry at hm
    by_cases hr : item.RideType = rideType
    · exact hr
    · simp [hr] at hm
  have hrg : ∀ item, TrackDesignRepository.matchesRideGroup env rideType rideGroup item = true →
      item.RideType = rideType := by
    intro item hm
    unfold TrackDesignRepository.matchesRideGroup at hm
    by_cases hr : item.RideType = rideType
    · exact hr
    · simp [hr] at hm
  rw [ho, hg, hoc, hgc]
  refine ⟨by simp, by simp, ?_, ?_, ?_, ?_⟩
  · rw [List.map_map]
    exact (List.filter_sublist _).map _
  · rw [List.map_map]
    exact (List.filter_sublist _).map _
  · intro ref href
    simp only [List.mem_map, List.mem_filter] at href
    obtain ⟨item, ⟨hmem, hm⟩, rfl⟩ := href
    exact ⟨item, hmem, hro item hm, rfl, rfl⟩
  · intro ref href
    simp only [List.mem_map, List.mem_filter] at href
    obtain ⟨item, ⟨hmem, hm⟩, rfl⟩ := href
    exact ⟨item, hmem, hrg item hm, rfl, rfl⟩

/-- A cache file whose header matches the scan of one file and which holds one item: the call
hits the cache and returns that item, though `Create` would yield another. -/
theorem LoadOrBuild_cache_hit_witness :
    LoadOrBuild ⟨false, true, false, 0⟩
        { _magicNumber := 1, _version := 1, SearchPaths := [[0x2F]] }
        (fun _ => [⟨[0x61], 0, 0⟩]) (fun _ path => (true, UInt8.ofNat path.length))
        byteSerialise byteDeserialise 5 []
        ⟨some (FileIndexHeader.toBytes ⟨false, true, false, 0⟩
          { HeaderSize := 36, MagicNumber := 1, VersionA := 4, VersionB := 1, LanguageId := 5,
            Stats := (Scan ⟨false, true, false, 0⟩ (fun _ => [⟨[0x61], 0, 0⟩])
              { _magicNumber := 1, _version := 1, SearchPaths := [[0x2F]] }).Stats,
            NumItems := 1 } ++ [7]), true, true, 100⟩
      = some ((ReadIndexFile ⟨false, true, false, 0⟩
          { _magicNumber := 1, _version := 1, SearchPaths := [[0x2F]] } byteDeserialise 5
          (Scan ⟨false, true, false, 0⟩ (fun _ => [⟨[0x61], 0, 0⟩])
            { _magicNumber := 1, _version := 1, SearchPaths := [[0x2F]] }).Stats
          ⟨some (FileIndexHeader.toBytes ⟨false, true, false, 0⟩
            { HeaderSize := 36, MagicNumber := 1, VersionA := 4, VersionB := 1, LanguageId := 5,
              Stats := (Scan ⟨false, true, false, 0⟩ (fun _ => [⟨[0x61], 0, 0⟩])
                { _magicNumber := 1, _version := 1, SearchPaths := [[0x2F]] }).Stats,
              NumItems := 1 } ++ [7]), true, true, 100⟩).2,
        ⟨some (FileIndexHeader.toBytes ⟨false, true, false, 0⟩
          { HeaderSize := 36, MagicNumber := 1, VersionA := 4, VersionB := 1, LanguageId := 5,
            Stats := (Scan ⟨false, true, false, 0⟩ (fun _ => [⟨[0x61], 0, 0⟩])
              { _magicNumber := 1, _version := 1, SearchPaths := [[0x2F]] }).Stats,
            NumItems := 1 } ++ [7]), true, true, 100⟩) :=
  (LoadOrBuild_cache_hit ⟨false, true, false, 0⟩
    { _magicNumber := 1, _version := 1, SearchPaths := [[0x2F]] }
    (fun _ => [⟨[0x61], 0, 0⟩]) (fun _ path => (true, UInt8.ofNat path.length))
    byteSerialise byteDeserialise 5 []
    ⟨some (FileIndexHeader.toBytes ⟨false, true, false, 0⟩
      { HeaderSize := 36, MagicNumber := 1, VersionA := 4, VersionB := 1, LanguageId := 5,
        Stats := (Scan ⟨false, true, false, 0⟩ (fun _ => [⟨[0x61], 0, 0⟩])
          { _magicNumber := 1, _version := 1, SearchPaths := [[0x2F]] }).Stats,
        NumItems := 1 } ++ [7]), true, true, 100⟩ (by decide)).1

/-- The repository of the examples builds an item for a file that does not open: the file
"1!" lies in the first search path "1", and its item has an empty path and no flag. -/
theorem TrackDesignFileIndex.Create_example :
    exampleEnvironment.track_design_open (c_str [0x31, 0x21]) = none
    ∧ exampleEnvironment.StartsWith [0x31, 0x21] [0x31] = true
    ∧ TrackDesignFileIndex.Create exampleEnvironment ⟨[0x31], [0x32], [0x33]⟩ 0 [0x31, 0x21]
        = (true, { Name := [], Path := [], RideType := 255, ObjectEntry := [], Flags := 0 })
    ∧ ([[0x33, 0x61], [0x33, 0x21]].filterMap
        (createdItem (TrackDesignFileIndex.Create exampleEnvironment ⟨[0x31], [0x32], [0x33]⟩)
          0)).length = 2 := by
  refine ⟨by decide, by decide, by decide, by decide⟩

end OpenRCT2
